import Mathlib

/-!
# Verification of the `cods` expression-language evaluator

Shallow embedding of the evaluator pipeline of the `comeondosomething`
repository (crate `cods`), translated from `src/cods/src/eval/mod.rs`,
`src/cods/src/eval/val.rs`, `src/cods/src/error.rs` and
`src/cods/src/lib.rs`.

Modelling conventions:

* Rust `i128` values are embedded as unbounded `Int` together with an
  explicit range check `fitsI128`; the `checked_*` operations of the source
  are embedded as range-checked operations.  Raw `i128` arithmetic that can
  overflow (`%`, `/`, `i128::pow`) is embedded with an explicit `panic`
  outcome, matching the overflow panic of Rust debug builds.
* Rust `f64` values are embedded as exact rationals extended with the IEEE
  special values `inf`, `neginf` and `nan` (type `FVal`).  Arithmetic on
  finite values is exact instead of rounded; comparisons involving `nan`
  are `false` as in IEEE-754.  `f64::powf` with a non-integral exponent is
  irrational in general and is modelled as `nan`; no verified claim
  depends on that branch.
* The identifier interner is modelled by using the identifier's name
  (`String`) directly.
* The embedded `AstT` covers every arm of the source `AstT`
  (`eval/mod.rs`).  The irrational-valued `f64` primitives (`to_radians`,
  `ln`, `log`, `sqrt` and the trigonometric functions) are embedded as
  total functions that are exact where an exact rational value exists and
  `nan` elsewhere; they never fail, which is all any claim depends on.
* `def_fun`/`resolve_fun` (function definition and resolution) live in
  `eval/scope.rs`, absent from the sources; they are modelled from the
  spec as a per-scope function table, an unknown function failing at the
  identifier's span and redefinition being rejected at check time (so
  `def_fun` is total).
* The token types `Par`, `Op` and `Sep` referenced by `Error` live in the
  `token` module, absent from the sources; only their span is relevant to
  `Error::ranges`, so they are modelled as span-carrying records.
-/

set_option maxRecDepth 100000

namespace Cods

/-- Byte span into the source, `src/cods/src/eval/mod.rs` uses the name
`CRange` (struct with `start`/`end` fields); the field `end` is renamed
`stop` because `end` is a Lean keyword. -/
structure CRange where
  start : Nat
  stop : Nat
deriving DecidableEq, Repr

/-- `CRange::pos(p)`: the zero-width span at `p`. -/
def CRange.pos (p : Nat) : CRange := ⟨p, p + 1⟩

/-- `CRange::of(a, b)`. -/
def CRange.of (a b : Nat) : CRange := ⟨a, b⟩

/-- Smallest `i128` value, `-2^127`. -/
def I128_MIN : Int := -(2 ^ 127)

/-- Largest `i128` value, `2^127 - 1`. -/
def I128_MAX : Int := 2 ^ 127 - 1

/-- Whether an unbounded integer is representable as an `i128`. -/
def fitsI128 (i : Int) : Bool := decide (I128_MIN ≤ i ∧ i ≤ I128_MAX)

/-- `i128::checked_add`. -/
def i128CheckedAdd (a b : Int) : Option Int :=
  if fitsI128 (a + b) then some (a + b) else none

/-- `i128::checked_sub`. -/
def i128CheckedSub (a b : Int) : Option Int :=
  if fitsI128 (a - b) then some (a - b) else none

/-- `i128::checked_mul`. -/
def i128CheckedMul (a b : Int) : Option Int :=
  if fitsI128 (a * b) then some (a * b) else none

/-- Rust's `%` on `i128`: truncated remainder.  `none` models the panic of
a debug build (divisor `0`, or overflowing `i128::MIN % -1`). -/
def i128Rem (a b : Int) : Option Int :=
  if b = 0 then none
  else if a = I128_MIN ∧ b = -1 then none
  else some (a.tmod b)

/-- Rust's `/` on `i128`: truncated division.  `none` models the panic of
a debug build (divisor `0`, or overflowing `i128::MIN / -1`). -/
def i128Div (a b : Int) : Option Int :=
  if b = 0 then none
  else if a = I128_MIN ∧ b = -1 then none
  else some (a.tdiv b)

/-- Rust's `i128::pow` (exponent `u32`): `none` models the overflow panic
of a debug build. -/
def i128Pow (base : Int) (e : Nat) : Option Int :=
  if fitsI128 (base ^ e) then some (base ^ e) else none

/-- Largest `u32` value. -/
def U32_MAX : Int := 2 ^ 32 - 1

/-- Smallest `i32` value. -/
def I32_MIN : Int := -(2 ^ 31)

/-- Largest `i32` value. -/
def I32_MAX : Int := 2 ^ 31 - 1

/-! ## The `f64` model -/

/-- Model of a Rust `f64`: an exact rational, or one of the IEEE special
values.  Arithmetic on finite values is exact (not rounded); `-0.0` is
identified with `0.0` (they compare equal in IEEE-754, and no claim
distinguishes them). -/
inductive FVal where
  | finite (q : ℚ)
  | inf
  | neginf
  | nan
deriving DecidableEq, Repr

namespace FVal

/-- `f64` equality (`==`): `nan` is not equal to anything, including
itself. -/
def beq : FVal → FVal → Bool
  | finite a, finite b => a = b
  | inf, inf => true
  | neginf, neginf => true
  | _, _ => false

/-- `f64` strict order (`<`): any comparison involving `nan` is false. -/
def lt : FVal → FVal → Bool
  | finite a, finite b => a < b
  | finite _, inf => true
  | neginf, finite _ => true
  | neginf, inf => true
  | _, _ => false

/-- `f64` order (`<=`). -/
def le (a b : FVal) : Bool := lt a b || beq a b

/-- `f64` addition. -/
def add : FVal → FVal → FVal
  | finite a, finite b => finite (a + b)
  | nan, _ | _, nan => nan
  | inf, neginf | neginf, inf => nan
  | inf, _ | _, inf => inf
  | neginf, _ | _, neginf => neginf

/-- `f64` negation. -/
def neg : FVal → FVal
  | finite a => finite (-a)
  | inf => neginf
  | neginf => inf
  | nan => nan

/-- `f64` subtraction. -/
def sub (a b : FVal) : FVal := add a (neg b)

/-- Sign-aware infinite product helper: the signed infinity matching the
sign of a nonzero rational. -/
def infOfSign (q : ℚ) : FVal := if 0 < q then inf else neginf

/-- `f64` multiplication. -/
def mul : FVal → FVal → FVal
  | finite a, finite b => finite (a * b)
  | nan, _ | _, nan => nan
  | inf, inf | neginf, neginf => inf
  | inf, neginf | neginf, inf => neginf
  | inf, finite b | finite b, inf => if b = 0 then nan else infOfSign b
  | neginf, finite b | finite b, neginf => if b = 0 then nan else infOfSign (-b)

/-- `f64` division. -/
def div : FVal → FVal → FVal
  | finite a, finite b =>
    if b = 0 then (if a = 0 then nan else infOfSign a) else finite (a / b)
  | nan, _ | _, nan => nan
  | inf, inf | inf, neginf | neginf, inf | neginf, neginf => nan
  | finite _, inf | finite _, neginf => finite 0
  | inf, finite b => if 0 ≤ b then inf else neginf
  | neginf, finite b => if 0 ≤ b then neginf else inf

/-- `f64::powi` with an `i32` exponent, exact on finite values; a zero
exponent yields `1.0` for every base (including the special values), and
an even positive exponent of `neginf` yields `inf`, as in IEEE `pown`. -/
def powi : FVal → Int → FVal
  | finite q, e =>
    if 0 ≤ e then finite (q ^ e.toNat)
    else if q = 0 then inf
    else finite (q⁻¹ ^ (-e).toNat)
  | nan, e => if e = 0 then finite 1 else nan
  | inf, e => if e = 0 then finite 1 else if 0 ≤ e then inf else finite 0
  | neginf, e =>
    if e = 0 then finite 1
    else if 0 ≤ e then (if e % 2 = 0 then inf else neginf)
    else finite 0

/-- `f64::powf`.  A non-integral exponent yields an irrational result in
general, which the exact-rational model cannot represent; that branch is
modelled as `nan`.  No verified claim depends on it. -/
def powf : FVal → FVal → FVal
  | a, finite q => if q.den = 1 then powi a q.num else nan
  | _, _ => nan

/-- `f64::clamp(min, max)`; only called by the source after establishing
`min <= max`, so the panicking precondition cannot fire. -/
def clamp (num mn mx : FVal) : FVal :=
  if lt num mn then mn else if lt mx num then mx else num

/-! The irrational-valued `f64` primitives (`to_radians`, `ln`, `log`,
`sqrt` and the trigonometric functions) cannot be represented in the
exact-rational model except at isolated points; each is embedded as a
total function that is exact where an exact rational value (or an IEEE
special value) exists and `nan` elsewhere.  This matches the source in
the one respect the claims depend on: these primitives never fail, so
the evaluator arms calling them can only propagate operand errors. -/

/-- `f64::to_radians` (`x * PI / 180`, irrational for nonzero finite
inputs). -/
def toRadians : FVal → FVal
  | finite q => if q = 0 then finite 0 else nan
  | inf => inf
  | neginf => neginf
  | nan => nan

/-- `f64::ln`: exact on `0` (`-inf`), `1` (`0`), negatives (`nan`) and
the special values; irrational elsewhere. -/
def ln : FVal → FVal
  | finite q =>
    if q < 0 then nan else if q = 0 then neginf else if q = 1 then finite 0 else nan
  | inf => inf
  | neginf => nan
  | nan => nan

/-- `f64::log(self, base)` (`self.ln() / base.ln()`). -/
def log (n b : FVal) : FVal := div n.ln b.ln

/-- `f64::sqrt`: exact on negatives (`nan`), perfect squares and the
special values; irrational elsewhere. -/
def sqrt : FVal → FVal
  | finite q =>
    if q < 0 then nan
    else
      let sn := Nat.sqrt q.num.toNat
      let sd := Nat.sqrt q.den
      if sn * sn = q.num.toNat && sd * sd = q.den then finite (mkRat sn sd) else nan
  | inf => inf
  | neginf => nan
  | nan => nan

/-- `f64::sin`: exact at `0` and on the special values (`nan`). -/
def sin : FVal → FVal
  | finite q => if q = 0 then finite 0 else nan
  | _ => nan

/-- `f64::cos`: exact at `0` and on the special values (`nan`). -/
def cos : FVal → FVal
  | finite q => if q = 0 then finite 1 else nan
  | _ => nan

/-- `f64::tan`: exact at `0` and on the special values (`nan`). -/
def tan : FVal → FVal
  | finite q => if q = 0 then finite 0 else nan
  | _ => nan

/-- `f64::asin`: exact at `0`; out-of-domain inputs are already `nan`. -/
def asin : FVal → FVal
  | finite q => if q = 0 then finite 0 else nan
  | _ => nan

/-- `f64::acos`: exact at `1`; out-of-domain inputs are already `nan`. -/
def acos : FVal → FVal
  | finite q => if q = 1 then finite 0 else nan
  | _ => nan

/-- `f64::atan`: exact at `0`; `atan(±inf) = ±π/2` is irrational. -/
def atan : FVal → FVal
  | finite q => if q = 0 then finite 0 else nan
  | _ => nan

end FVal

/-- Truncation of a rational toward zero (the rounding used by Rust's
float-to-int `as` casts). -/
def ratTrunc (q : ℚ) : Int := q.num.tdiv q.den

/-- Rust's `f64 as i128` cast: truncate toward zero, saturating at the
`i128` range; `nan` becomes `0`. -/
def f64AsI128 : FVal → Int
  | .finite q =>
    let i := ratTrunc q
    if i < I128_MIN then I128_MIN else if I128_MAX < i then I128_MAX else i
  | .inf => I128_MAX
  | .neginf => I128_MIN
  | .nan => 0

/-- Rust's `i128 as f64` cast, exact in the rational model. -/
def i128AsF64 (i : Int) : FVal := .finite (i : ℚ)

/-! ## Values -/

/-- `Range` values (`Range::Exclusive` / `Range::Inclusive` from the
evaluator). -/
inductive Range where
  | exclusive (a b : Int)
  | inclusive (a b : Int)
deriving DecidableEq, Repr

/-- The integers a `Range` value iterates over (`Range::iter`). -/
def Range.iterList : Range → List Int
  | .exclusive a b => (List.range (b - a).toNat).map (fun (n : Nat) => a + (n : Int))
  | .inclusive a b => (List.range (b - a + 1).toNat).map (fun (n : Nat) => a + (n : Int))

/-- `Val` (`src/cods/src/eval`): the evaluator's value type. -/
inductive Val where
  | int (i : Int)
  | float (f : FVal)
  | bool (b : Bool)
  | str (s : String)
  | range (r : Range)
deriving DecidableEq, Repr

namespace Val

/-- Rust's derived `PartialEq` on `Val`: cross-variant comparisons are
false, `Float` uses `f64` equality (so `NaN != NaN`). -/
def beq : Val → Val → Bool
  | int a, int b => a = b
  | float a, float b => FVal.beq a b
  | bool a, bool b => a = b
  | str a, str b => a = b
  | range a, range b => a = b
  | _, _ => false

/-- `Val::to_int` (`eval/val.rs`). -/
def toInt : Val → Option Int
  | int i => some i
  | _ => none

/-- `Val::to_f64` (`eval/val.rs`).  `Range` is absent from the `val.rs`
match in the sources (version skew with `eval/mod.rs`); it is completed
with `none` like the other non-numeric variants. -/
def toF64 : Val → Option FVal
  | int i => some (i128AsF64 i)
  | float f => some f
  | _ => none

/-- `Val::to_bool` (`eval/val.rs`). -/
def toBool : Val → Option Bool
  | bool b => some b
  | _ => none

/-- `Val::convert_to_int` (`eval/val.rs`): an `Int` is returned as is; a
`Float` is converted when casting it to `i128` and back compares equal
(`i as f64 == *f`); everything else is not converted. -/
def convertToInt : Val → Option Int
  | int i => some i
  | float f =>
    let i := f64AsI128 f
    if FVal.beq (i128AsF64 i) f then some i else none
  | _ => none

end Val

/-- `ValRange` (`eval/val.rs`): a value together with its span. -/
structure ValRange where
  val : Val
  range : CRange
deriving DecidableEq, Repr

/-- `Return` (`eval/val.rs`): the result of evaluating one AST node. -/
inductive Return where
  | val (v : ValRange)
  | unit (r : CRange)
deriving DecidableEq, Repr

/-- `Return::range`. -/
def Return.range : Return → CRange
  | .val v => v.range
  | .unit r => r

/-! ## Errors (`src/cods/src/error.rs`) -/

/-- Modelled from the spec: the lexer token type `Par` lives in the
`token` module, absent from the sources; `Error::ranges` only reads its
span. -/
structure Par where
  range : CRange
deriving DecidableEq, Repr

/-- Modelled from the spec: the lexer token type `Op`, absent from the
sources; only its span is read. -/
structure Op where
  range : CRange
deriving DecidableEq, Repr

/-- Modelled from the spec: the lexer token type `Sep`, absent from the
sources; only its span is read. -/
structure Sep where
  range : CRange
deriving DecidableEq, Repr

/-- `Error` (`src/cods/src/error.rs`), with the payloads of the source.
`ExpectedInt`, `ExpectedStr` and `ExpectedRange` are referenced by
`eval/val.rs` and `eval/mod.rs` but missing from `error.rs` (version skew
in the sources); they are included as the spec lists them
(`ExpectedNumber|ExpectedBool|ExpectedValue|ExpectedInt|ExpectedStr`
carrying a value with span), with `ranges` returning the value's span.
`UndefinedFun` is likewise produced by `resolve_fun` (in the absent
`eval/scope.rs`) and modelled from the spec symmetrically to the
source's `UndefinedVar`: the unknown name with the use-site span. -/
inductive Error where
  | missingExpr
  | expectedValue (r : CRange)
  | expectedNumber (v : ValRange)
  | expectedBool (v : ValRange)
  | expectedInt (v : ValRange)
  | expectedStr (v : ValRange)
  | expectedRange (v : ValRange)
  | parsing (r : CRange)
  | missingOperand (r : CRange)
  | missingOperator (r : CRange)
  | missingClosingParenthesis (p : Par)
  | missingFunctionParentheses (r : CRange)
  | missingFunArgs (range : CRange) (expected found : Nat)
  | unexpectedFunArgs (ranges : List CRange) (expected found : Nat)
  | unexpectedOperator (o : Op)
  | unexpectedSeparator (s : Sep)
  | unexpectedParenthesis (p : Par)
  | invalidChar (r : CRange)
  | undefinedVar (name : String) (r : CRange)
  | undefinedFun (name : String) (r : CRange)
  | invalidNumberFormat (r : CRange)
  | addOverflow (a b : ValRange)
  | subOverflow (a b : ValRange)
  | mulOverflow (a b : ValRange)
  | powOverflow (a b : ValRange)
  | divideByZero (a b : ValRange)
  | fractionEuclidDiv (a b : ValRange)
  | remainderByZero (a b : ValRange)
  | fractionRemainder (a b : ValRange)
  | fractionGcd (a b : ValRange)
  | negativeNcr (a : ValRange)
  | invalidNcr (a b : ValRange)
  | fractionNcr (a b : ValRange)
  | factorialOverflow (v : ValRange)
  | negativeFactorial (v : ValRange)
  | fractionFactorial (v : ValRange)
  | invalidClampBounds (min max : ValRange)
  | invalidBwOr (a b : ValRange)
  | invalidBwAnd (a b : ValRange)
  | invalidAssignment (a b : CRange)
  | assertFailed (r : CRange)
  | assertEqFailed (a b : ValRange)
deriving DecidableEq, Repr

/-- `Error::ranges` (the `UserFacing` impl in `error.rs`). -/
def Error.ranges : Error → List CRange
  | .missingExpr => []
  | .expectedValue r => [r]
  | .expectedNumber v => [v.range]
  | .expectedBool v => [v.range]
  | .expectedInt v => [v.range]
  | .expectedStr v => [v.range]
  | .expectedRange v => [v.range]
  | .parsing r => [r]
  | .missingOperand r => [r]
  | .missingOperator r => [r]
  | .missingClosingParenthesis p => [p.range]
  | .missingFunctionParentheses r => [r]
  | .missingFunArgs r _ _ => [r]
  | .unexpectedFunArgs rs _ _ => rs
  | .unexpectedOperator o => [o.range]
  | .unexpectedSeparator s => [s.range]
  | .unexpectedParenthesis p => [p.range]
  | .invalidChar r => [r]
  | .undefinedVar _ r => [r]
  | .undefinedFun _ r => [r]
  | .invalidNumberFormat r => [r]
  | .addOverflow a b => [a.range, b.range]
  | .subOverflow a b => [a.range, b.range]
  | .mulOverflow a b => [a.range, b.range]
  | .powOverflow a b => [a.range, b.range]
  | .divideByZero a b => [a.range, b.range]
  | .fractionEuclidDiv a b => [a.range, b.range]
  | .remainderByZero a b => [a.range, b.range]
  | .fractionRemainder a b => [a.range, b.range]
  | .fractionGcd a b => [a.range, b.range]
  | .negativeNcr a => [a.range]
  | .invalidNcr a b => [a.range, b.range]
  | .fractionNcr a b => [a.range, b.range]
  | .factorialOverflow v => [v.range]
  | .negativeFactorial v => [v.range]
  | .fractionFactorial v => [v.range]
  | .invalidClampBounds mn mx => [mn.range, mx.range]
  | .invalidBwOr a b => [a.range, b.range]
  | .invalidBwAnd a b => [a.range, b.range]
  | .invalidAssignment a b => [a, b]
  | .assertFailed r => [r]
  | .assertEqFailed a b => [a.range, b.range]

/-- Failure outcome of evaluation: a reported `Error`, a Rust panic
(arithmetic overflow of a raw operation in a debug build, or the
`expect` in `min`/`max`), or exhaustion of the fuel that makes the
embedding of the source's unbounded `while` loops total. -/
inductive Failure where
  | err (e : Error)
  | panic
  | fuel
deriving DecidableEq, Repr

/-- Evaluation result. -/
abbrev Res (α : Type) : Type := Except Failure α

/-- Decidable equality of results, for evaluating the embedding on
concrete programs. -/
instance {ε α : Type} [DecidableEq ε] [DecidableEq α] : DecidableEq (Except ε α)
  | .ok a, .ok b =>
    match decEq a b with
    | .isTrue h => .isTrue (by rw [h])
    | .isFalse h => .isFalse (by intro hc; cases hc; exact h rfl)
  | .error a, .error b =>
    match decEq a b with
    | .isTrue h => .isTrue (by rw [h])
    | .isFalse h => .isFalse (by intro hc; cases hc; exact h rfl)
  | .ok _, .error _ => .isFalse (by intro hc; cases hc)
  | .error _, .ok _ => .isFalse (by intro hc; cases hc)

/-! ## The AST (`src/cods/src/eval/mod.rs`) -/

/-- `IdentRange`: an interned identifier with its span; the interner is
modelled by the name itself. -/
structure IdentRange where
  ident : String
  range : CRange
deriving DecidableEq, Repr

/-- `ExprT` (`Val` literal or identifier). -/
inductive ExprT where
  | val (v : Val)
  | ident (id : String)
deriving DecidableEq, Repr

/-- `Expr`. -/
structure Expr where
  typ : ExprT
  range : CRange
deriving DecidableEq, Repr

mutual

/-- `Ast`: a node kind together with its span. -/
inductive Ast where
  | mk (typ : AstT) (range : CRange)

/-- `AstT` (`eval/mod.rs`), covering every arm of the source enum. -/
inductive AstT where
  | empty
  | error
  | expr (e : Expr)
  | block (asts : List Ast)
  | ifExpr (cases : List CondBlock) (elseBlock : Option Block)
  | whileLoop (c : CondBlock)
  | forLoop (ident : IdentRange) (iter : Ast) (block : Block)
  | funDef (id : IdentRange) (params : List IdentRange) (block : Block)
  | funCall (id : IdentRange) (args : List Ast)
  | varDef (id : IdentRange) (b : Ast) (mutable : Bool)
  | assign (id : IdentRange) (b : Ast)
  | addAssign (id : IdentRange) (b : Ast)
  | subAssign (id : IdentRange) (b : Ast)
  | mulAssign (id : IdentRange) (b : Ast)
  | divAssign (id : IdentRange) (b : Ast)
  | rangeEx (a b : Ast)
  | rangeIn (a b : Ast)
  | neg (a : Ast)
  | add (a b : Ast)
  | sub (a b : Ast)
  | mul (a b : Ast)
  | div (a b : Ast)
  | intDiv (a b : Ast)
  | rem (a b : Ast)
  | pow (a b : Ast)
  | eq (a b : Ast)
  | ne (a b : Ast)
  | lt (a b : Ast)
  | le (a b : Ast)
  | gt (a b : Ast)
  | ge (a b : Ast)
  | or (a b : Ast)
  | and (a b : Ast)
  | bwOr (a b : Ast)
  | bwAnd (a b : Ast)
  | not (a : Ast)
  | degree (a : Ast)
  | radian (a : Ast)
  | factorial (a : Ast)
  | ln (a : Ast)
  | log (a b : Ast)
  | sqrt (a : Ast)
  | ncr (a b : Ast)
  | sin (a : Ast)
  | cos (a : Ast)
  | tan (a : Ast)
  | asin (a : Ast)
  | acos (a : Ast)
  | atan (a : Ast)
  | gcd (a b : Ast)
  | min (args : List Ast)
  | max (args : List Ast)
  | clamp (num mn mx : Ast)
  | print (args : List Ast)
  | println (args : List Ast)
  | spill
  | assert (a : Ast)
  | assertEq (a b : Ast)

/-- `CondBlock`: a condition with a block (used by `if` and `while`). -/
inductive CondBlock where
  | mk (cond : Ast) (block : List Ast) (range : CRange)

/-- `Block`: a list of statements with a span. -/
inductive Block where
  | mk (asts : List Ast) (range : CRange)

end

/-- `Ast::typ`. -/
def Ast.typ : Ast → AstT
  | .mk t _ => t

/-- `Ast::range`. -/
def Ast.range : Ast → CRange
  | .mk _ r => r

/-- `CondBlock::cond`. -/
def CondBlock.cond : CondBlock → Ast
  | .mk c _ _ => c

/-- `CondBlock::block`. -/
def CondBlock.block : CondBlock → List Ast
  | .mk _ b _ => b

/-- `CondBlock::range`. -/
def CondBlock.range : CondBlock → CRange
  | .mk _ _ r => r

/-- `Block::asts`. -/
def Block.asts : Block → List Ast
  | .mk a _ => a

/-- `Block::range`. -/
def Block.range : Block → CRange
  | .mk _ r => r

/-! ## Evaluation context -/

/-- `Fun`: a user-defined function as stored by `def_fun` and used by
`fun_call` (`fun.params`, `fun.block`); its storage lives in the absent
`eval/scope.rs`, its shape is fixed by the usage in `eval/mod.rs`. -/
structure Fun where
  params : List IdentRange
  block : Block

/-- A variable entry in a scope.  Modelled from the spec: `eval/scope.rs`
is absent from the sources; the usage in `eval/mod.rs`
(`scope.def_var(ident, Some(val), mutable)`) fixes the shape. -/
structure Var where
  value : Option Val
  mutable : Bool
deriving DecidableEq, Repr

/-- A lexical scope: a map from names to variables and one from names to
functions, both modelled as association lists (`eval/scope.rs` is absent
from the sources; `spill` in `eval/mod.rs` iterates `s.vars`, and
`def_fun`/`resolve_fun` fix the function table). -/
structure Scope where
  vars : List (String × Var)
  funs : List (String × Fun)

/-- The empty scope (`Scope::default()`). -/
def Scope.default : Scope := ⟨[], []⟩

/-- `Scope::def_var`: define (or overwrite) a variable in this scope. -/
def Scope.defVar (s : Scope) (id : IdentRange) (v : Option Val) (m : Bool) : Scope :=
  ⟨(id.ident, ⟨v, m⟩) :: s.vars.filter (fun p => p.1 ≠ id.ident), s.funs⟩

/-- The evaluator's mutable state: the scope stack (innermost first) and
the bytes written to the output sink. -/
structure Ctx where
  scopes : List Scope
  output : String

/-- The initial context: one global scope, empty output. -/
def Ctx.initial : Ctx := ⟨[Scope.default], ""⟩

/-- Look a name up in one scope. -/
def Scope.lookup (s : Scope) (name : String) : Option Var :=
  (s.vars.find? (fun p => p.1 = name)).map Prod.snd

/-- Modelled from the spec: `Context::resolve_var` (in the absent
`eval/scope.rs`): walk the scope stack innermost-out; an unknown name is
`UndefinedVar` at the identifier's span; a found value is returned at the
identifier's span. -/
def Ctx.resolveVar (ctx : Ctx) (id : IdentRange) : Res ValRange :=
  match ctx.scopes.findSome? (fun s => s.lookup id.ident) with
  | some vr =>
    match vr.value with
    | some v => .ok ⟨v, id.range⟩
    | none => .error (.err (.undefinedVar id.ident id.range))
  | none => .error (.err (.undefinedVar id.ident id.range))

/-- Update the first scope containing `name`; `none` if no scope does. -/
def setVarInScopes (name : String) (v : Option Val) : List Scope → Option (List Scope)
  | [] => none
  | s :: rest =>
    if (s.lookup name).isSome then
      some (⟨s.vars.map (fun p => if p.1 = name then (p.1, ⟨v, p.2.mutable⟩) else p),
        s.funs⟩ :: rest)
    else
      (setVarInScopes name v rest).map (s :: ·)

/-- Modelled from the spec: `Context::set_var` (in the absent
`eval/scope.rs`): assign to the variable where it is visible, defining it
in the innermost scope when it does not exist yet (the sources' test
`"x = 7; x"` evaluates to `7`, so plain assignment must define). -/
def Ctx.setVar (ctx : Ctx) (id : IdentRange) (v : Option Val) : Ctx :=
  match setVarInScopes id.ident v ctx.scopes with
  | some scopes => { ctx with scopes }
  | none =>
    match ctx.scopes with
    | [] => { ctx with scopes := [Scope.default.defVar id v false] }
    | s :: rest => { ctx with scopes := s.defVar id v false :: rest }

/-- `Context::def_var`: define in the innermost scope. -/
def Ctx.defVar (ctx : Ctx) (id : IdentRange) (v : Option Val) (m : Bool) : Ctx :=
  match ctx.scopes with
  | [] => { ctx with scopes := [Scope.default.defVar id v m] }
  | s :: rest => { ctx with scopes := s.defVar id v m :: rest }

/-- Push a fresh scope. -/
def Ctx.pushScope (ctx : Ctx) (s : Scope) : Ctx := { ctx with scopes := s :: ctx.scopes }

/-- Pop the innermost scope. -/
def Ctx.popScope (ctx : Ctx) : Ctx := { ctx with scopes := ctx.scopes.tail }

/-- Look a function name up in one scope. -/
def Scope.lookupFun (s : Scope) (name : String) : Option Fun :=
  (s.funs.find? (fun p => p.1 = name)).map Prod.snd

/-- `Scope::def_fun`: define (or overwrite) a function in this scope. -/
def Scope.defFun (s : Scope) (id : IdentRange) (params : List IdentRange)
    (blk : Block) : Scope :=
  { s with funs := (id.ident, ⟨params, blk⟩) :: s.funs.filter (fun p => p.1 ≠ id.ident) }

/-- Modelled from the spec: `Context::resolve_fun` (in the absent
`eval/scope.rs`): walk the scope stack innermost-out; an unknown name is
`UndefinedFun` at the identifier's span. -/
def Ctx.resolveFun (ctx : Ctx) (id : IdentRange) : Res Fun :=
  match ctx.scopes.findSome? (fun s => s.lookupFun id.ident) with
  | some fn => .ok fn
  | none => .error (.err (.undefinedFun id.ident id.range))

/-- Modelled from the spec: `Context::def_fun` (in the absent
`eval/scope.rs`): define in the innermost scope.  Per the spec,
redefinition in the same scope is rejected at check time (before
evaluation), so the eval-time definition itself is total. -/
def Ctx.defFun (ctx : Ctx) (id : IdentRange) (params : List IdentRange)
    (blk : Block) : Ctx :=
  match ctx.scopes with
  | [] => { ctx with scopes := [Scope.default.defFun id params blk] }
  | s :: rest => { ctx with scopes := s.defFun id params blk :: rest }

/-! ## Conversions with errors (`eval/val.rs`) -/

/-- `Return::into_val`. -/
def Return.intoVal : Return → Res ValRange
  | .val v => .ok v
  | .unit r => .error (.err (.expectedValue r))

/-- `ValRange::to_int`. -/
def ValRange.toIntR (v : ValRange) : Res Int :=
  match v.val.toInt with
  | some i => .ok i
  | none => .error (.err (.expectedInt v))

/-- `Val::to_range` (the `Range` analogue of the other accessors; the
`eval_to_range` caller is in `eval/mod.rs`). -/
def Val.toRange : Val → Option Range
  | .range r => some r
  | _ => none

/-- `ValRange::to_range`. -/
def ValRange.toRangeR (v : ValRange) : Res Range :=
  match v.val.toRange with
  | some r => .ok r
  | none => .error (.err (.expectedRange v))

/-- `ValRange::to_f64`. -/
def ValRange.toF64R (v : ValRange) : Res FVal :=
  match v.val.toF64 with
  | some f => .ok f
  | none => .error (.err (.expectedNumber v))

/-- `ValRange::to_bool`. -/
def ValRange.toBoolR (v : ValRange) : Res Bool :=
  match v.val.toBool with
  | some b => .ok b
  | none => .error (.err (.expectedBool v))

/-! ## Arithmetic helpers (`eval/mod.rs`, bottom of the file) -/

/-- `checked_add`. -/
def checkedAdd (va vb : ValRange) : Res Val :=
  match va.val, vb.val with
  | .int a, .int b =>
    match i128CheckedAdd a b with
    | some v => .ok (.int v)
    | none => .error (.err (.addOverflow va vb))
  | _, _ =>
    match va.toF64R with
    | .error e => .error e
    | .ok fa =>
      match vb.toF64R with
      | .error e => .error e
      | .ok fb => .ok (.float (FVal.add fa fb))

/-- `checked_sub`. -/
def checkedSub (va vb : ValRange) : Res Val :=
  match va.val, vb.val with
  | .int a, .int b =>
    match i128CheckedSub a b with
    | some v => .ok (.int v)
    | none => .error (.err (.subOverflow va vb))
  | _, _ =>
    match va.toF64R with
    | .error e => .error e
    | .ok fa =>
      match vb.toF64R with
      | .error e => .error e
      | .ok fb => .ok (.float (FVal.sub fa fb))

/-- `checked_mul`. -/
def checkedMul (va vb : ValRange) : Res Val :=
  match va.val, vb.val with
  | .int a, .int b =>
    match i128CheckedMul a b with
    | some v => .ok (.int v)
    | none => .error (.err (.mulOverflow va vb))
  | _, _ =>
    match va.toF64R with
    | .error e => .error e
    | .ok fa =>
      match vb.toF64R with
      | .error e => .error e
      | .ok fb => .ok (.float (FVal.mul fa fb))

/-- `checked_div`.  On the `Int`/`Int` path an exact division yields an
`Int`, an inexact one the `f64` quotient; on the float path the divisor is
converted first, compared against `0.0`, and only then is the dividend
converted. -/
def checkedDiv (va vb : ValRange) : Res Val :=
  match va.val, vb.val with
  | .int a, .int b =>
    if b = 0 then .error (.err (.divideByZero va vb))
    else
      match i128Rem a b with
      | none => .error .panic
      | some r =>
        if r = 0 then
          match i128Div a b with
          | some v => .ok (.int v)
          | none => .error .panic
        else .ok (.float (FVal.div (i128AsF64 a) (i128AsF64 b)))
  | _, _ =>
    match vb.toF64R with
    | .error e => .error e
    | .ok divisor =>
      if FVal.beq divisor (.finite 0) then .error (.err (.divideByZero va vb))
      else
        match va.toF64R with
        | .error e => .error e
        | .ok fa => .ok (.float (FVal.div fa divisor))

/-! ## Pure parts of the operator arms (`impl Context` in `eval/mod.rs`) -/

/-- `Context::int_div`, after both operands are evaluated. -/
def intDivVals (va vb : ValRange) : Res Val :=
  match va.val, vb.val with
  | .int a, .int b =>
    if b = 0 then .error (.err (.divideByZero va vb))
    else
      match i128Div a b with
      | some v => .ok (.int v)
      | none => .error .panic
  | _, _ => .error (.err (.fractionEuclidDiv va vb))

/-- `Context::rem`, after both operands are evaluated: truncated remainder
`a % b`, shifted by `b` when its sign is opposite to `b`. -/
def remVals (va vb : ValRange) : Res Val :=
  match va.val, vb.val with
  | .int a, .int b =>
    if b = 0 then .error (.err (.remainderByZero va vb))
    else
      match i128Rem a b with
      | none => .error .panic
      | some r =>
        if (0 < r ∧ b < 0) ∨ (r < 0 ∧ 0 < b) then .ok (.int (r + b))
        else .ok (.int r)
  | _, _ => .error (.err (.fractionRemainder va vb))

/-- `Context::pow`, after both operands are evaluated: an exponent that
fits `u32` uses `i128::pow` (which panics on overflow rather than
reporting `PowOverflow`); otherwise an exponent that fits `i32` uses
`f64::powi`; otherwise the evaluation fails with `PowOverflow`. -/
def powVals (va vb : ValRange) : Res Val :=
  match va.val, vb.val with
  | .int base, .int exp =>
    if 0 ≤ exp ∧ exp ≤ U32_MAX then
      match i128Pow base exp.toNat with
      | some v => .ok (.int v)
      | none => .error .panic
    else if I32_MIN ≤ exp ∧ exp ≤ I32_MAX then
      .ok (.float (FVal.powi (i128AsF64 base) exp))
    else .error (.err (.powOverflow va vb))
  | _, _ =>
    match va.toF64R with
    | .error e => .error e
    | .ok fa =>
      match vb.toF64R with
      | .error e => .error e
      | .ok fb => .ok (.float (FVal.powf fa fb))

/-- `Context::neg`, after the operand is evaluated.  Negating an `Int`
uses the raw `i128` negation (panics on `i128::MIN` in a debug build). -/
def negVal (v : ValRange) : Res Val :=
  match v.val with
  | .int i => if fitsI128 (-i) then .ok (.int (-i)) else .error .panic
  | _ =>
    match v.toF64R with
    | .error e => .error e
    | .ok f => .ok (.float (FVal.neg f))

/-- `Context::bw_or`, after both operands are evaluated. -/
def bwOrVals (va vb : ValRange) : Res Val :=
  match va.val, vb.val with
  | .int a, .int b => .ok (.int (Int.lor a b))
  | .bool a, .bool b => .ok (.bool (a || b))
  | _, _ => .error (.err (.invalidBwOr va vb))

/-- `Context::bw_and`, after both operands are evaluated. -/
def bwAndVals (va vb : ValRange) : Res Val :=
  match va.val, vb.val with
  | .int a, .int b => .ok (.int (Int.land a b))
  | .bool a, .bool b => .ok (.bool (a && b))
  | _, _ => .error (.err (.invalidBwAnd va vb))

/-- The integers `1..=n` iterated by `Context::factorial`. -/
def intRangeIncl (a b : Int) : List Int :=
  (List.range (b - a + 1).toNat).map (fun (n : Nat) => a + (n : Int))

/-- The checked-multiplication loop of `Context::factorial`. -/
def factLoop : Int → List Int → Option Int
  | f, [] => some f
  | f, i :: rest =>
    match i128CheckedMul f i with
    | some v => factLoop v rest
    | none => none

/-- `Context::factorial`, after the operand is evaluated. -/
def factorialVal (v : ValRange) (range : CRange) : Res Return :=
  match v.val with
  | .int i =>
    if i < 0 then .error (.err (.negativeFactorial v))
    else
      match factLoop 1 (intRangeIncl 1 i) with
      | some f => .ok (.val ⟨.int f, range⟩)
      | none => .error (.err (.factorialOverflow v))
  | _ => .error (.err (.fractionFactorial v))

/-- The accumulation loop of `Context::ncr` over `1..=r`
(`val *= n - r + i; val /= i;`): the multiplication is raw `i128`
arithmetic, so overflow panics in a debug build; the division by
`i >= 1` cannot fail. -/
def ncrLoop : Int → Int → Int → List Int → Res Int
  | acc, _, _, [] => .ok acc
  | acc, n, r, i :: rest =>
    let m := acc * (n - r + i)
    if fitsI128 m then ncrLoop (m.tdiv i) n r rest else .error .panic

/-- `Context::ncr`, after the two operands are evaluated: a negative `r`
fails `NegativeNcr`, `n < r` fails `InvalidNcr`, non-`Int` operands fail
`FractionNcr`; otherwise `r` is reduced by symmetry and the product
loop runs. -/
def ncrVals (va vb : ValRange) : Res Val :=
  match va.val, vb.val with
  | .int n, .int r0 =>
    if r0 < 0 then .error (.err (.negativeNcr vb))
    else if n < r0 then .error (.err (.invalidNcr va vb))
    else
      let r := if r0 > n - r0 then n - r0 else r0
      match ncrLoop 1 n r (intRangeIncl 1 r) with
      | .ok v => .ok (.int v)
      | .error e => .error e
  | _, _ => .error (.err (.fractionNcr va vb))

/-- The Euclidean loop of `Context::gcd`
(`_t = b; b = a % b; a = _t` while `b != 0`), embedded with
fuel `b.natAbs + 1`, which suffices because
`|a.tmod b| < |b|` strictly decreases; the raw `%` panics on
`(i128::MIN, -1)` exactly as in a debug build. -/
def gcdLoop : Nat → Int → Int → Res Int
  | 0, _, _ => .error .fuel
  | n + 1, a, b =>
    if b = 0 then .ok a
    else
      match i128Rem a b with
      | none => .error .panic
      | some m => gcdLoop n b m

/-- `Context::gcd`, after the two operands are evaluated. -/
def gcdVals (va vb : ValRange) : Res Val :=
  match va.val, vb.val with
  | .int a, .int b =>
    match gcdLoop (b.natAbs + 1) a b with
    | .ok v => .ok (.int v)
    | .error e => .error e
  | _, _ => .error (.err (.fractionGcd va vb))

/-- `Context::clamp`, after the three operands are evaluated: an all-`Int`
call clamps with the integer order after checking `min > max`; any other
call converts all three to `f64` (number first, then the bounds) and
fails with `InvalidClampBounds` unless `min <= max` holds as an `f64`
comparison (which is false when either bound is `NaN`). -/
def clampVals (vnum vmin vmax : ValRange) : Res Val :=
  match vnum.val, vmin.val, vmax.val with
  | .int num, .int mn, .int mx =>
    if mx < mn then .error (.err (.invalidClampBounds vmin vmax))
    else .ok (.int (if num < mn then mn else if mx < num then mx else num))
  | _, _, _ =>
    match vnum.toF64R with
    | .error e => .error e
    | .ok num =>
      match vmin.toF64R with
      | .error e => .error e
      | .ok mn =>
        match vmax.toF64R with
        | .error e => .error e
        | .ok mx =>
          if ¬ (FVal.le mn mx) then .error (.err (.invalidClampBounds vmin vmax))
          else .ok (.float (FVal.clamp num mn mx))

/-! ## Display (for the output sink) -/

/-- Display of a float.  The decimal formatting of Rust's `f64` is not
modelled bit-exactly; no claim depends on float formatting. -/
def fvalToString : FVal → String
  | .finite q => toString q
  | .inf => "inf"
  | .neginf => "-inf"
  | .nan => "NaN"

/-- Display of a value (Rust's `Display for Val`); `Int`, `Bool` and
`Str` are formatted exactly as in the source. -/
def valToString : Val → String
  | .int i => toString i
  | .float f => fvalToString f
  | .bool b => cond b "true" "false"
  | .str s => s
  | .range (.exclusive a b) => toString a ++ ".." ++ toString b
  | .range (.inclusive a b) => toString a ++ "..=" ++ toString b

/-! ## Normalization (the `map` at the end of `Context::eval_ast`) -/

/-- The coercion applied to every produced value: when
`Val::convert_to_int` succeeds the value is replaced by the `Int`. -/
def normalizeVal (v : Val) : Val :=
  match v.convertToInt with
  | some i => .int i
  | none => v

/-- Normalization lifted to `Return`. -/
def normalizeReturn : Return → Return
  | .val v => .val ⟨normalizeVal v.val, v.range⟩
  | .unit r => .unit r

/-- The text `Context::print` writes for a list of argument values:
the first value, then each further value preceded by a space. -/
def printStr : List ValRange → String
  | [] => ""
  | first :: others =>
    valToString first.val ++ String.join (others.map (fun v => " " ++ valToString v.val))

/-- The text written by `Context::spill`: one `"name = value"` line per
initialized variable.  The source iterates the scope vector
front-to-back (outermost first, the reverse of the innermost-first
stack here) and each scope's hash map in its unspecified order, which
the association-list order stands in for (`eval/scope.rs` is absent). -/
def spillStr (scopes : List Scope) : String :=
  String.join (scopes.reverse.map (fun s =>
    String.join (s.vars.map (fun p =>
      match p.2.value with
      | some v => p.1 ++ " = " ++ valToString v ++ "\n"
      | none => ""))))

/-! ## The evaluator (`impl Context` in `eval/mod.rs`)

Every function takes a fuel argument and consumes one unit per nested
call; fuel exhaustion is the distinguished outcome `Failure.fuel`, an
artifact of the embedding (the source's `while` loops may not
terminate).  All theorems below either hold for every fuel or pick a
concrete sufficient fuel. -/

mutual

/-- `Context::eval_ast`: dispatch on the node kind, then apply the
numeric normalization to the produced value. -/
def evalAst : Nat → Ast → Ctx → Res (Return × Ctx)
  | 0, _, _ => .error .fuel
  | f + 1, ast, ctx =>
    match evalAstCore f ast ctx with
    | .ok (r, c) => .ok (normalizeReturn r, c)
    | .error e => .error e

/-- The body of `Context::eval_ast`'s dispatch (the `match` before the
normalizing `map`), one arm per `AstT` variant, each mirroring the
corresponding method of `impl Context`. -/
def evalAstCore : Nat → Ast → Ctx → Res (Return × Ctx)
  | 0, _, _ => .error .fuel
  | f + 1, .mk t r, ctx =>
    match t with
    | .empty => .ok (.unit r, ctx)
    | .error => .error (.err (.parsing r))
    | .expr e =>
      match e.typ with
      | .val v => .ok (.val ⟨v, r⟩, ctx)
      | .ident id =>
        match ctx.resolveVar ⟨id, e.range⟩ with
        | .ok v => .ok (.val v, ctx)
        | .error er => .error er
    | .block asts => evalBlock f asts r ctx
    | .ifExpr cases elseB => evalIf f cases elseB r ctx
    | .whileLoop c =>
      match evalWhile f c r ctx with
      | .ok c1 => .ok (.unit r, c1)
      | .error e => .error e
    | .forLoop id iter blk =>
      match evalToRange f iter ctx with
      | .error e => .error e
      | .ok (rg, c) =>
        match evalFor f id rg.iterList blk c with
        | .ok c1 => .ok (.unit r, c1)
        | .error e => .error e
    | .funDef id params blk => .ok (.unit r, ctx.defFun id params blk)
    | .funCall id args =>
      match ctx.resolveFun id with
      | .error e => .error e
      | .ok fn =>
        if args.length < fn.params.length then
          if r.stop = 0 then .error .panic
          else
            .error (.err (.missingFunArgs ⟨r.stop - 1, r.stop⟩ fn.params.length
              args.length))
        else if args.length > fn.params.length then
          .error (.err (.unexpectedFunArgs ((args.drop fn.params.length).map Ast.range)
            fn.params.length args.length))
        else
          match evalFunArgs f (fn.params.zip args) Scope.default ctx with
          | .error e => .error e
          | .ok (s, c1) =>
            match evalStmtsLast f fn.block.asts r (c1.pushScope s) with
            | .error e => .error e
            | .ok (ret, c2) => .ok (ret, c2.popScope)
    | .varDef id b m =>
      match evalToVal f b ctx with
      | .error e => .error e
      | .ok (v, c) => .ok (.unit r, c.defVar id (some v.val) m)
    | .assign id b =>
      match evalToVal f b ctx with
      | .error e => .error e
      | .ok (v, c) => .ok (.unit r, c.setVar id (some v.val))
    | .addAssign id b => evalCompoundAssign f id b checkedAdd r ctx
    | .subAssign id b => evalCompoundAssign f id b checkedSub r ctx
    | .mulAssign id b => evalCompoundAssign f id b checkedMul r ctx
    | .divAssign id b => evalCompoundAssign f id b checkedDiv r ctx
    | .rangeEx a b =>
      match evalToInt f a ctx with
      | .error e => .error e
      | .ok (va, c1) =>
        match evalToInt f b c1 with
        | .error e => .error e
        | .ok (vb, c2) => .ok (.val ⟨.range (.exclusive va vb), r⟩, c2)
    | .rangeIn a b =>
      match evalToInt f a ctx with
      | .error e => .error e
      | .ok (va, c1) =>
        match evalToInt f b c1 with
        | .error e => .error e
        | .ok (vb, c2) => .ok (.val ⟨.range (.inclusive va vb), r⟩, c2)
    | .neg a =>
      match evalToVal f a ctx with
      | .error e => .error e
      | .ok (v, c) =>
        match negVal v with
        | .ok val => .ok (.val ⟨val, r⟩, c)
        | .error e => .error e
    | .add a b => evalBin f a b checkedAdd r ctx
    | .sub a b => evalBin f a b checkedSub r ctx
    | .mul a b => evalBin f a b checkedMul r ctx
    | .div a b => evalBin f a b checkedDiv r ctx
    | .intDiv a b => evalBin f a b intDivVals r ctx
    | .rem a b => evalBin f a b remVals r ctx
    | .pow a b => evalBin f a b powVals r ctx
    | .eq a b => evalBin f a b (fun va vb => .ok (.bool (Val.beq va.val vb.val))) r ctx
    | .ne a b => evalBin f a b (fun va vb => .ok (.bool (! Val.beq va.val vb.val))) r ctx
    | .lt a b => evalCmp f a b FVal.lt r ctx
    | .le a b => evalCmp f a b FVal.le r ctx
    | .gt a b => evalCmp f a b (fun x y => FVal.lt y x) r ctx
    | .ge a b => evalCmp f a b (fun x y => FVal.le y x) r ctx
    | .or a b =>
      match evalToBool f a ctx with
      | .error e => .error e
      | .ok (ba, c1) =>
        match evalToBool f b c1 with
        | .error e => .error e
        | .ok (bb, c2) => .ok (.val ⟨.bool (ba || bb), r⟩, c2)
    | .and a b =>
      match evalToBool f a ctx with
      | .error e => .error e
      | .ok (ba, c1) =>
        match evalToBool f b c1 with
        | .error e => .error e
        | .ok (bb, c2) => .ok (.val ⟨.bool (ba && bb), r⟩, c2)
    | .bwOr a b => evalBin f a b bwOrVals r ctx
    | .bwAnd a b => evalBin f a b bwAndVals r ctx
    | .not a =>
      match evalToBool f a ctx with
      | .error e => .error e
      | .ok (b, c) => .ok (.val ⟨.bool (! b), r⟩, c)
    | .degree a =>
      match evalToF64 f a ctx with
      | .error e => .error e
      | .ok (fv, c) => .ok (.val ⟨.float fv.toRadians, r⟩, c)
    | .radian a =>
      match evalToF64 f a ctx with
      | .error e => .error e
      | .ok (fv, c) => .ok (.val ⟨.float fv, r⟩, c)
    | .factorial a =>
      match evalToVal f a ctx with
      | .error e => .error e
      | .ok (v, c) =>
        match factorialVal v r with
        | .ok ret => .ok (ret, c)
        | .error e => .error e
    | .ln a =>
      match evalToF64 f a ctx with
      | .error e => .error e
      | .ok (fv, c) => .ok (.val ⟨.float fv.ln, r⟩, c)
    | .log a b =>
      match evalToF64 f a ctx with
      | .error e => .error e
      | .ok (fb, c1) =>
        match evalToF64 f b c1 with
        | .error e => .error e
        | .ok (fn2, c2) => .ok (.val ⟨.float (FVal.log fn2 fb), r⟩, c2)
    | .sqrt a =>
      match evalToF64 f a ctx with
      | .error e => .error e
      | .ok (fv, c) => .ok (.val ⟨.float fv.sqrt, r⟩, c)
    | .ncr a b => evalBin f a b ncrVals r ctx
    | .sin a =>
      match evalToF64 f a ctx with
      | .error e => .error e
      | .ok (fv, c) => .ok (.val ⟨.float fv.sin, r⟩, c)
    | .cos a =>
      match evalToF64 f a ctx with
      | .error e => .error e
      | .ok (fv, c) => .ok (.val ⟨.float fv.cos, r⟩, c)
    | .tan a =>
      match evalToF64 f a ctx with
      | .error e => .error e
      | .ok (fv, c) => .ok (.val ⟨.float fv.tan, r⟩, c)
    | .asin a =>
      match evalToF64 f a ctx with
      | .error e => .error e
      | .ok (fv, c) => .ok (.val ⟨.float fv.asin, r⟩, c)
    | .acos a =>
      match evalToF64 f a ctx with
      | .error e => .error e
      | .ok (fv, c) => .ok (.val ⟨.float fv.acos, r⟩, c)
    | .atan a =>
      match evalToF64 f a ctx with
      | .error e => .error e
      | .ok (fv, c) => .ok (.val ⟨.float fv.atan, r⟩, c)
    | .gcd a b => evalBin f a b gcdVals r ctx
    | .min args =>
      match evalMinArgs f args none ctx with
      | .error e => .error e
      | .ok (none, _) => .error .panic
      | .ok (some m, c) => .ok (.val ⟨.float m, r⟩, c)
    | .max args =>
      match evalMaxArgs f args none ctx with
      | .error e => .error e
      | .ok (none, _) => .error .panic
      | .ok (some m, c) => .ok (.val ⟨.float m, r⟩, c)
    | .clamp n mn mx =>
      match evalToVal f n ctx with
      | .error e => .error e
      | .ok (vnum, c1) =>
        match evalToVal f mn c1 with
        | .error e => .error e
        | .ok (vmin, c2) =>
          match evalToVal f mx c2 with
          | .error e => .error e
          | .ok (vmax, c3) =>
            match clampVals vnum vmin vmax with
            | .ok val => .ok (.val ⟨val, r⟩, c3)
            | .error e => .error e
    | .print args =>
      match evalToVals f args ctx with
      | .error e => .error e
      | .ok (vals, c) => .ok (.unit r, { c with output := c.output ++ printStr vals })
    | .println args =>
      match evalToVals f args ctx with
      | .error e => .error e
      | .ok (vals, c) => .ok (.unit r, { c with output := c.output ++ printStr vals ++ "\n" })
    | .spill => .ok (.unit r, { ctx with output := ctx.output ++ spillStr ctx.scopes })
    | .assert a =>
      match evalToBool f a ctx with
      | .error e => .error e
      | .ok (b, c) =>
        if b then .ok (.unit r, c) else .error (.err (.assertFailed a.range))
    | .assertEq a b =>
      match evalToVal f a ctx with
      | .error e => .error e
      | .ok (va, c1) =>
        match evalToVal f b c1 with
        | .error e => .error e
        | .ok (vb, c2) =>
          if Val.beq va.val vb.val then .ok (.unit r, c2)
          else .error (.err (.assertEqFailed va vb))

/-- The common shape of the binary arithmetic arms: evaluate the left
operand, then the right, then combine. -/
def evalBin : Nat → Ast → Ast → (ValRange → ValRange → Res Val) → CRange → Ctx →
    Res (Return × Ctx)
  | 0, _, _, _, _, _ => .error .fuel
  | f + 1, a, b, g, r, ctx =>
    match evalToVal f a ctx with
    | .error e => .error e
    | .ok (va, c1) =>
      match evalToVal f b c1 with
      | .error e => .error e
      | .ok (vb, c2) =>
        match g va vb with
        | .ok val => .ok (.val ⟨val, r⟩, c2)
        | .error e => .error e

/-- The common shape of the comparison arms (`lt`/`le`/`gt`/`ge`):
both operands through `eval_to_f64`, then an `f64` comparison. -/
def evalCmp : Nat → Ast → Ast → (FVal → FVal → Bool) → CRange → Ctx → Res (Return × Ctx)
  | 0, _, _, _, _, _ => .error .fuel
  | f + 1, a, b, g, r, ctx =>
    match evalToF64 f a ctx with
    | .error e => .error e
    | .ok (fa, c1) =>
      match evalToF64 f b c1 with
      | .error e => .error e
      | .ok (fb, c2) => .ok (.val ⟨.bool (g fa fb), r⟩, c2)

/-- `Context::eval_to_val`. -/
def evalToVal : Nat → Ast → Ctx → Res (ValRange × Ctx)
  | 0, _, _ => .error .fuel
  | f + 1, a, ctx =>
    match evalAst f a ctx with
    | .error e => .error e
    | .ok (ret, c) =>
      match ret.intoVal with
      | .ok v => .ok (v, c)
      | .error e => .error e

/-- `Context::eval_to_int`. -/
def evalToInt : Nat → Ast → Ctx → Res (Int × Ctx)
  | 0, _, _ => .error .fuel
  | f + 1, a, ctx =>
    match evalToVal f a ctx with
    | .error e => .error e
    | .ok (v, c) =>
      match v.toIntR with
      | .ok i => .ok (i, c)
      | .error e => .error e

/-- `Context::eval_to_f64`. -/
def evalToF64 : Nat → Ast → Ctx → Res (FVal × Ctx)
  | 0, _, _ => .error .fuel
  | f + 1, a, ctx =>
    match evalToVal f a ctx with
    | .error e => .error e
    | .ok (v, c) =>
      match v.toF64R with
      | .ok fv => .ok (fv, c)
      | .error e => .error e

/-- `Context::eval_to_bool`. -/
def evalToBool : Nat → Ast → Ctx → Res (Bool × Ctx)
  | 0, _, _ => .error .fuel
  | f + 1, a, ctx =>
    match evalToVal f a ctx with
    | .error e => .error e
    | .ok (v, c) =>
      match v.toBoolR with
      | .ok b => .ok (b, c)
      | .error e => .error e

/-- `Context::eval_to_range`. -/
def evalToRange : Nat → Ast → Ctx → Res (Range × Ctx)
  | 0, _, _ => .error .fuel
  | f + 1, a, ctx =>
    match evalToVal f a ctx with
    | .error e => .error e
    | .ok (v, c) =>
      match v.toRangeR with
      | .ok rg => .ok (rg, c)
      | .error e => .error e

/-- `Context::eval_to_vals`. -/
def evalToVals : Nat → List Ast → Ctx → Res (List ValRange × Ctx)
  | 0, _, _ => .error .fuel
  | _ + 1, [], ctx => .ok ([], ctx)
  | f + 1, a :: rest, ctx =>
    match evalToVal f a ctx with
    | .error e => .error e
    | .ok (v, c) =>
      match evalToVals f rest c with
      | .error e => .error e
      | .ok (vs, c2) => .ok (v :: vs, c2)

/-- The `for c in others { self.eval_ast(c)?; }` loops: evaluate a list
of statements, discarding their results. -/
def evalList : Nat → List Ast → Ctx → Res Ctx
  | 0, _, _ => .error .fuel
  | _ + 1, [], ctx => .ok ctx
  | f + 1, a :: rest, ctx =>
    match evalAst f a ctx with
    | .error e => .error e
    | .ok (_, c) => evalList f rest c

/-- The `split_last` pattern shared by `Context::block` and
`Context::fun_call`: evaluate all statements, returning the last one's
result (or `Unit` at the given span for an empty list). -/
def evalStmtsLast : Nat → List Ast → CRange → Ctx → Res (Return × Ctx)
  | 0, _, _, _ => .error .fuel
  | _ + 1, [], r, ctx => .ok (.unit r, ctx)
  | f + 1, [a], _, ctx => evalAst f a ctx
  | f + 1, a :: rest, r, ctx =>
    match evalAst f a ctx with
    | .error e => .error e
    | .ok (_, c) => evalStmtsLast f rest r c

/-- `Context::block`: push a scope, evaluate the statements keeping the
last result, pop the scope. -/
def evalBlock : Nat → List Ast → CRange → Ctx → Res (Return × Ctx)
  | 0, _, _, _ => .error .fuel
  | f + 1, asts, r, ctx =>
    match evalStmtsLast f asts r (ctx.pushScope Scope.default) with
    | .error e => .error e
    | .ok (ret, c) => .ok (ret, c.popScope)

/-- `Context::if_expr`: try the cases in order, running the first block
whose condition is true, otherwise the else block, otherwise `Unit`. -/
def evalIf : Nat → List CondBlock → Option Block → CRange → Ctx → Res (Return × Ctx)
  | 0, _, _, _, _ => .error .fuel
  | f + 1, [], elseB, r, ctx =>
    match elseB with
    | some b => evalBlock f b.asts b.range ctx
    | none => .ok (.unit r, ctx)
  | f + 1, c :: rest, elseB, r, ctx =>
    match evalToBool f c.cond ctx with
    | .error e => .error e
    | .ok (true, c1) => evalBlock f c.block r c1
    | .ok (false, c1) => evalIf f rest elseB r c1

/-- `Context::while_loop`'s iteration. -/
def evalWhile : Nat → CondBlock → CRange → Ctx → Res Ctx
  | 0, _, _, _ => .error .fuel
  | f + 1, c, r, ctx =>
    match evalToBool f c.cond ctx with
    | .error e => .error e
    | .ok (false, c1) => .ok c1
    | .ok (true, c1) =>
      match evalBlock f c.block r c1 with
      | .error e => .error e
      | .ok (_, c2) => evalWhile f c r c2

/-- `Context::for_loop`'s iteration: a fresh scope holding the loop
variable per step, the block's statements evaluated and discarded. -/
def evalFor : Nat → IdentRange → List Int → Block → Ctx → Res Ctx
  | 0, _, _, _, _ => .error .fuel
  | _ + 1, _, [], _, ctx => .ok ctx
  | f + 1, id, i :: rest, blk, ctx =>
    match evalList f blk.asts (ctx.pushScope (Scope.default.defVar id (some (.int i)) false)) with
    | .error e => .error e
    | .ok c1 => evalFor f id rest blk c1.popScope

/-- The accumulation loop of `Context::min`: evaluate each argument,
convert to `f64`, keep the smallest (`val < m`). -/
def evalMinArgs : Nat → List Ast → Option FVal → Ctx → Res (Option FVal × Ctx)
  | 0, _, _, _ => .error .fuel
  | _ + 1, [], acc, ctx => .ok (acc, ctx)
  | f + 1, a :: rest, acc, ctx =>
    match evalToVal f a ctx with
    | .error e => .error e
    | .ok (v, c) =>
      match v.toF64R with
      | .error e => .error e
      | .ok fv =>
        match acc with
        | none => evalMinArgs f rest (some fv) c
        | some m => evalMinArgs f rest (some (if FVal.lt fv m then fv else m)) c

/-- The accumulation loop of `Context::max` (`val > m`). -/
def evalMaxArgs : Nat → List Ast → Option FVal → Ctx → Res (Option FVal × Ctx)
  | 0, _, _, _ => .error .fuel
  | _ + 1, [], acc, ctx => .ok (acc, ctx)
  | f + 1, a :: rest, acc, ctx =>
    match evalToVal f a ctx with
    | .error e => .error e
    | .ok (v, c) =>
      match v.toF64R with
      | .error e => .error e
      | .ok fv =>
        match acc with
        | none => evalMaxArgs f rest (some fv) c
        | some m => evalMaxArgs f rest (some (if FVal.lt m fv then fv else m)) c

/-- The compound-assignment arms (`add_assign` etc.): resolve the current
value, evaluate the right-hand side, combine, store. -/
def evalCompoundAssign : Nat → IdentRange → Ast → (ValRange → ValRange → Res Val) →
    CRange → Ctx → Res (Return × Ctx)
  | 0, _, _, _, _, _ => .error .fuel
  | f + 1, id, b, g, r, ctx =>
    match ctx.resolveVar id with
    | .error e => .error e
    | .ok va =>
      match evalToVal f b ctx with
      | .error e => .error e
      | .ok (vb, c) =>
        match g va vb with
        | .ok val => .ok (.unit r, c.setVar id (some val))
        | .error e => .error e

/-- The argument-binding loop of `Context::fun_call`: for every
parameter/argument pair, evaluate the argument and define it in the
call's fresh scope; an argument error propagates before the scope is
pushed. -/
def evalFunArgs : Nat → List (IdentRange × Ast) → Scope → Ctx → Res (Scope × Ctx)
  | 0, _, _, _ => .error .fuel
  | _ + 1, [], s, ctx => .ok (s, ctx)
  | f + 1, (p, a) :: rest, s, ctx =>
    match evalToVal f a ctx with
    | .error e => .error e
    | .ok (v, c1) => evalFunArgs f rest (s.defVar p (some v.val) false) c1

end

/-- `Context::eval`: strip the `Return`, yielding `Some`/`None`. -/
def evalTop (f : Nat) (a : Ast) (ctx : Ctx) : Res (Option Val × Ctx) :=
  match evalAst f a ctx with
  | .error e => .error e
  | .ok (.val v, c) => .ok (some v.val, c)
  | .ok (.unit _, c) => .ok (none, c)

/-- `Context::eval_all`: evaluate every AST, returning the last value; an
empty program is `MissingExpr`. -/
def evalAll (f : Nat) : List Ast → Ctx → Res (Option Val × Ctx)
  | [], _ => .error (.err .missingExpr)
  | [a], ctx => evalTop f a ctx
  | a :: rest, ctx =>
    match evalAst f a ctx with
    | .error e => .error e
    | .ok (_, c) => evalAll f rest c

/-- Modelled from the spec: `Context::parse_and_eval` (`lib.rs`).  The
tokenizer, grouper and parser (`parse_str` and the modules `token`,
`group`, `parse`) are absent from the sources, so the parse outcome and
the list of collected recoverable errors are taken as parameters; a
parse error propagates, otherwise the first collected error is returned,
otherwise `eval_all` runs. -/
def parseAndEvalWith (parsed : Except Error (List Ast)) (collected : List Error)
    (f : Nat) (ctx : Ctx) : Res (Option Val × Ctx) :=
  match parsed with
  | .error e => .error (.err e)
  | .ok asts =>
    match collected with
    | e :: _ => .error (.err e)
    | [] => evalAll f asts ctx

/-! ## Pure folds mirroring the `min`/`max` accumulation -/

/-- The pure fold computed by `Context::min` over the argument values'
`f64` conversions. -/
def minFold : Option FVal → List FVal → Option FVal
  | acc, [] => acc
  | none, v :: rest => minFold (some v) rest
  | some m, v :: rest => minFold (some (if FVal.lt v m then v else m)) rest

/-- The pure fold computed by `Context::max`. -/
def maxFold : Option FVal → List FVal → Option FVal
  | acc, [] => acc
  | none, v :: rest => maxFold (some v) rest
  | some m, v :: rest => maxFold (some (if FVal.lt m v then v else m)) rest

/-! ## Shorthand for building concrete programs -/

/-- A literal value expression at a given span. -/
def litAst (v : Val) (a b : Nat) : Ast := .mk (.expr ⟨.val v, ⟨a, b⟩⟩) ⟨a, b⟩

/-! ## Well-ranged ASTs (for the error-span invariant)

Modelled from the spec: the lexer, grouper and parser are absent from the
sources; per the spec every token and therefore every AST node carries a
span lying inside the source.  `Ast.wf L` states that every span in an
AST lies within a source of length `L`. -/

/-- A span lies within a source of length `L`. -/
def rangeOk (L : Nat) (r : CRange) : Bool := r.start ≤ r.stop && r.stop ≤ L

mutual

/-- Every span of the node lies within the source length. -/
def Ast.wf (L : Nat) : Ast → Bool
  | .mk t r => rangeOk L r && AstT.wf L t

/-- Every span of the node kind's children lies within the source
length. -/
def AstT.wf (L : Nat) : AstT → Bool
  | .empty => true
  | .error => true
  | .expr e => rangeOk L e.range
  | .block asts => astsWf L asts
  | .ifExpr cases elseB =>
    condBlocksWf L cases &&
      (match elseB with
       | some b => Block.wf L b
       | none => true)
  | .whileLoop c => CondBlock.wf L c
  | .forLoop id iter blk => rangeOk L id.range && Ast.wf L iter && Block.wf L blk
  | .funDef id params blk =>
    rangeOk L id.range && params.all (fun p => rangeOk L p.range) && Block.wf L blk
  | .funCall id args => rangeOk L id.range && astsWf L args
  | .varDef id b _ => rangeOk L id.range && Ast.wf L b
  | .assign id b => rangeOk L id.range && Ast.wf L b
  | .addAssign id b => rangeOk L id.range && Ast.wf L b
  | .subAssign id b => rangeOk L id.range && Ast.wf L b
  | .mulAssign id b => rangeOk L id.range && Ast.wf L b
  | .divAssign id b => rangeOk L id.range && Ast.wf L b
  | .rangeEx a b => Ast.wf L a && Ast.wf L b
  | .rangeIn a b => Ast.wf L a && Ast.wf L b
  | .neg a => Ast.wf L a
  | .add a b => Ast.wf L a && Ast.wf L b
  | .sub a b => Ast.wf L a && Ast.wf L b
  | .mul a b => Ast.wf L a && Ast.wf L b
  | .div a b => Ast.wf L a && Ast.wf L b
  | .intDiv a b => Ast.wf L a && Ast.wf L b
  | .rem a b => Ast.wf L a && Ast.wf L b
  | .pow a b => Ast.wf L a && Ast.wf L b
  | .eq a b => Ast.wf L a && Ast.wf L b
  | .ne a b => Ast.wf L a && Ast.wf L b
  | .lt a b => Ast.wf L a && Ast.wf L b
  | .le a b => Ast.wf L a && Ast.wf L b
  | .gt a b => Ast.wf L a && Ast.wf L b
  | .ge a b => Ast.wf L a && Ast.wf L b
  | .or a b => Ast.wf L a && Ast.wf L b
  | .and a b => Ast.wf L a && Ast.wf L b
  | .bwOr a b => Ast.wf L a && Ast.wf L b
  | .bwAnd a b => Ast.wf L a && Ast.wf L b
  | .not a => Ast.wf L a
  | .degree a => Ast.wf L a
  | .radian a => Ast.wf L a
  | .factorial a => Ast.wf L a
  | .ln a => Ast.wf L a
  | .log a b => Ast.wf L a && Ast.wf L b
  | .sqrt a => Ast.wf L a
  | .ncr a b => Ast.wf L a && Ast.wf L b
  | .sin a => Ast.wf L a
  | .cos a => Ast.wf L a
  | .tan a => Ast.wf L a
  | .asin a => Ast.wf L a
  | .acos a => Ast.wf L a
  | .atan a => Ast.wf L a
  | .gcd a b => Ast.wf L a && Ast.wf L b
  | .min args => astsWf L args
  | .max args => astsWf L args
  | .clamp n mn mx => Ast.wf L n && Ast.wf L mn && Ast.wf L mx
  | .print args => astsWf L args
  | .println args => astsWf L args
  | .spill => true
  | .assert a => Ast.wf L a
  | .assertEq a b => Ast.wf L a && Ast.wf L b

/-- Well-rangedness of a statement list. -/
def astsWf (L : Nat) : List Ast → Bool
  | [] => true
  | a :: rest => Ast.wf L a && astsWf L rest

/-- Well-rangedness of a `CondBlock`. -/
def CondBlock.wf (L : Nat) : CondBlock → Bool
  | .mk cond blk r => Ast.wf L cond && astsWf L blk && rangeOk L r

/-- Well-rangedness of a `Block`. -/
def Block.wf (L : Nat) : Block → Bool
  | .mk asts r => astsWf L asts && rangeOk L r

/-- Well-rangedness of a list of `CondBlock`s. -/
def condBlocksWf (L : Nat) : List CondBlock → Bool
  | [] => true
  | c :: rest => CondBlock.wf L c && condBlocksWf L rest

end

/-- The error-span property claimed for every reported error: at least
one span, every span within the source length. -/
def rangesOk (L : Nat) (e : Error) : Prop :=
  e.ranges ≠ [] ∧ ∀ r ∈ e.ranges, rangeOk L r

/-! ## Concrete programs used as counterexamples and examples -/

/-- The program `true || (1/0 == 1)`. -/
def orErrProg : Ast :=
  .mk (.or (litAst (.bool true) 0 4)
    (.mk (.eq (.mk (.div (litAst (.int 1) 6 7) (litAst (.int 0) 8 9)) ⟨6, 9⟩)
      (litAst (.int 1) 13 14)) ⟨6, 14⟩)) ⟨0, 15⟩

/-- The program `false && { println(5); true }`. -/
def andPrintProg : Ast :=
  .mk (.and (litAst (.bool false) 0 5)
    (.mk (.block [.mk (.println [litAst (.int 5) 19 20]) ⟨11, 21⟩, litAst (.bool true) 23 27])
      ⟨9, 29⟩)) ⟨0, 29⟩

/-- The program `1.5 / 0.0`. -/
def divZeroFloatProg : Ast :=
  .mk (.div (litAst (.float (.finite (mkRat 3 2))) 0 3) (litAst (.float (.finite 0)) 6 9)) ⟨0, 9⟩

/-- The program `2 ^ 128`. -/
def powOverflowProg : Ast :=
  .mk (.pow (litAst (.int 2) 0 1) (litAst (.int 128) 4 7)) ⟨0, 7⟩

/-- The program `2.0 == 2`. -/
def floatIntEqProg : Ast :=
  .mk (.eq (litAst (.float (.finite 2)) 0 3) (litAst (.int 2) 7 8)) ⟨0, 8⟩

/-- The program `8 % 3`. -/
def remProg1 : Ast :=
  .mk (.rem (litAst (.int 8) 0 1) (litAst (.int 3) 4 5)) ⟨0, 5⟩

/-- The program `-8 % 3` (with the literal `-8`). -/
def remProg2 : Ast :=
  .mk (.rem (litAst (.int (-8)) 0 2) (litAst (.int 3) 5 6)) ⟨0, 6⟩

/-- The program `i128::MIN % -1`. -/
def remPanicProg : Ast :=
  .mk (.rem (litAst (.int I128_MIN) 0 40) (litAst (.int (-1)) 43 45)) ⟨0, 45⟩

/-- Convert a list of argument values to `f64` one by one, failing on the
first non-numeric value (the conversion order inside the `min`/`max`
loops). -/
def listToF64 : List ValRange → Option (List FVal)
  | [] => some []
  | v :: rest =>
    match v.val.toF64 with
    | some fv => (listToF64 rest).map (fv :: ·)
    | none => none

/-- The program `(-3)!`. -/
def factNegProg : Ast := .mk (.factorial (litAst (.int (-3)) 0 4)) ⟨0, 5⟩

/-- An evaluation result only fails with reported errors that carry at
least one span, all within the source length (and never `MissingExpr`). -/
def errOk (L : Nat) {α : Type} (x : Res α) : Prop :=
  ∀ e, x = .error (.err e) → e ≠ .missingExpr ∧ rangesOk L e

/-- Well-rangedness of the function table of one scope: the body block
of every function the scope stores satisfies `Block.wf`. -/
def Scope.funsWf (L : Nat) (s : Scope) : Bool :=
  s.funs.all (fun p => Block.wf L p.2.block)

/-- Well-rangedness of an evaluation context: every scope's stored
functions have well-ranged bodies.  `fun_call` evaluates a body fetched
from this table, so the invariant has to travel with the context. -/
def ctxWf (L : Nat) (ctx : Ctx) : Bool :=
  ctx.scopes.all (fun s => s.funsWf L)

/-- The error-span invariant, stated for every evaluator function at a
given fuel: on well-ranged input and a well-ranged context, every
reported error has nonempty in-bounds spans, and every successful
result has an in-bounds span and a well-ranged context again. -/
structure EvalWf (L : Nat) (f : Nat) : Prop where
  ast : ∀ a ctx, Ast.wf L a = true → ctxWf L ctx = true →
    errOk L (evalAst f a ctx) ∧
    ∀ ret c, evalAst f a ctx = .ok (ret, c) →
      rangeOk L ret.range = true ∧ ctxWf L c = true
  core : ∀ a ctx, Ast.wf L a = true → ctxWf L ctx = true →
    errOk L (evalAstCore f a ctx) ∧
    ∀ ret c, evalAstCore f a ctx = .ok (ret, c) →
      rangeOk L ret.range = true ∧ ctxWf L c = true
  bin : ∀ a b g r ctx, Ast.wf L a = true → Ast.wf L b = true → rangeOk L r = true →
    ctxWf L ctx = true →
    (∀ va vb e2, rangeOk L va.range = true → rangeOk L vb.range = true →
      g va vb = .error (.err e2) → e2 ≠ .missingExpr ∧ rangesOk L e2) →
    errOk L (evalBin f a b g r ctx) ∧
    ∀ ret c, evalBin f a b g r ctx = .ok (ret, c) →
      rangeOk L ret.range = true ∧ ctxWf L c = true
  cmp : ∀ a b g r ctx, Ast.wf L a = true → Ast.wf L b = true → rangeOk L r = true →
    ctxWf L ctx = true →
    errOk L (evalCmp f a b g r ctx) ∧
    ∀ ret c, evalCmp f a b g r ctx = .ok (ret, c) →
      rangeOk L ret.range = true ∧ ctxWf L c = true
  toVal : ∀ a ctx, Ast.wf L a = true → ctxWf L ctx = true →
    errOk L (evalToVal f a ctx) ∧
    ∀ v c, evalToVal f a ctx = .ok (v, c) →
      rangeOk L v.range = true ∧ ctxWf L c = true
  toInt : ∀ a ctx, Ast.wf L a = true → ctxWf L ctx = true →
    errOk L (evalToInt f a ctx) ∧
    ∀ i c, evalToInt f a ctx = .ok (i, c) → ctxWf L c = true
  toF64 : ∀ a ctx, Ast.wf L a = true → ctxWf L ctx = true →
    errOk L (evalToF64 f a ctx) ∧
    ∀ fv c, evalToF64 f a ctx = .ok (fv, c) → ctxWf L c = true
  toBool : ∀ a ctx, Ast.wf L a = true → ctxWf L ctx = true →
    errOk L (evalToBool f a ctx) ∧
    ∀ b c, evalToBool f a ctx = .ok (b, c) → ctxWf L c = true
  toRange : ∀ a ctx, Ast.wf L a = true → ctxWf L ctx = true →
    errOk L (evalToRange f a ctx) ∧
    ∀ rg c, evalToRange f a ctx = .ok (rg, c) → ctxWf L c = true
  toVals : ∀ args ctx, astsWf L args = true → ctxWf L ctx = true →
    errOk L (evalToVals f args ctx) ∧
    ∀ vs c, evalToVals f args ctx = .ok (vs, c) →
      (∀ v ∈ vs, rangeOk L v.range = true) ∧ ctxWf L c = true
  listE : ∀ args ctx, astsWf L args = true → ctxWf L ctx = true →
    errOk L (evalList f args ctx) ∧
    ∀ c, evalList f args ctx = .ok c → ctxWf L c = true
  stmtsLast : ∀ args r ctx, astsWf L args = true → rangeOk L r = true →
    ctxWf L ctx = true →
    errOk L (evalStmtsLast f args r ctx) ∧
    ∀ ret c, evalStmtsLast f args r ctx = .ok (ret, c) →
      rangeOk L ret.range = true ∧ ctxWf L c = true
  block : ∀ args r ctx, astsWf L args = true → rangeOk L r = true →
    ctxWf L ctx = true →
    errOk L (evalBlock f args r ctx) ∧
    ∀ ret c, evalBlock f args r ctx = .ok (ret, c) →
      rangeOk L ret.range = true ∧ ctxWf L c = true
  ifE : ∀ cases elseB r ctx, condBlocksWf L cases = true →
    (∀ b, elseB = some b → Block.wf L b = true) → rangeOk L r = true →
    ctxWf L ctx = true →
    errOk L (evalIf f cases elseB r ctx) ∧
    ∀ ret c, evalIf f cases elseB r ctx = .ok (ret, c) →
      rangeOk L ret.range = true ∧ ctxWf L c = true
  whileE : ∀ c r ctx, CondBlock.wf L c = true → rangeOk L r = true →
    ctxWf L ctx = true →
    errOk L (evalWhile f c r ctx) ∧
    ∀ c2, evalWhile f c r ctx = .ok c2 → ctxWf L c2 = true
  forE : ∀ id iters blk ctx, Block.wf L blk = true → ctxWf L ctx = true →
    errOk L (evalFor f id iters blk ctx) ∧
    ∀ c2, evalFor f id iters blk ctx = .ok c2 → ctxWf L c2 = true
  minA : ∀ args acc ctx, astsWf L args = true → ctxWf L ctx = true →
    errOk L (evalMinArgs f args acc ctx) ∧
    ∀ m c, evalMinArgs f args acc ctx = .ok (m, c) → ctxWf L c = true
  maxA : ∀ args acc ctx, astsWf L args = true → ctxWf L ctx = true →
    errOk L (evalMaxArgs f args acc ctx) ∧
    ∀ m c, evalMaxArgs f args acc ctx = .ok (m, c) → ctxWf L c = true
  compound : ∀ id b g r ctx, rangeOk L id.range = true → Ast.wf L b = true →
    rangeOk L r = true → ctxWf L ctx = true →
    (∀ va vb e2, rangeOk L va.range = true → rangeOk L vb.range = true →
      g va vb = .error (.err e2) → e2 ≠ .missingExpr ∧ rangesOk L e2) →
    errOk L (evalCompoundAssign f id b g r ctx) ∧
    ∀ ret c, evalCompoundAssign f id b g r ctx = .ok (ret, c) →
      rangeOk L ret.range = true ∧ ctxWf L c = true
  funArgs : ∀ ps s ctx, (∀ pa ∈ ps, Ast.wf L (Prod.snd pa) = true) →
    ctxWf L ctx = true →
    errOk L (evalFunArgs f ps s ctx) ∧
    ∀ s2 c, evalFunArgs f ps s ctx = .ok (s2, c) → ctxWf L c = true

/-! # Theorems -/

/-- Truncated remainder with a negated left operand. -/
theorem tmod_neg_left (a b : Int) : (-a).tmod b = -(a.tmod b) := by
  rw [Int.tmod_def, Int.tmod_def, Int.neg_tdiv]
  ring

/-- Bounds of the truncated remainder for a positive divisor. -/
theorem tmod_bounds_pos (a : Int) {b : Int} (hb : 0 < b) :
    -b < a.tmod b ∧ a.tmod b < b := by
  rcases le_or_lt 0 a with ha | ha
  · refine ⟨lt_of_lt_of_le (by omega) (Int.tmod_nonneg b ha), Int.tmod_lt_of_pos a hb⟩
  · have h1 : a = -(-a) := by ring
    have h2 : (-a).tmod b ≥ 0 := Int.tmod_nonneg b (by omega)
    have h3 : (-a).tmod b < b := Int.tmod_lt_of_pos _ hb
    rw [h1, tmod_neg_left]
    omega

/-- The sign of the truncated remainder matches the dividend. -/
theorem tmod_sign (a : Int) (b : Int) :
    (0 ≤ a → 0 ≤ a.tmod b) ∧ (a ≤ 0 → a.tmod b ≤ 0) := by
  constructor
  · exact fun ha => Int.tmod_nonneg b ha
  · intro ha
    have h1 : a = -(-a) := by ring
    have h2 : 0 ≤ (-a).tmod b := Int.tmod_nonneg b (by omega)
    rw [h1, tmod_neg_left]
    omega

/-! ## Claim C2 -/

/-- Claim C2, counterexample: dividing the float `1.5` by a zero divisor
does not produce a `Float` (±∞/NaN); it fails with `DivideByZero`, both
for `checked_div` applied to two float values and for the full evaluation
of the program `1.5 / 0.0` (where the literal `0.0` has been normalized
to `Int(0)`). -/
theorem c2_counterexample :
    checkedDiv ⟨.float (.finite (mkRat 3 2)), ⟨0, 3⟩⟩ ⟨.float (.finite 0), ⟨6, 9⟩⟩ =
      .error (.err (.divideByZero ⟨.float (.finite (mkRat 3 2)), ⟨0, 3⟩⟩
        ⟨.float (.finite 0), ⟨6, 9⟩⟩)) ∧
    evalAst 30 divZeroFloatProg Ctx.initial =
      .error (.err (.divideByZero ⟨.float (.finite (mkRat 3 2)), ⟨0, 3⟩⟩ ⟨.int 0, ⟨6, 9⟩⟩)) :=
  ⟨by decide, by rfl⟩

/-- Claim C2 (amended): division in which at least one operand is a
`Float` fails with `DivideByZero` exactly when the divisor's `f64` value
equals `0.0` (a `NaN` divisor does not fail); with a nonzero divisor the
result is the `f64` quotient as a `Float`. -/
theorem c2_float_division_zero_check
    (va vb : ValRange) (fa fb : FVal)
    (hfl : (∃ q, va.val = .float q) ∨ (∃ q, vb.val = .float q))
    (ha : va.val.toF64 = some fa) (hb : vb.val.toF64 = some fb) :
    (checkedDiv va vb = .error (.err (.divideByZero va vb)) ↔ FVal.beq fb (.finite 0) = true) ∧
    (FVal.beq fb (.finite 0) = false → checkedDiv va vb = .ok (.float (FVal.div fa fb))) := by
  have hstep : checkedDiv va vb =
      (if FVal.beq fb (.finite 0) then .error (.err (.divideByZero va vb))
       else .ok (.float (FVal.div fa fb))) := by
    rcases hva : va.val with ia | qa | ba | sa | ra <;>
      rcases hvb : vb.val with ib | qb | bb | sb | rb <;>
        simp_all [checkedDiv, Val.toF64, ValRange.toF64R]
  rw [hstep]
  constructor
  · constructor
    · intro h
      by_contra hc
      simp [eq_false_of_ne_true hc] at h
    · intro h
      simp [h]
  · intro h
    simp [h]

/-! ## Claim C4 -/

/-- Claim C4, counterexample: `2 ^ 128` does not fit in `i128`, yet the
evaluation does not fail with `PowOverflow`: the unchecked `i128::pow`
panics (wraps in a release build), shown both for `Context::pow`'s value
computation and for the full evaluation of the program `2 ^ 128`. -/
theorem c4_counterexample :
    powVals ⟨.int 2, ⟨0, 1⟩⟩ ⟨.int 128, ⟨4, 7⟩⟩ = .error .panic ∧
    evalAst 30 powOverflowProg Ctx.initial = .error .panic :=
  ⟨by decide, by rfl⟩

/-- Claim C4 (amended): `+`, `-` and `*` on `Int` operands use checked
`i128` arithmetic, failing with `AddOverflow`/`SubOverflow`/`MulOverflow`
exactly when the mathematical result does not fit in `i128`; integer
division by zero fails with `DivideByZero` (on both division operators);
but `^` is only partially checked: `PowOverflow` is returned exactly when
the exponent fits neither `u32` nor `i32`, an exponent in `u32` range
with an overflowing power panics instead, and a negative exponent in
`i32` range produces a `Float`. -/
theorem c4_checked_int_arithmetic :
    (∀ a b ra rb, checkedAdd ⟨.int a, ra⟩ ⟨.int b, rb⟩ =
      if fitsI128 (a + b) then .ok (.int (a + b))
      else .error (.err (.addOverflow ⟨.int a, ra⟩ ⟨.int b, rb⟩))) ∧
    (∀ a b ra rb, checkedSub ⟨.int a, ra⟩ ⟨.int b, rb⟩ =
      if fitsI128 (a - b) then .ok (.int (a - b))
      else .error (.err (.subOverflow ⟨.int a, ra⟩ ⟨.int b, rb⟩))) ∧
    (∀ a b ra rb, checkedMul ⟨.int a, ra⟩ ⟨.int b, rb⟩ =
      if fitsI128 (a * b) then .ok (.int (a * b))
      else .error (.err (.mulOverflow ⟨.int a, ra⟩ ⟨.int b, rb⟩))) ∧
    (∀ a ra rb, checkedDiv ⟨.int a, ra⟩ ⟨.int 0, rb⟩ =
      .error (.err (.divideByZero ⟨.int a, ra⟩ ⟨.int 0, rb⟩))) ∧
    (∀ a ra rb, intDivVals ⟨.int a, ra⟩ ⟨.int 0, rb⟩ =
      .error (.err (.divideByZero ⟨.int a, ra⟩ ⟨.int 0, rb⟩))) ∧
    (∀ base exp ra rb,
      (powVals ⟨.int base, ra⟩ ⟨.int exp, rb⟩ =
          .error (.err (.powOverflow ⟨.int base, ra⟩ ⟨.int exp, rb⟩)) ↔
        (exp < I32_MIN ∨ U32_MAX < exp)) ∧
      (powVals ⟨.int base, ra⟩ ⟨.int exp, rb⟩ = .error .panic ↔
        (0 ≤ exp ∧ exp ≤ U32_MAX ∧ fitsI128 (base ^ exp.toNat) = false)) ∧
      (0 ≤ exp → exp ≤ U32_MAX → fitsI128 (base ^ exp.toNat) = true →
        powVals ⟨.int base, ra⟩ ⟨.int exp, rb⟩ = .ok (.int (base ^ exp.toNat)))) := by
  refine ⟨?_, ?_, ?_, ?_, ?_, ?_⟩
  · intro a b ra rb
    by_cases h : fitsI128 (a + b) = true <;> simp [checkedAdd, i128CheckedAdd, h]
  · intro a b ra rb
    by_cases h : fitsI128 (a - b) = true <;> simp [checkedSub, i128CheckedSub, h]
  · intro a b ra rb
    by_cases h : fitsI128 (a * b) = true <;> simp [checkedMul, i128CheckedMul, h]
  · intro a ra rb
    simp [checkedDiv]
  · intro a ra rb
    simp [intDivVals]
  · intro base exp ra rb
    have hne : ¬ (I32_MIN ≤ I32_MAX + 1) → False := by intro h; exact h (by decide)
    refine ⟨?_, ?_, ?_⟩
    · simp only [powVals, i128Pow]
      constructor
      · intro h
        by_contra hc
        push_neg at hc
        rcases Decidable.em (0 ≤ exp ∧ exp ≤ U32_MAX) with h1 | h1
        · simp only [if_pos h1] at h
          split at h <;> simp_all
        · have h2 : I32_MIN ≤ exp ∧ exp ≤ I32_MAX := by
            simp only [I32_MIN, I32_MAX, U32_MAX] at *
            omega
          simp [if_neg h1, if_pos h2] at h
      · intro h
        have h1 : ¬ (0 ≤ exp ∧ exp ≤ U32_MAX) := by
          simp only [I32_MIN, U32_MAX] at *
          omega
        have h2 : ¬ (I32_MIN ≤ exp ∧ exp ≤ I32_MAX) := by
          simp only [I32_MIN, I32_MAX, U32_MAX] at *
          omega
        simp [if_neg h1, if_neg h2]
    · simp only [powVals, i128Pow]
      constructor
      · intro h
        rcases Decidable.em (0 ≤ exp ∧ exp ≤ U32_MAX) with h1 | h1
        · simp only [if_pos h1] at h
          split at h <;> simp_all
        · simp only [if_neg h1] at h
          split at h <;> simp_all
      · rintro ⟨h1, h2, h3⟩
        simp [if_pos (And.intro h1 h2), h3]
    · intro h1 h2 h3
      simp [powVals, i128Pow, if_pos (And.intro h1 h2), h3]

/-- Concrete instance of `c4_checked_int_arithmetic`: `2 ^ 10` succeeds
with `Int(1024)` and `2 + 3` succeeds with `Int(5)`. -/
theorem c4_checked_int_arithmetic_witness :
    powVals ⟨.int 2, ⟨0, 1⟩⟩ ⟨.int 10, ⟨4, 6⟩⟩ = .ok (.int 1024) ∧
    checkedAdd ⟨.int 2, ⟨0, 1⟩⟩ ⟨.int 3, ⟨4, 5⟩⟩ = .ok (.int 5) := by
  constructor
  · have h := (c4_checked_int_arithmetic.2.2.2.2.2 2 10 ⟨0, 1⟩ ⟨4, 6⟩).2.2
      (by decide) (by decide) (by decide)
    exact h.trans (by decide)
  · exact (c4_checked_int_arithmetic.1 2 3 ⟨0, 1⟩ ⟨4, 5⟩).trans (by decide)

/-- Concrete instance of `c2_float_division_zero_check`: `1.5 / 0.0`
(both floats) fails with `DivideByZero`, while a `NaN` divisor does not
fail and yields a `Float`. -/
theorem c2_float_division_zero_check_witness :
    checkedDiv ⟨.float (.finite (mkRat 3 2)), ⟨0, 3⟩⟩ ⟨.float (.finite 0), ⟨6, 9⟩⟩ =
      .error (.err (.divideByZero ⟨.float (.finite (mkRat 3 2)), ⟨0, 3⟩⟩
        ⟨.float (.finite 0), ⟨6, 9⟩⟩)) ∧
    checkedDiv ⟨.float (.finite (mkRat 3 2)), ⟨0, 3⟩⟩ ⟨.float .nan, ⟨6, 9⟩⟩ =
      .ok (.float (FVal.div (.finite (mkRat 3 2)) .nan)) := by
  constructor
  · exact (c2_float_division_zero_check ⟨.float (.finite (mkRat 3 2)), ⟨0, 3⟩⟩
      ⟨.float (.finite 0), ⟨6, 9⟩⟩ (.finite (mkRat 3 2)) (.finite 0)
      (Or.inl ⟨_, rfl⟩) rfl rfl).1.mpr (by decide)
  · exact (c2_float_division_zero_check ⟨.float (.finite (mkRat 3 2)), ⟨0, 3⟩⟩
      ⟨.float .nan, ⟨6, 9⟩⟩ (.finite (mkRat 3 2)) .nan
      (Or.inl ⟨_, rfl⟩) rfl rfl).2 (by decide)

/-! ## Claim C6 -/

/-- Claim C6, counterexample: the remainder operator is not defined for
every `Int` pair with nonzero divisor: `i128::MIN % -1` hits the raw
`a % b` whose overflow check panics in a debug build, instead of
producing a remainder with the sign of `b`. -/
theorem c6_counterexample :
    remVals ⟨.int I128_MIN, ⟨0, 40⟩⟩ ⟨.int (-1), ⟨43, 45⟩⟩ = .error .panic ∧
    evalAst 30 remPanicProg Ctx.initial = .error .panic :=
  ⟨by decide, by rfl⟩

/-- Claim C6 (amended): for `Int` operands with a nonzero divisor —
excepting `i128::MIN % -1`, where the raw remainder overflows — `%`
computes the truncated remainder shifted by `b` when the signs differ,
so the result is zero or has the sign of `b`; a zero divisor fails with
`RemainderByZero`; `8 % 3 = 2` and `-8 % 3 = 1`. -/
theorem c6_rem_euclidean :
    (∀ (a b : Int) (ra rb : CRange), b ≠ 0 → ¬(a = I128_MIN ∧ b = -1) →
      ∃ res, remVals ⟨.int a, ra⟩ ⟨.int b, rb⟩ = .ok (.int res) ∧
        res = (if (0 < a.tmod b ∧ b < 0) ∨ (a.tmod b < 0 ∧ 0 < b)
               then a.tmod b + b else a.tmod b) ∧
        (res = 0 ∨ (0 < res ∧ 0 < b) ∨ (res < 0 ∧ b < 0))) ∧
    (∀ (a : Int) (ra rb : CRange), remVals ⟨.int a, ra⟩ ⟨.int 0, rb⟩ =
      .error (.err (.remainderByZero ⟨.int a, ra⟩ ⟨.int 0, rb⟩))) ∧
    evalAst 30 remProg1 Ctx.initial = .ok (.val ⟨.int 2, ⟨0, 5⟩⟩, Ctx.initial) ∧
    evalAst 30 remProg2 Ctx.initial = .ok (.val ⟨.int 1, ⟨0, 6⟩⟩, Ctx.initial) := by
  refine ⟨?_, ?_, by rfl, by rfl⟩
  · intro a b ra rb hb hnp
    have hrem : i128Rem a b = some (a.tmod b) := by
      simp [i128Rem, hb, hnp]
    refine ⟨if (0 < a.tmod b ∧ b < 0) ∨ (a.tmod b < 0 ∧ 0 < b)
            then a.tmod b + b else a.tmod b, ?_, rfl, ?_⟩
    · simp only [remVals, if_neg hb, hrem]
      split <;> rfl
    · rcases lt_or_gt_of_ne hb with hbneg | hbpos
      · have hbounds : -(-b) < a.tmod (-b) ∧ a.tmod (-b) < -b :=
          tmod_bounds_pos a (by omega)
        rw [Int.tmod_neg] at hbounds
        have hsign := tmod_sign a b
        split
        · rename_i hcond
          rcases hcond with ⟨h1, h2⟩ | ⟨h1, h2⟩ <;> omega
        · rename_i hcond
          push_neg at hcond
          rcases lt_trichotomy (a.tmod b) 0 with h | h | h
          · right; right; exact ⟨h, hbneg⟩
          · left; exact h
          · omega
      · have hbounds := tmod_bounds_pos a hbpos
        split
        · rename_i hcond
          rcases hcond with ⟨h1, h2⟩ | ⟨h1, h2⟩ <;> omega
        · rename_i hcond
          push_neg at hcond
          rcases lt_trichotomy (a.tmod b) 0 with h | h | h
          · omega
          · left; exact h
          · right; left; exact ⟨h, hbpos⟩
  · intro a ra rb
    simp [remVals]

/-- Concrete instance of `c6_rem_euclidean`: `8 % -5` yields a result
with the sign of the divisor. -/
theorem c6_rem_euclidean_witness :
    ∃ res, remVals ⟨.int 8, ⟨0, 1⟩⟩ ⟨.int (-5), ⟨4, 6⟩⟩ = .ok (.int res) ∧
      (res = 0 ∨ (0 < res ∧ (0 : Int) < -5) ∨ (res < 0 ∧ (-5 : Int) < 0)) := by
  obtain ⟨res, h1, _, h3⟩ :=
    c6_rem_euclidean.1 8 (-5) ⟨0, 1⟩ ⟨4, 6⟩ (by decide) (by decide)
  exact ⟨res, h1, h3⟩

/-! ## Claim C7 -/

/-- The factorial iteration range `1..=n` grows by one element. -/
theorem intRangeIncl_succ (n : Int) (h : 0 ≤ n) :
    intRangeIncl 1 (n + 1) = intRangeIncl 1 n ++ [n + 1] := by
  simp only [intRangeIncl]
  have h1 : (n + 1 - 1 + 1).toNat = (n - 1 + 1).toNat + 1 := by omega
  rw [h1, List.range_succ, List.map_append]
  simp only [List.map_cons, List.map_nil, List.append_cancel_left_eq, List.cons.injEq, and_true]
  have h2 : (n - 1 + 1).toNat = n.toNat := by omega
  rw [h2]
  omega

/-- `factLoop` over an appended list runs the first part, then the
second. -/
theorem factLoop_append (f : Int) (l1 l2 : List Int) :
    factLoop f (l1 ++ l2) =
      match factLoop f l1 with
      | some g => factLoop g l2
      | none => none := by
  induction l1 generalizing f with
  | nil => rfl
  | cons i rest ih =>
    simp only [List.cons_append, factLoop]
    cases i128CheckedMul f i with
    | none => rfl
    | some v => exact ih v

/-- On `n ≤ 33` the checked factorial loop succeeds with `n!`. -/
theorem factLoop_ok (n : Nat) (h : n ≤ 33) :
    factLoop 1 (intRangeIncl 1 (n : Int)) = some (n.factorial : Int) := by
  induction n with
  | zero => rfl
  | succ m ih =>
    have hm : m ≤ 33 := by omega
    have hcast : ((m + 1 : Nat) : Int) = (m : Int) + 1 := by push_cast; ring
    rw [hcast, intRangeIncl_succ (m : Int) (by positivity), factLoop_append, ih hm]
    have hfits : fitsI128 ((m.factorial : Int) * ((m : Int) + 1)) = true := by
      have h1 : (m + 1).factorial ≤ (33).factorial := Nat.factorial_le (by omega)
      have h2 : ((33).factorial : Int) ≤ I128_MAX := by decide
      have h3 : ((m.factorial : Int) * ((m : Int) + 1)) = ((m + 1).factorial : Int) := by
        rw [Nat.factorial_succ]
        push_cast
        ring
      have h4 : ((m + 1).factorial : Int) ≤ ((33).factorial : Int) := by exact_mod_cast h1
      have h5 : (0 : Int) ≤ ((m + 1).factorial : Int) := by positivity
      simp only [fitsI128, decide_eq_true_eq]
      constructor
      · rw [h3]; simp only [I128_MIN] at *; omega
      · rw [h3]; simp only [I128_MAX] at *; omega
    simp only [factLoop, i128CheckedMul, hfits, if_true]
    have h3 : ((m.factorial : Int) * ((m : Int) + 1)) = ((m + 1).factorial : Int) := by
      rw [Nat.factorial_succ]
      push_cast
      ring
    rw [h3]

/-- The checked factorial loop fails on the prefix `1..=34`. -/
theorem factLoop_fail34 : factLoop 1 (intRangeIncl 1 34) = none := by decide

/-- Splitting the iteration range of a factorial past `34`. -/
theorem intRangeIncl_split (n : Int) (h : 34 ≤ n) :
    ∃ l2, intRangeIncl 1 n = intRangeIncl 1 34 ++ l2 := by
  simp only [intRangeIncl]
  have h1 : (n - 1 + 1).toNat = 34 + (n.toNat - 34) := by omega
  rw [h1, List.range_add, List.map_append]
  have h2 : ((34 : Int) - 1 + 1).toNat = 34 := by decide
  rw [h2]
  exact ⟨_, rfl⟩

/-- Claim C7: factorial of an `Int` fails with `NegativeFactorial`
exactly on negative input; otherwise it succeeds with `Int(n!)` exactly
when `n ≤ 33` and fails with `FactorialOverflow` exactly when `n ≥ 34` —
the least `n` whose partial product `34!` overflows `i128` (second
conjunct: some partial product `k!` overflows exactly when `n ≥ 34`). -/
theorem c7_factorial :
    (∀ (n : Int) (rr rg : CRange),
      factorialVal ⟨.int n, rr⟩ rg =
        if n < 0 then .error (.err (.negativeFactorial ⟨.int n, rr⟩))
        else if n ≤ 33 then .ok (.val ⟨.int (n.toNat.factorial : Int), rg⟩)
        else .error (.err (.factorialOverflow ⟨.int n, rr⟩))) ∧
    (∀ n : Int,
      (∃ k : Int, 1 ≤ k ∧ k ≤ n ∧ fitsI128 ((k.toNat.factorial : Int)) = false) ↔ 34 ≤ n) := by
  constructor
  · intro n rr rg
    by_cases h1 : n < 0
    · simp [factorialVal, h1]
    · by_cases h2 : n ≤ 33
      · have hn : n = ((n.toNat : Nat) : Int) := by omega
        have hloop := factLoop_ok n.toNat (by omega)
        rw [← hn] at hloop
        simp [factorialVal, h1, h2, hloop]
      · obtain ⟨l2, hsplit⟩ := intRangeIncl_split n (by omega)
        have hloop : factLoop 1 (intRangeIncl 1 n) = none := by
          rw [hsplit, factLoop_append, factLoop_fail34]
        simp [factorialVal, h1, h2, hloop]
  · intro n
    constructor
    · rintro ⟨k, hk1, hk2, hk3⟩
      by_contra hc
      push_neg at hc
      have hk33 : k.toNat ≤ 33 := by omega
      have h1 : k.toNat.factorial ≤ (33).factorial := Nat.factorial_le hk33
      have h2 : ((33).factorial : Int) ≤ I128_MAX := by decide
      have h4 : ((k.toNat.factorial : Nat) : Int) ≤ ((33).factorial : Int) := by exact_mod_cast h1
      have h5 : (0 : Int) ≤ (k.toNat.factorial : Int) := by positivity
      have : fitsI128 ((k.toNat.factorial : Int)) = true := by
        simp only [fitsI128, decide_eq_true_eq]
        simp only [I128_MIN, I128_MAX] at *
        omega
      rw [this] at hk3
      cases hk3
    · intro h
      refine ⟨34, by omega, h, ?_⟩
      decide

/-- Direct evaluation of the boundary instances: `33!` succeeds,
`34!` fails with `FactorialOverflow(34)`. -/
theorem factorial_boundary_examples :
    factorialVal ⟨.int 33, ⟨0, 2⟩⟩ ⟨0, 3⟩ =
      .ok (.val ⟨.int ((33).factorial : Int), ⟨0, 3⟩⟩) ∧
    factorialVal ⟨.int 34, ⟨0, 2⟩⟩ ⟨0, 3⟩ =
      .error (.err (.factorialOverflow ⟨.int 34, ⟨0, 2⟩⟩)) := by
  exact ⟨by decide, by decide⟩

/-! ## Claim C10 -/

/-- Claim C10: `clamp` on three `Int` arguments fails with
`InvalidClampBounds` exactly when `min > max`, and otherwise returns the
clamped `Int`; with at least one non-`Int` (numeric) argument all three
are converted to `f64` and the call fails with `InvalidClampBounds`
exactly when `min <= max` does not hold as an `f64` comparison — which
includes a `NaN` bound — and otherwise returns the clamped `Float`. -/
theorem c10_clamp
    (vnum vmin vmax : ValRange) :
    (∀ n mn mx, vnum.val = .int n → vmin.val = .int mn → vmax.val = .int mx →
      (clampVals vnum vmin vmax = .error (.err (.invalidClampBounds vmin vmax)) ↔ mx < mn) ∧
      (¬ mx < mn →
        clampVals vnum vmin vmax =
          .ok (.int (if n < mn then mn else if mx < n then mx else n)))) ∧
    (∀ fn fmn fmx,
      vnum.val.toF64 = some fn → vmin.val.toF64 = some fmn → vmax.val.toF64 = some fmx →
      ((∃ q, vnum.val = .float q) ∨ (∃ q, vmin.val = .float q) ∨ (∃ q, vmax.val = .float q)) →
      (clampVals vnum vmin vmax = .error (.err (.invalidClampBounds vmin vmax)) ↔
        FVal.le fmn fmx = false) ∧
      (FVal.le fmn fmx = true →
        clampVals vnum vmin vmax = .ok (.float (FVal.clamp fn fmn fmx)))) := by
  constructor
  · intro n mn mx hn hmn hmx
    constructor
    · constructor
      · intro h
        by_contra hc
        rw [clampVals] at h
        simp [hn, hmn, hmx, if_neg hc] at h
      · intro h
        rw [clampVals]
        simp [hn, hmn, hmx, h]
    · intro h
      rw [clampVals]
      simp [hn, hmn, hmx, if_neg h]
  · intro fn fmn fmx hfn hfmn hfmx hfl
    have hstep : clampVals vnum vmin vmax =
        (if FVal.le fmn fmx then .ok (.float (FVal.clamp fn fmn fmx))
         else .error (.err (.invalidClampBounds vmin vmax))) := by
      rcases h1 : vnum.val with i1 | q1 | b1 | s1 | r1 <;>
        rcases h2 : vmin.val with i2 | q2 | b2 | s2 | r2 <;>
          rcases h3 : vmax.val with i3 | q3 | b3 | s3 | r3 <;>
            simp_all [clampVals, Val.toF64, ValRange.toF64R] <;>
              (try (split <;> simp_all))
    rw [hstep]
    constructor
    · by_cases h : FVal.le fmn fmx = true
      · simp [h]
      · simp [eq_false_of_ne_true h]
    · intro h
      simp [h]

/-- Concrete instance of `c10_clamp`: `clamp(9, -2, 23)` with `Int`s
returns `Int(9)`; a `NaN` lower bound with floats fails with
`InvalidClampBounds`. -/
theorem c10_clamp_witness :
    clampVals ⟨.int 9, ⟨6, 7⟩⟩ ⟨.int (-2), ⟨9, 11⟩⟩ ⟨.int 23, ⟨13, 15⟩⟩ = .ok (.int 9) ∧
    clampVals ⟨.float (.finite 1), ⟨6, 9⟩⟩ ⟨.float .nan, ⟨11, 14⟩⟩ ⟨.float (.finite 2), ⟨16, 19⟩⟩ =
      .error (.err (.invalidClampBounds ⟨.float .nan, ⟨11, 14⟩⟩ ⟨.float (.finite 2), ⟨16, 19⟩⟩)) := by
  constructor
  · have h := ((c10_clamp ⟨.int 9, ⟨6, 7⟩⟩ ⟨.int (-2), ⟨9, 11⟩⟩ ⟨.int 23, ⟨13, 15⟩⟩).1
      9 (-2) 23 rfl rfl rfl).2 (by decide)
    exact h.trans (by decide)
  · exact ((c10_clamp ⟨.float (.finite 1), ⟨6, 9⟩⟩ ⟨.float .nan, ⟨11, 14⟩⟩
      ⟨.float (.finite 2), ⟨16, 19⟩⟩).2 (.finite 1) .nan (.finite 2) rfl rfl rfl
      (Or.inl ⟨_, rfl⟩)).1.mpr (by decide)

/-! ## Claim C5 -/

/-- Applying the normalization twice is the same as applying it once. -/
theorem normalizeVal_idem (v : Val) : normalizeVal (normalizeVal v) = normalizeVal v := by
  rcases v with i | q | b | s | rg
  · rfl
  · cases h : Val.convertToInt (.float q) with
    | none => simp [normalizeVal, h]
    | some i =>
      simp only [normalizeVal, h]
      rfl
  · rfl
  · rfl
  · rfl

/-- Claim C5: every value produced by `eval_ast` is a fixed point of the
numeric normalization — in particular no produced `Float` is exactly
representable as an `i128`; the normalization converts exactly the
`Float`s `x` with `x == (x as i128) as f64` into `Int(x as i128)` and
leaves every other value unchanged; consequently `2.0 == 2` evaluates to
`Bool(true)`. -/
theorem c5_float_normalization :
    (∀ (f : Nat) (ast : Ast) (ctx : Ctx) (v : ValRange) (c : Ctx),
      evalAst f ast ctx = .ok (.val v, c) → normalizeVal v.val = v.val) ∧
    (∀ q : FVal, normalizeVal (.float q) =
      if FVal.beq (i128AsF64 (f64AsI128 q)) q then .int (f64AsI128 q) else .float q) ∧
    (∀ i, normalizeVal (.int i) = .int i) ∧
    (∀ b, normalizeVal (.bool b) = .bool b) ∧
    (∀ s, normalizeVal (.str s) = .str s) ∧
    (∀ rg, normalizeVal (.range rg) = .range rg) ∧
    evalAst 30 floatIntEqProg Ctx.initial = .ok (.val ⟨.bool true, ⟨0, 8⟩⟩, Ctx.initial) := by
  refine ⟨?_, ?_, fun _ => rfl, fun _ => rfl, fun _ => rfl, fun _ => rfl, by rfl⟩
  · intro f ast ctx v c h
    cases f with
    | zero => simp [evalAst] at h
    | succ f =>
      rw [evalAst] at h
      cases hcore : evalAstCore f ast ctx with
      | error e => rw [hcore] at h; cases h
      | ok rc =>
        obtain ⟨r0, c0⟩ := rc
        rw [hcore] at h
        cases r0 with
        | unit ru => cases h
        | val vr =>
          simp only [normalizeReturn, Except.ok.injEq, Prod.mk.injEq] at h
          obtain ⟨hv, _⟩ := h
          have hv2 : (⟨normalizeVal vr.val, vr.range⟩ : ValRange) = v := by
            injection hv
          rw [← hv2]
          exact normalizeVal_idem vr.val
  · intro q
    by_cases hb : FVal.beq (i128AsF64 (f64AsI128 q)) q = true <;>
      simp [normalizeVal, Val.convertToInt, hb]

/-- Concrete instance of `c5_float_normalization`: the float literal
`2.0` evaluates to a value fixed under normalization (it has become
`Int(2)`). -/
theorem c5_float_normalization_witness :
    normalizeVal (Val.int 2) = Val.int 2 :=
  c5_float_normalization.1 2 (litAst (.float (.finite 2)) 0 3) Ctx.initial
    ⟨.int 2, ⟨0, 3⟩⟩ Ctx.initial (by rfl)

/-! ## Claim C1 -/

/-- Claim C1, counterexample: with a deciding left operand the right
operand of `||`/`&&` is still evaluated: `true || (1/0 == 1)` fails with
the right operand's `DivideByZero` instead of yielding `Bool(true)`, and
`false && { println(5); true }` yields `Bool(false)` but the right
operand's output `"5\n"` is observable on the sink. -/
theorem c1_counterexample :
    evalAst 30 orErrProg Ctx.initial =
      .error (.err (.divideByZero ⟨.int 1, ⟨6, 7⟩⟩ ⟨.int 0, ⟨8, 9⟩⟩)) ∧
    evalAst 30 andPrintProg Ctx.initial =
      .ok (.val ⟨.bool false, ⟨0, 29⟩⟩, ⟨[Scope.default], "5\n"⟩) :=
  ⟨by rfl, by rfl⟩

/-- Claim C1 (amended): `||` and `&&` always evaluate both operands left
to right; an error of the right operand propagates (and any of its
output is performed) even when the left operand decides the result, and
when both operands produce booleans the result is the plain
disjunction/conjunction. -/
theorem c1_eager_boolean_operators
    (f : Nat) (a b : Ast) (r : CRange) (ctx c1 : Ctx) (ba : Bool)
    (ha : evalToBool f a ctx = .ok (ba, c1)) :
    (∀ e, evalToBool f b c1 = .error e →
      evalAst (f + 1 + 1) (.mk (.or a b) r) ctx = .error e ∧
      evalAst (f + 1 + 1) (.mk (.and a b) r) ctx = .error e) ∧
    (∀ bb c2, evalToBool f b c1 = .ok (bb, c2) →
      evalAst (f + 1 + 1) (.mk (.or a b) r) ctx = .ok (.val ⟨.bool (ba || bb), r⟩, c2) ∧
      evalAst (f + 1 + 1) (.mk (.and a b) r) ctx = .ok (.val ⟨.bool (ba && bb), r⟩, c2)) := by
  constructor
  · intro e hb
    constructor <;>
      simp [evalAst, evalAstCore, ha, hb]
  · intro bb c2 hb
    constructor <;>
      simp [evalAst, evalAstCore, ha, hb, normalizeReturn, normalizeVal, Val.convertToInt]

/-! ## Claim C3 -/

/-- The `min` loop evaluates and converts the same values as
`eval_to_vals` followed by the elementwise conversion, folding them. -/
theorem evalMinArgs_eq (args : List Ast) :
    ∀ (f : Nat) (ctx : Ctx) (vrs : List ValRange) (c : Ctx) (fvs : List FVal)
      (acc : Option FVal),
      evalToVals f args ctx = .ok (vrs, c) → listToF64 vrs = some fvs →
      evalMinArgs f args acc ctx = .ok (minFold acc fvs, c) := by
  induction args with
  | nil =>
    intro f ctx vrs c fvs acc hv hf
    cases f with
    | zero => simp [evalToVals] at hv
    | succ f =>
      simp only [evalToVals, Except.ok.injEq, Prod.mk.injEq] at hv
      obtain ⟨h1, h2⟩ := hv
      subst h1 h2
      simp only [listToF64, Option.some.injEq] at hf
      subst hf
      simp [evalMinArgs, minFold]
  | cons a rest ih =>
    intro f ctx vrs c fvs acc hv hf
    cases f with
    | zero => simp [evalToVals] at hv
    | succ f =>
      simp only [evalToVals] at hv
      cases h1 : evalToVal f a ctx with
      | error e => rw [h1] at hv; cases hv
      | ok vc =>
        obtain ⟨v, c1⟩ := vc
        rw [h1] at hv
        dsimp only at hv
        cases h2 : evalToVals f rest c1 with
        | error e => rw [h2] at hv; cases hv
        | ok pc =>
          obtain ⟨vs, c2⟩ := pc
          rw [h2] at hv
          dsimp only at hv
          simp only [Except.ok.injEq, Prod.mk.injEq] at hv
          obtain ⟨hvrs, hc⟩ := hv
          subst hvrs hc
          simp only [listToF64] at hf
          cases h3 : v.val.toF64 with
          | none => rw [h3] at hf; cases hf
          | some fv =>
            rw [h3] at hf
            cases h4 : listToF64 vs with
            | none => rw [h4] at hf; cases hf
            | some fvs2 =>
              rw [h4] at hf
              simp only [Option.map_some', Option.some.injEq] at hf
              subst hf
              have hconv : v.toF64R = .ok fv := by
                simp [ValRange.toF64R, h3]
              cases acc with
              | none =>
                simp only [evalMinArgs, h1, hconv]
                exact ih f c1 vs c2 fvs2 (some fv) h2 h4
              | some m =>
                simp only [evalMinArgs, h1, hconv]
                exact ih f c1 vs c2 fvs2 _ h2 h4

/-- The `max` loop, analogously. -/
theorem evalMaxArgs_eq (args : List Ast) :
    ∀ (f : Nat) (ctx : Ctx) (vrs : List ValRange) (c : Ctx) (fvs : List FVal)
      (acc : Option FVal),
      evalToVals f args ctx = .ok (vrs, c) → listToF64 vrs = some fvs →
      evalMaxArgs f args acc ctx = .ok (maxFold acc fvs, c) := by
  induction args with
  | nil =>
    intro f ctx vrs c fvs acc hv hf
    cases f with
    | zero => simp [evalToVals] at hv
    | succ f =>
      simp only [evalToVals, Except.ok.injEq, Prod.mk.injEq] at hv
      obtain ⟨h1, h2⟩ := hv
      subst h1 h2
      simp only [listToF64, Option.some.injEq] at hf
      subst hf
      simp [evalMaxArgs, maxFold]
  | cons a rest ih =>
    intro f ctx vrs c fvs acc hv hf
    cases f with
    | zero => simp [evalToVals] at hv
    | succ f =>
      simp only [evalToVals] at hv
      cases h1 : evalToVal f a ctx with
      | error e => rw [h1] at hv; cases hv
      | ok vc =>
        obtain ⟨v, c1⟩ := vc
        rw [h1] at hv
        dsimp only at hv
        cases h2 : evalToVals f rest c1 with
        | error e => rw [h2] at hv; cases hv
        | ok pc =>
          obtain ⟨vs, c2⟩ := pc
          rw [h2] at hv
          dsimp only at hv
          simp only [Except.ok.injEq, Prod.mk.injEq] at hv
          obtain ⟨hvrs, hc⟩ := hv
          subst hvrs hc
          simp only [listToF64] at hf
          cases h3 : v.val.toF64 with
          | none => rw [h3] at hf; cases hf
          | some fv =>
            rw [h3] at hf
            cases h4 : listToF64 vs with
            | none => rw [h4] at hf; cases hf
            | some fvs2 =>
              rw [h4] at hf
              simp only [Option.map_some', Option.some.injEq] at hf
              subst hf
              have hconv : v.toF64R = .ok fv := by
                simp [ValRange.toF64R, h3]
              cases acc with
              | none =>
                simp only [evalMaxArgs, h1, hconv]
                exact ih f c1 vs c2 fvs2 (some fv) h2 h4
              | some m =>
                simp only [evalMaxArgs, h1, hconv]
                exact ih f c1 vs c2 fvs2 _ h2 h4

/-- A defined `minFold` result is an element of the list or the initial
accumulator. -/
theorem minFold_some_mem (l : List FVal) :
    ∀ (acc : Option FVal) (m : FVal), minFold acc l = some m → m ∈ l ∨ acc = some m := by
  induction l with
  | nil =>
    intro acc m h
    right
    simpa [minFold] using h
  | cons v rest ih =>
    intro acc m h
    cases acc with
    | none =>
      rcases ih (some v) m h with hm | hm
      · exact Or.inl (List.mem_cons_of_mem v hm)
      · injection hm with hm
        exact Or.inl (hm ▸ List.mem_cons_self v rest)
    | some m0 =>
      rcases ih _ m h with hm | hm
      · exact Or.inl (List.mem_cons_of_mem v hm)
      · injection hm with hm
        by_cases hlt : FVal.lt v m0 = true
        · rw [if_pos hlt] at hm
          exact Or.inl (hm ▸ List.mem_cons_self v rest)
        · rw [if_neg hlt] at hm
          exact Or.inr (congrArg some hm)

/-- A defined `maxFold` result is an element of the list or the initial
accumulator. -/
theorem maxFold_some_mem (l : List FVal) :
    ∀ (acc : Option FVal) (m : FVal), maxFold acc l = some m → m ∈ l ∨ acc = some m := by
  induction l with
  | nil =>
    intro acc m h
    right
    simpa [maxFold] using h
  | cons v rest ih =>
    intro acc m h
    cases acc with
    | none =>
      rcases ih (some v) m h with hm | hm
      · exact Or.inl (List.mem_cons_of_mem v hm)
      · injection hm with hm
        exact Or.inl (hm ▸ List.mem_cons_self v rest)
    | some m0 =>
      rcases ih _ m h with hm | hm
      · exact Or.inl (List.mem_cons_of_mem v hm)
      · injection hm with hm
        by_cases hlt : FVal.lt m0 v = true
        · rw [if_pos hlt] at hm
          exact Or.inl (hm ▸ List.mem_cons_self v rest)
        · rw [if_neg hlt] at hm
          exact Or.inr (congrArg some hm)

/-- `minFold` from a defined accumulator is defined. -/
theorem minFold_isSome (l : List FVal) :
    ∀ m0 : FVal, ∃ m, minFold (some m0) l = some m := by
  induction l with
  | nil => exact fun m0 => ⟨m0, rfl⟩
  | cons v rest ih => exact fun m0 => ih _

/-- `maxFold` from a defined accumulator is defined. -/
theorem maxFold_isSome (l : List FVal) :
    ∀ m0 : FVal, ∃ m, maxFold (some m0) l = some m := by
  induction l with
  | nil => exact fun m0 => ⟨m0, rfl⟩
  | cons v rest ih => exact fun m0 => ih _

/-- Conversion of a list of in-range `Int` values. -/
theorem listToF64_int (vrs : List ValRange)
    (h : ∀ vr ∈ vrs, ∃ i, vr.val = .int i ∧ fitsI128 i = true) :
    ∃ fvs, listToF64 vrs = some fvs ∧ fvs.length = vrs.length ∧
      ∀ fv ∈ fvs, ∃ i, fitsI128 i = true ∧ fv = i128AsF64 i := by
  induction vrs with
  | nil => exact ⟨[], rfl, rfl, by simp⟩
  | cons v rest ih =>
    obtain ⟨i, hv, hfits⟩ := h v (List.mem_cons_self v rest)
    obtain ⟨fvs2, h1, h2, h3⟩ := ih (fun vr hvr => h vr (List.mem_cons_of_mem v hvr))
    refine ⟨i128AsF64 i :: fvs2, ?_, by simp [h2], ?_⟩
    · simp [listToF64, hv, Val.toF64, h1]
    · intro fv hfv
      rcases List.mem_cons.mp hfv with hfv | hfv
      · exact ⟨i, hfits, hfv⟩
      · exact h3 fv hfv

/-- Conversion of a list of non-integral `Float` values. -/
theorem listToF64_float (vrs : List ValRange)
    (h : ∀ vr ∈ vrs, ∃ q, vr.val = .float q ∧ Val.convertToInt (.float q) = none) :
    ∃ fvs, listToF64 vrs = some fvs ∧ fvs.length = vrs.length ∧
      ∀ fv ∈ fvs, Val.convertToInt (.float fv) = none := by
  induction vrs with
  | nil => exact ⟨[], rfl, rfl, by simp⟩
  | cons v rest ih =>
    obtain ⟨q, hv, hni⟩ := h v (List.mem_cons_self v rest)
    obtain ⟨fvs2, h1, h2, h3⟩ := ih (fun vr hvr => h vr (List.mem_cons_of_mem v hvr))
    refine ⟨q :: fvs2, ?_, by simp [h2], ?_⟩
    · simp [listToF64, hv, Val.toF64, h1]
    · intro fv hfv
      rcases List.mem_cons.mp hfv with hfv | hfv
      · exact hfv ▸ hni
      · exact h3 fv hfv

/-- Normalization turns the exact float image of an in-range `i128` back
into the `Int`. -/
theorem normalizeVal_i128AsF64 (i : Int) (h : fitsI128 i = true) :
    normalizeVal (.float (i128AsF64 i)) = .int i := by
  have htr : ratTrunc ((i : ℚ)) = i := by
    simp [ratTrunc, Rat.num_intCast, Rat.den_intCast, Int.tdiv_one]
  have hfits : I128_MIN ≤ i ∧ i ≤ I128_MAX := by
    simpa [fitsI128, decide_eq_true_eq] using h
  have hcast : f64AsI128 (i128AsF64 i) = i := by
    simp only [i128AsF64, f64AsI128, htr]
    rw [if_neg (by omega), if_neg (by omega)]
  simp only [normalizeVal, Val.convertToInt, hcast]
  simp [FVal.beq, i128AsF64]

/-- Claim C3: a `min`/`max` call whose arguments all evaluate to `Int`s
(within `i128` range) returns an `Int`, and one whose arguments all
evaluate to `Float`s (necessarily non-integral, being themselves
normalized) returns a `Float`; the produced context is the one after
evaluating the arguments. -/
theorem c3_min_max_element_type
    (f : Nat) (args : List Ast) (r : CRange) (ctx c : Ctx) (vrs : List ValRange)
    (hv : evalToVals f args ctx = .ok (vrs, c)) (hne : vrs ≠ []) :
    ((∀ vr ∈ vrs, ∃ i, vr.val = .int i ∧ fitsI128 i = true) →
      (∃ i, evalAst (f + 1 + 1) (.mk (.min args) r) ctx = .ok (.val ⟨.int i, r⟩, c)) ∧
      (∃ i, evalAst (f + 1 + 1) (.mk (.max args) r) ctx = .ok (.val ⟨.int i, r⟩, c))) ∧
    ((∀ vr ∈ vrs, ∃ q, vr.val = .float q ∧ Val.convertToInt (.float q) = none) →
      (∃ q, evalAst (f + 1 + 1) (.mk (.min args) r) ctx = .ok (.val ⟨.float q, r⟩, c)) ∧
      (∃ q, evalAst (f + 1 + 1) (.mk (.max args) r) ctx = .ok (.val ⟨.float q, r⟩, c))) := by
  constructor
  · intro hint
    obtain ⟨fvs, hfvs, hlen, helem⟩ := listToF64_int vrs hint
    have hne2 : fvs ≠ [] := by
      intro hc
      apply hne
      cases vrs with
      | nil => rfl
      | cons x xs => subst hc; simp at hlen
    obtain ⟨fv0, fvrest, rfl⟩ : ∃ x xs, fvs = x :: xs := by
      cases fvs with
      | nil => exact absurd rfl hne2
      | cons x xs => exact ⟨x, xs, rfl⟩
    constructor
    · obtain ⟨m, hm⟩ := minFold_isSome fvrest fv0
      have hrun := evalMinArgs_eq args f ctx vrs c (fv0 :: fvrest) none hv hfvs
      have hmem : m ∈ fv0 :: fvrest := by
        rcases minFold_some_mem fvrest (some fv0) m hm with h | h
        · exact List.mem_cons_of_mem fv0 h
        · injection h with h
          exact h ▸ List.mem_cons_self fv0 fvrest
      obtain ⟨i, hfits, hmval⟩ := helem m hmem
      refine ⟨i, ?_⟩
      simp only [evalAst, evalAstCore, hrun, minFold, hm, normalizeReturn]
      rw [hmval, normalizeVal_i128AsF64 i hfits]
    · obtain ⟨m, hm⟩ := maxFold_isSome fvrest fv0
      have hrun := evalMaxArgs_eq args f ctx vrs c (fv0 :: fvrest) none hv hfvs
      have hmem : m ∈ fv0 :: fvrest := by
        rcases maxFold_some_mem fvrest (some fv0) m hm with h | h
        · exact List.mem_cons_of_mem fv0 h
        · injection h with h
          exact h ▸ List.mem_cons_self fv0 fvrest
      obtain ⟨i, hfits, hmval⟩ := helem m hmem
      refine ⟨i, ?_⟩
      simp only [evalAst, evalAstCore, hrun, maxFold, hm, normalizeReturn]
      rw [hmval, normalizeVal_i128AsF64 i hfits]
  · intro hflt
    obtain ⟨fvs, hfvs, hlen, helem⟩ := listToF64_float vrs hflt
    have hne2 : fvs ≠ [] := by
      intro hc
      apply hne
      cases vrs with
      | nil => rfl
      | cons x xs => subst hc; simp at hlen
    obtain ⟨fv0, fvrest, rfl⟩ : ∃ x xs, fvs = x :: xs := by
      cases fvs with
      | nil => exact absurd rfl hne2
      | cons x xs => exact ⟨x, xs, rfl⟩
    constructor
    · obtain ⟨m, hm⟩ := minFold_isSome fvrest fv0
      have hrun := evalMinArgs_eq args f ctx vrs c (fv0 :: fvrest) none hv hfvs
      have hmem : m ∈ fv0 :: fvrest := by
        rcases minFold_some_mem fvrest (some fv0) m hm with h | h
        · exact List.mem_cons_of_mem fv0 h
        · injection h with h
          exact h ▸ List.mem_cons_self fv0 fvrest
      refine ⟨m, ?_⟩
      simp only [evalAst, evalAstCore, hrun, minFold, hm, normalizeReturn]
      simp [normalizeVal, helem m hmem]
    · obtain ⟨m, hm⟩ := maxFold_isSome fvrest fv0
      have hrun := evalMaxArgs_eq args f ctx vrs c (fv0 :: fvrest) none hv hfvs
      have hmem : m ∈ fv0 :: fvrest := by
        rcases maxFold_some_mem fvrest (some fv0) m hm with h | h
        · exact List.mem_cons_of_mem fv0 h
        · injection h with h
          exact h ▸ List.mem_cons_self fv0 fvrest
      refine ⟨m, ?_⟩
      simp only [evalAst, evalAstCore, hrun, maxFold, hm, normalizeReturn]
      simp [normalizeVal, helem m hmem]

/-- Concrete instance of `c3_min_max_element_type`: `min(3, 7, 5)` and
`max(3, 7, 5)` return `Int`s, `min(2.5, 3.5)` returns a `Float`. -/
theorem c3_min_max_element_type_witness :
    (∃ i, evalAst 8 (.mk (.min [litAst (.int 3) 4 5, litAst (.int 7) 7 8,
      litAst (.int 5) 10 11]) ⟨0, 12⟩) Ctx.initial =
        .ok (.val ⟨.int i, ⟨0, 12⟩⟩, Ctx.initial)) ∧
    (∃ i, evalAst 8 (.mk (.max [litAst (.int 3) 4 5, litAst (.int 7) 7 8,
      litAst (.int 5) 10 11]) ⟨0, 12⟩) Ctx.initial =
        .ok (.val ⟨.int i, ⟨0, 12⟩⟩, Ctx.initial)) ∧
    (∃ q, evalAst 8 (.mk (.min [litAst (.float (.finite (mkRat 5 2))) 4 7,
      litAst (.float (.finite (mkRat 7 2))) 9 12]) ⟨0, 13⟩) Ctx.initial =
        .ok (.val ⟨.float q, ⟨0, 13⟩⟩, Ctx.initial)) := by
  have hints : ∀ vr ∈ [(⟨.int 3, ⟨4, 5⟩⟩ : ValRange), ⟨.int 7, ⟨7, 8⟩⟩, ⟨.int 5, ⟨10, 11⟩⟩],
      ∃ i, vr.val = .int i ∧ fitsI128 i = true := by
    intro vr hvr
    simp only [List.mem_cons, List.not_mem_nil, or_false] at hvr
    rcases hvr with rfl | rfl | rfl
    · exact ⟨3, rfl, by decide⟩
    · exact ⟨7, rfl, by decide⟩
    · exact ⟨5, rfl, by decide⟩
  have hflts : ∀ vr ∈ [(⟨.float (.finite (mkRat 5 2)), ⟨4, 7⟩⟩ : ValRange),
      ⟨.float (.finite (mkRat 7 2)), ⟨9, 12⟩⟩],
      ∃ q, vr.val = .float q ∧ Val.convertToInt (.float q) = none := by
    intro vr hvr
    simp only [List.mem_cons, List.not_mem_nil, or_false] at hvr
    rcases hvr with rfl | rfl
    · exact ⟨.finite (mkRat 5 2), rfl, by decide⟩
    · exact ⟨.finite (mkRat 7 2), rfl, by decide⟩
  refine ⟨?_, ?_, ?_⟩
  · exact ((c3_min_max_element_type 6 [litAst (.int 3) 4 5, litAst (.int 7) 7 8,
      litAst (.int 5) 10 11] ⟨0, 12⟩ Ctx.initial Ctx.initial
      [⟨.int 3, ⟨4, 5⟩⟩, ⟨.int 7, ⟨7, 8⟩⟩, ⟨.int 5, ⟨10, 11⟩⟩]
      (by rfl) (by decide)).1 hints).1
  · exact ((c3_min_max_element_type 6 [litAst (.int 3) 4 5, litAst (.int 7) 7 8,
      litAst (.int 5) 10 11] ⟨0, 12⟩ Ctx.initial Ctx.initial
      [⟨.int 3, ⟨4, 5⟩⟩, ⟨.int 7, ⟨7, 8⟩⟩, ⟨.int 5, ⟨10, 11⟩⟩]
      (by rfl) (by decide)).1 hints).2
  · exact ((c3_min_max_element_type 6 [litAst (.float (.finite (mkRat 5 2))) 4 7,
      litAst (.float (.finite (mkRat 7 2))) 9 12] ⟨0, 13⟩ Ctx.initial Ctx.initial
      [⟨.float (.finite (mkRat 5 2)), ⟨4, 7⟩⟩, ⟨.float (.finite (mkRat 7 2)), ⟨9, 12⟩⟩]
      (by rfl) (by decide)).2 hflts).1

/-! ## Claim C9 -/

/-- A successful `eval_all` run evaluates the statements before the last
one and returns the last statement's result; it is `none` exactly when
the last statement evaluates to `Unit`. -/
theorem evalAll_last (f : Nat) :
    ∀ (asts : List Ast) (ctx : Ctx) (res : Option Val) (c2 : Ctx),
      evalAll f asts ctx = .ok (res, c2) →
      ∃ init lastA c1, asts = init ++ [lastA] ∧ evalTop f lastA c1 = .ok (res, c2) ∧
        (res = none ↔ ∃ r, evalAst f lastA c1 = .ok (.unit r, c2)) := by
  intro asts
  induction asts with
  | nil =>
    intro ctx res c2 h
    simp [evalAll] at h
  | cons a rest ih =>
    intro ctx res c2 h
    cases rest with
    | nil =>
      have h2 : evalTop f a ctx = .ok (res, c2) := by simpa [evalAll] using h
      refine ⟨[], a, ctx, by simp, h2, ?_⟩
      rw [evalTop] at h2
      cases h3 : evalAst f a ctx with
      | error e => rw [h3] at h2; cases h2
      | ok rc =>
        obtain ⟨ret, c⟩ := rc
        rw [h3] at h2
        cases ret with
        | val v =>
          dsimp only at h2
          have h6 : some v.val = res ∧ c = c2 := by
            injection h2 with h2'
            exact ⟨congrArg Prod.fst h2', congrArg Prod.snd h2'⟩
          obtain ⟨h4, h5⟩ := h6
          subst h5
          constructor
          · intro hn
            rw [← h4] at hn
            cases hn
          · rintro ⟨r, hr⟩
            simp at hr
        | unit rr =>
          dsimp only at h2
          have h6 : (none : Option Val) = res ∧ c = c2 := by
            injection h2 with h2'
            exact ⟨congrArg Prod.fst h2', congrArg Prod.snd h2'⟩
          obtain ⟨h4, h5⟩ := h6
          subst h5
          exact ⟨fun _ => ⟨rr, rfl⟩, fun _ => h4.symm⟩
    | cons b rest2 =>
      rw [evalAll] at h
      case x_2 => simp
      cases h1 : evalAst f a ctx with
      | error e => rw [h1] at h; cases h
      | ok rc =>
        obtain ⟨ret, c⟩ := rc
        rw [h1] at h
        dsimp only at h
        obtain ⟨init, lastA, c1, hsplit, htop, hiff⟩ := ih c res c2 h
        exact ⟨a :: init, lastA, c1, by simp [hsplit], htop, hiff⟩

/-- Claim C9: with a successful parse and no collected errors,
`parse_and_eval` returns the result of `eval_all`, and a successful
`eval_all` yields `Ok(None)` exactly when the program's last expression
evaluates to `Unit` (no value); otherwise it yields the last
expression's value. -/
theorem c9_parse_and_eval_unit
    (parsed : Except Error (List Ast)) (collected : List Error) (f : Nat) (ctx : Ctx)
    (asts : List Ast) (hp : parsed = .ok asts) (hc : collected = []) :
    parseAndEvalWith parsed collected f ctx = evalAll f asts ctx ∧
    (∀ res c2, evalAll f asts ctx = .ok (res, c2) →
      ∃ init lastA c1, asts = init ++ [lastA] ∧ evalTop f lastA c1 = .ok (res, c2) ∧
        (res = none ↔ ∃ r, evalAst f lastA c1 = .ok (.unit r, c2))) := by
  subst hp hc
  exact ⟨rfl, fun res c2 h => evalAll_last f asts ctx res c2 h⟩

/-- Concrete instance of `c9_parse_and_eval_unit`: the one-statement
program `println(5)` runs through `parse_and_eval` to `Ok(None)` (its
last expression is a `Unit` statement), with the printed output on the
sink. -/
theorem c9_parse_and_eval_unit_witness :
    parseAndEvalWith (.ok [.mk (.println [litAst (.int 5) 8 9]) ⟨0, 10⟩]) [] 8 Ctx.initial =
      .ok (none, ⟨[Scope.default], "5\n"⟩) ∧
    (∃ init lastA c1,
      [(.mk (.println [litAst (.int 5) 8 9]) ⟨0, 10⟩ : Ast)] = init ++ [lastA] ∧
      evalTop 8 lastA c1 = .ok (none, ⟨[Scope.default], "5\n"⟩) ∧
      ((none : Option Val) = none ↔
        ∃ r, evalAst 8 lastA c1 = .ok (.unit r, ⟨[Scope.default], "5\n"⟩))) := by
  have h := c9_parse_and_eval_unit
    (.ok [.mk (.println [litAst (.int 5) 8 9]) ⟨0, 10⟩]) [] 8 Ctx.initial
    [.mk (.println [litAst (.int 5) 8 9]) ⟨0, 10⟩] rfl rfl
  constructor
  · rw [h.1]
    rfl
  · exact h.2 none ⟨[Scope.default], "5\n"⟩ (by rfl)

/-- Concrete instance of `c1_eager_boolean_operators`: `true || true`
and `true && true` evaluate both operands and yield `Bool(true)`. -/
theorem c1_eager_boolean_operators_witness :
    evalAst 6 (.mk (.or (litAst (.bool true) 0 4) (litAst (.bool true) 8 12)) ⟨0, 12⟩)
      Ctx.initial = .ok (.val ⟨.bool true, ⟨0, 12⟩⟩, Ctx.initial) ∧
    evalAst 6 (.mk (.and (litAst (.bool true) 0 4) (litAst (.bool true) 8 12)) ⟨0, 12⟩)
      Ctx.initial = .ok (.val ⟨.bool true, ⟨0, 12⟩⟩, Ctx.initial) :=
  (c1_eager_boolean_operators 4 (litAst (.bool true) 0 4) (litAst (.bool true) 8 12)
    ⟨0, 12⟩ Ctx.initial Ctx.initial true (by rfl)).2 true Ctx.initial (by rfl)

/-! ## Claim C8: error-span lemmas for the pure combinators -/

/-- Errors of `checked_add` have nonempty in-bounds spans. -/
theorem checkedAdd_errWf (L : Nat) (va vb : ValRange) (e : Error)
    (hva : rangeOk L va.range = true) (hvb : rangeOk L vb.range = true)
    (h : checkedAdd va vb = .error (.err e)) : e ≠ .missingExpr ∧ rangesOk L e := by
  rcases h1 : va.val <;> rcases h2 : vb.val <;>
    simp_all [checkedAdd, ValRange.toF64R, Val.toF64, rangesOk, Error.ranges] <;>
      (try (subst h <;> simp_all [rangesOk, Error.ranges]))
  all_goals ((repeat' (split at h)) <;> (try cases h) <;> simp_all [rangesOk, Error.ranges])

/-- Errors of `checked_sub` have nonempty in-bounds spans. -/
theorem checkedSub_errWf (L : Nat) (va vb : ValRange) (e : Error)
    (hva : rangeOk L va.range = true) (hvb : rangeOk L vb.range = true)
    (h : checkedSub va vb = .error (.err e)) : e ≠ .missingExpr ∧ rangesOk L e := by
  rcases h1 : va.val <;> rcases h2 : vb.val <;>
    simp_all [checkedSub, ValRange.toF64R, Val.toF64, rangesOk, Error.ranges] <;>
      (try (subst h <;> simp_all [rangesOk, Error.ranges]))
  all_goals ((repeat' (split at h)) <;> (try cases h) <;> simp_all [rangesOk, Error.ranges])

/-- Errors of `checked_mul` have nonempty in-bounds spans. -/
theorem checkedMul_errWf (L : Nat) (va vb : ValRange) (e : Error)
    (hva : rangeOk L va.range = true) (hvb : rangeOk L vb.range = true)
    (h : checkedMul va vb = .error (.err e)) : e ≠ .missingExpr ∧ rangesOk L e := by
  rcases h1 : va.val <;> rcases h2 : vb.val <;>
    simp_all [checkedMul, ValRange.toF64R, Val.toF64, rangesOk, Error.ranges] <;>
      (try (subst h <;> simp_all [rangesOk, Error.ranges]))
  all_goals ((repeat' (split at h)) <;> (try cases h) <;> simp_all [rangesOk, Error.ranges])

/-- Errors of `checked_div` have nonempty in-bounds spans. -/
theorem checkedDiv_errWf (L : Nat) (va vb : ValRange) (e : Error)
    (hva : rangeOk L va.range = true) (hvb : rangeOk L vb.range = true)
    (h : checkedDiv va vb = .error (.err e)) : e ≠ .missingExpr ∧ rangesOk L e := by
  rcases h1 : va.val <;> rcases h2 : vb.val <;>
    simp_all [checkedDiv, ValRange.toF64R, Val.toF64, rangesOk, Error.ranges] <;>
      (try (subst h <;> simp_all [rangesOk, Error.ranges]))
  all_goals ((repeat' (split at h)) <;> (try cases h) <;> simp_all [rangesOk, Error.ranges])

/-- Errors of `int_div`'s value computation have nonempty in-bounds
spans. -/
theorem intDivVals_errWf (L : Nat) (va vb : ValRange) (e : Error)
    (hva : rangeOk L va.range = true) (hvb : rangeOk L vb.range = true)
    (h : intDivVals va vb = .error (.err e)) : e ≠ .missingExpr ∧ rangesOk L e := by
  rcases h1 : va.val <;> rcases h2 : vb.val <;>
    simp_all [intDivVals, rangesOk, Error.ranges] <;>
      (try (subst h <;> simp_all [rangesOk, Error.ranges]))
  all_goals ((repeat' (split at h)) <;> (try cases h) <;> simp_all [rangesOk, Error.ranges])

/-- Errors of `rem`'s value computation have nonempty in-bounds spans. -/
theorem remVals_errWf (L : Nat) (va vb : ValRange) (e : Error)
    (hva : rangeOk L va.range = true) (hvb : rangeOk L vb.range = true)
    (h : remVals va vb = .error (.err e)) : e ≠ .missingExpr ∧ rangesOk L e := by
  rcases h1 : va.val <;> rcases h2 : vb.val <;>
    simp_all [remVals, rangesOk, Error.ranges] <;>
      (try (subst h <;> simp_all [rangesOk, Error.ranges]))
  all_goals ((repeat' (split at h)) <;> (try cases h) <;> simp_all [rangesOk, Error.ranges])

/-- Errors of `pow`'s value computation have nonempty in-bounds spans. -/
theorem powVals_errWf (L : Nat) (va vb : ValRange) (e : Error)
    (hva : rangeOk L va.range = true) (hvb : rangeOk L vb.range = true)
    (h : powVals va vb = .error (.err e)) : e ≠ .missingExpr ∧ rangesOk L e := by
  rcases h1 : va.val <;> rcases h2 : vb.val <;>
    simp_all [powVals, ValRange.toF64R, Val.toF64, rangesOk, Error.ranges] <;>
      (try (subst h <;> simp_all [rangesOk, Error.ranges]))
  all_goals ((repeat' (split at h)) <;> (try cases h) <;> simp_all [rangesOk, Error.ranges])

/-- Errors of `neg`'s value computation have nonempty in-bounds spans. -/
theorem negVal_errWf (L : Nat) (v : ValRange) (e : Error)
    (hv : rangeOk L v.range = true)
    (h : negVal v = .error (.err e)) : e ≠ .missingExpr ∧ rangesOk L e := by
  rcases h1 : v.val <;>
    simp_all [negVal, ValRange.toF64R, Val.toF64, rangesOk, Error.ranges] <;>
      (try (subst h <;> simp_all [rangesOk, Error.ranges]))
  all_goals ((repeat' (split at h)) <;> (try cases h) <;> simp_all [rangesOk, Error.ranges])

/-- Errors of `bw_or`'s value computation have nonempty in-bounds
spans. -/
theorem bwOrVals_errWf (L : Nat) (va vb : ValRange) (e : Error)
    (hva : rangeOk L va.range = true) (hvb : rangeOk L vb.range = true)
    (h : bwOrVals va vb = .error (.err e)) : e ≠ .missingExpr ∧ rangesOk L e := by
  rcases h1 : va.val <;> rcases h2 : vb.val <;>
    simp_all [bwOrVals, rangesOk, Error.ranges] <;>
      (try (subst h <;> simp_all [rangesOk, Error.ranges]))
  all_goals ((repeat' (split at h)) <;> (try cases h) <;> simp_all [rangesOk, Error.ranges])

/-- Errors of `bw_and`'s value computation have nonempty in-bounds
spans. -/
theorem bwAndVals_errWf (L : Nat) (va vb : ValRange) (e : Error)
    (hva : rangeOk L va.range = true) (hvb : rangeOk L vb.range = true)
    (h : bwAndVals va vb = .error (.err e)) : e ≠ .missingExpr ∧ rangesOk L e := by
  rcases h1 : va.val <;> rcases h2 : vb.val <;>
    simp_all [bwAndVals, rangesOk, Error.ranges] <;>
      (try (subst h <;> simp_all [rangesOk, Error.ranges]))
  all_goals ((repeat' (split at h)) <;> (try cases h) <;> simp_all [rangesOk, Error.ranges])

/-- Errors of `factorial`'s value computation have nonempty in-bounds
spans, and its success result carries the given span. -/
theorem factorialVal_wf (L : Nat) (v : ValRange) (rg : CRange)
    (hv : rangeOk L v.range = true) (hrg : rangeOk L rg = true) :
    (∀ e, factorialVal v rg = .error (.err e) → e ≠ .missingExpr ∧ rangesOk L e) ∧
    (∀ ret, factorialVal v rg = .ok ret → ret.range = rg) := by
  constructor
  · intro e h
    rcases h1 : v.val <;>
      simp_all [factorialVal, rangesOk, Error.ranges] <;>
        (try (subst h <;> simp_all [rangesOk, Error.ranges])) <;>
      (try (split at h <;> (try cases h) <;> simp_all [rangesOk, Error.ranges])) <;>
        (try (subst h <;> simp_all [rangesOk, Error.ranges])) <;>
      (try (split at h <;> (try cases h) <;> simp_all [rangesOk, Error.ranges]))
  · intro ret h
    rcases h1 : v.val <;>
      simp_all [factorialVal] <;>
        (try (split at h <;> simp_all [Return.range])) <;>
        (try (split at h <;> simp_all [Return.range]))
    cases h
    rfl

set_option maxHeartbeats 2000000 in
/-- Errors of `clamp`'s value computation have nonempty in-bounds
spans. -/
theorem clampVals_errWf (L : Nat) (vn vmin vmax : ValRange) (e : Error)
    (hn : rangeOk L vn.range = true) (hmin : rangeOk L vmin.range = true)
    (hmax : rangeOk L vmax.range = true)
    (h : clampVals vn vmin vmax = .error (.err e)) : e ≠ .missingExpr ∧ rangesOk L e := by
  rcases h1 : vn.val <;> rcases h2 : vmin.val <;> rcases h3 : vmax.val <;>
    simp_all [clampVals, ValRange.toF64R, Val.toF64, rangesOk, Error.ranges] <;>
      (try (subst h <;> simp_all [rangesOk, Error.ranges]))
  all_goals ((repeat' (split at h)) <;> (try cases h) <;> simp_all [rangesOk, Error.ranges])

/-- Errors of `Return::into_val` have the `Return`'s span. -/
theorem intoVal_errWf (L : Nat) (ret : Return) (e : Error)
    (hr : rangeOk L ret.range = true)
    (h : ret.intoVal = .error (.err e)) : e ≠ .missingExpr ∧ rangesOk L e := by
  cases ret <;> simp_all [Return.intoVal, Return.range, rangesOk, Error.ranges] <;>
    (try (subst h <;> simp_all [rangesOk, Error.ranges]))

/-- Errors of the `ValRange` conversions carry the value's span. -/
theorem valConv_errWf (L : Nat) (v : ValRange) (e : Error)
    (hv : rangeOk L v.range = true) :
    (v.toIntR = .error (.err e) → e ≠ .missingExpr ∧ rangesOk L e) ∧
    (v.toF64R = .error (.err e) → e ≠ .missingExpr ∧ rangesOk L e) ∧
    (v.toBoolR = .error (.err e) → e ≠ .missingExpr ∧ rangesOk L e) ∧
    (v.toRangeR = .error (.err e) → e ≠ .missingExpr ∧ rangesOk L e) := by
  refine ⟨?_, ?_, ?_, ?_⟩ <;> intro h <;>
    [cases h1 : v.val.toInt; cases h1 : v.val.toF64; cases h1 : v.val.toBool;
     cases h1 : v.val.toRange] <;>
    simp_all [ValRange.toIntR, ValRange.toF64R, ValRange.toBoolR, ValRange.toRangeR,
      rangesOk, Error.ranges] <;>
    (try (subst h <;> simp_all [rangesOk, Error.ranges]))

/-- Errors of variable resolution carry the identifier's span. -/
theorem resolveVar_errWf (L : Nat) (ctx : Ctx) (id : IdentRange) (e : Error)
    (hid : rangeOk L id.range = true)
    (h : ctx.resolveVar id = .error (.err e)) : e ≠ .missingExpr ∧ rangesOk L e := by
  rw [Ctx.resolveVar] at h
  rcases h1 : ctx.scopes.findSome? (fun s => s.lookup id.ident) with _ | vr
  · rw [h1] at h
    dsimp only at h
    cases h
    simp_all [rangesOk, Error.ranges]
  · rw [h1] at h
    dsimp only at h
    rcases h2 : vr.value with _ | v <;> rw [h2] at h <;> dsimp only at h <;>
      (try cases h) <;> simp_all [rangesOk, Error.ranges]

/-- Normalization preserves the span of a result. -/
theorem normalizeReturn_range (ret : Return) :
    (normalizeReturn ret).range = ret.range := by
  cases ret <;> rfl

/-- A well-formed AST's own span is in bounds. -/
theorem Ast.wf_range (L : Nat) (a : Ast) (h : Ast.wf L a = true) :
    rangeOk L a.range = true := by
  obtain ⟨t, r⟩ := a
  simp only [Ast.wf, Bool.and_eq_true] at h
  exact h.1

/-- A resolved variable carries the identifier's span. -/
theorem resolveVar_ok_range (ctx : Ctx) (id : IdentRange) (v : ValRange)
    (h : ctx.resolveVar id = .ok v) : v.range = id.range := by
  rw [Ctx.resolveVar] at h
  rcases h1 : ctx.scopes.findSome? (fun s => s.lookup id.ident) with _ | vr
  · rw [h1] at h
    cases h
  · rw [h1] at h
    dsimp only at h
    rcases h2 : vr.value with _ | w <;> rw [h2] at h <;> dsimp only at h
    · cases h
    · cases h
      rfl

/-- `Return::into_val` preserves the span. -/
theorem intoVal_ok_range (ret : Return) (v : ValRange)
    (h : ret.intoVal = .ok v) : v.range = ret.range := by
  cases ret with
  | val w => cases h; rfl
  | unit r => cases h

/-! ## Claim C8: lemmas for the `ncr`/`gcd` loops, function resolution
and the context invariant -/

/-- The `ncr` product loop reports no `Error`: it either succeeds or
panics on `i128` overflow. -/
theorem ncrLoop_no_err (e : Error) :
    ∀ (l : List Int) (acc n r : Int), ncrLoop acc n r l ≠ .error (.err e) := by
  intro l
  induction l with
  | nil => intro acc n r h; simp [ncrLoop] at h
  | cons i rest ih =>
    intro acc n r h
    simp only [ncrLoop] at h
    split at h
    · exact ih _ n r h
    · cases h

/-- Errors of `ncr`'s value computation have nonempty in-bounds spans. -/
theorem ncrVals_errWf (L : Nat) (va vb : ValRange) (e : Error)
    (hva : rangeOk L va.range = true) (hvb : rangeOk L vb.range = true)
    (h : ncrVals va vb = .error (.err e)) : e ≠ .missingExpr ∧ rangesOk L e := by
  rcases h1 : va.val <;> rcases h2 : vb.val <;>
    simp_all [ncrVals, rangesOk, Error.ranges] <;>
      (try (subst h <;> simp_all [rangesOk, Error.ranges]))
  all_goals (
    split at h
    · cases h
      simp_all [rangesOk, Error.ranges]
    · split at h
      · cases h
        simp_all [rangesOk, Error.ranges]
      · split at h
        · cases h
        · rename_i e2 heq
          cases h
          exact absurd heq (ncrLoop_no_err e _ _ _ _))

/-- The `gcd` loop reports no `Error`: it either succeeds, panics on
`i128::MIN % -1`, or runs out of fuel. -/
theorem gcdLoop_no_err (e : Error) :
    ∀ (n : Nat) (a b : Int), gcdLoop n a b ≠ .error (.err e) := by
  intro n
  induction n with
  | zero => intro a b h; simp [gcdLoop] at h
  | succ n ih =>
    intro a b h
    rw [gcdLoop] at h
    split at h
    · cases h
    · split at h
      · cases h
      · exact ih _ _ h

/-- Errors of `gcd`'s value computation have nonempty in-bounds spans. -/
theorem gcdVals_errWf (L : Nat) (va vb : ValRange) (e : Error)
    (hva : rangeOk L va.range = true) (hvb : rangeOk L vb.range = true)
    (h : gcdVals va vb = .error (.err e)) : e ≠ .missingExpr ∧ rangesOk L e := by
  rcases h1 : va.val <;> rcases h2 : vb.val <;>
    simp_all [gcdVals, rangesOk, Error.ranges] <;>
      (try (subst h <;> simp_all [rangesOk, Error.ranges]))
  all_goals (
    split at h
    · cases h
    · rename_i e2 heq
      cases h
      exact absurd heq (gcdLoop_no_err e _ _ _))

/-- The truncated remainder strictly shrinks in absolute value: the
measure that makes `gcdLoop`'s fuel `b.natAbs + 1` sufficient. -/
theorem natAbs_tmod_lt (a b : Int) (hb : b ≠ 0) : (a.tmod b).natAbs < b.natAbs := by
  rcases lt_or_gt_of_ne hb with hneg | hpos
  · have hc : 0 < -b := by omega
    have hbd := tmod_bounds_pos a hc
    rw [Int.tmod_neg] at hbd
    omega
  · have hbd := tmod_bounds_pos a hpos
    omega

/-- Fuel `b.natAbs + 1` is enough for the `gcd` loop: with more fuel
than `|b|` the loop never reports fuel exhaustion, so `gcdVals` computes
the source's full `while` loop. -/
theorem gcdLoop_no_fuel :
    ∀ (n : Nat) (a b : Int), b.natAbs < n → gcdLoop n a b ≠ .error .fuel := by
  intro n
  induction n with
  | zero => intro a b hlt; omega
  | succ n ih =>
    intro a b hlt h
    rw [gcdLoop] at h
    split at h
    · cases h
    · rename_i hb
      split at h
      · cases h
      · rename_i m hm
        have hmod : m = a.tmod b := by
          rw [i128Rem] at hm
          split at hm
          · cases hm
          · split at hm
            · cases hm
            · cases hm
              rfl
        have := natAbs_tmod_lt a b hb
        exact ih b m (by omega) h

/-- Errors of function resolution carry the identifier's span. -/
theorem resolveFun_errWf (L : Nat) (ctx : Ctx) (id : IdentRange) (e : Error)
    (hid : rangeOk L id.range = true)
    (h : ctx.resolveFun id = .error (.err e)) : e ≠ .missingExpr ∧ rangesOk L e := by
  rw [Ctx.resolveFun] at h
  rcases h1 : ctx.scopes.findSome? (fun s => s.lookupFun id.ident) with _ | fn <;>
    rw [h1] at h <;> dsimp only at h
  · cases h
    simp_all [rangesOk, Error.ranges]
  · cases h

/-- A function resolved from a well-ranged context has a well-ranged
body. -/
theorem resolveFun_block_wf (L : Nat) (ctx : Ctx) (id : IdentRange) (fn : Fun)
    (hctx : ctxWf L ctx = true)
    (h : ctx.resolveFun id = .ok fn) : Block.wf L fn.block = true := by
  rw [Ctx.resolveFun] at h
  rcases h1 : ctx.scopes.findSome? (fun s => s.lookupFun id.ident) with _ | fn2
  · rw [h1] at h
    cases h
  · rw [h1] at h
    dsimp only at h
    cases h
    obtain ⟨sc, hsc, hlk⟩ := List.exists_of_findSome?_eq_some h1
    rw [Scope.lookupFun] at hlk
    rcases h2 : sc.funs.find? (fun p => p.1 = id.ident) with _ | pr
    · rw [h2] at hlk
      cases hlk
    · rw [h2] at hlk
      simp only [Option.map_some', Option.some.injEq] at hlk
      have hmem := List.mem_of_find?_eq_some h2
      simp only [ctxWf, List.all_eq_true] at hctx
      have hwf := hctx sc hsc
      simp only [Scope.funsWf, List.all_eq_true] at hwf
      have hb := hwf pr hmem
      rw [← hlk]
      exact hb

/-- Binding the call arguments never touches the scope's function table. -/
theorem evalFunArgs_funs :
    ∀ (ps : List (IdentRange × Ast)) (f : Nat) (s : Scope) (ctx : Ctx)
      (s2 : Scope) (c : Ctx),
      evalFunArgs f ps s ctx = .ok (s2, c) → s2.funs = s.funs := by
  intro ps
  induction ps with
  | nil =>
    intro f s ctx s2 c h
    cases f with
    | zero => rw [evalFunArgs] at h; cases h
    | succ f => rw [evalFunArgs] at h; cases h; rfl
  | cons pa rest ih =>
    intro f s ctx s2 c h
    cases f with
    | zero => rw [evalFunArgs] at h; cases h
    | succ f =>
      obtain ⟨p, a⟩ := pa
      rw [evalFunArgs] at h
      cases h1 : evalToVal f a ctx with
      | error e => rw [h1] at h; dsimp only at h; cases h
      | ok vc =>
        obtain ⟨v, c1⟩ := vc
        rw [h1] at h
        dsimp only at h
        exact ih f (s.defVar p (some v.val) false) c1 s2 c h

/-- Each member of a well-ranged statement list is well-ranged. -/
theorem astsWf_mem (L : Nat) :
    ∀ (args : List Ast), astsWf L args = true → ∀ a ∈ args, Ast.wf L a = true := by
  intro args
  induction args with
  | nil => intro _ a ha; cases ha
  | cons b rest ih =>
    intro h a ha
    simp only [astsWf, Bool.and_eq_true] at h
    rcases List.mem_cons.mp ha with rfl | ha2
    · exact h.1
    · exact ih h.2 a ha2

/-- Defining a variable never touches the function tables. -/
theorem ctxWf_defVar (L : Nat) (ctx : Ctx) (id : IdentRange) (v : Option Val)
    (m : Bool) : ctxWf L (ctx.defVar id v m) = ctxWf L ctx := by
  rw [Ctx.defVar]
  rcases h : ctx.scopes with _ | ⟨s, rest⟩ <;>
    simp [ctxWf, h, Scope.funsWf, Scope.defVar, Scope.default]

/-- In-place assignment never touches the function tables. -/
theorem setVarInScopes_funsWf (L : Nat) (name : String) (v : Option Val) :
    ∀ (scopes scopes2 : List Scope), setVarInScopes name v scopes = some scopes2 →
      scopes2.all (fun s => s.funsWf L) = scopes.all (fun s => s.funsWf L) := by
  intro scopes
  induction scopes with
  | nil => intro scopes2 h; rw [setVarInScopes] at h; cases h
  | cons s rest ih =>
    intro scopes2 h
    rw [setVarInScopes] at h
    split at h
    · cases h
      simp [List.all_cons, Scope.funsWf]
    · cases h2 : setVarInScopes name v rest with
      | none => rw [h2] at h; cases h
      | some r2 =>
        rw [h2] at h
        simp only [Option.map_some'] at h
        cases h
        simp [List.all_cons, ih r2 h2]

/-- Assignment (`set_var`) preserves the context invariant. -/
theorem ctxWf_setVar (L : Nat) (ctx : Ctx) (id : IdentRange) (v : Option Val) :
    ctxWf L (ctx.setVar id v) = ctxWf L ctx := by
  rw [Ctx.setVar]
  cases h : setVarInScopes id.ident v ctx.scopes with
  | some scopes2 =>
    dsimp only
    simp only [ctxWf]
    exact setVarInScopes_funsWf L id.ident v ctx.scopes scopes2 h
  | none =>
    dsimp only
    rcases h2 : ctx.scopes with _ | ⟨s, rest⟩ <;>
      simp [ctxWf, Scope.funsWf, Scope.defVar, Scope.default, h2]

/-- Pushing a scope: the invariant is the new scope's table plus the
old context's. -/
theorem ctxWf_pushScope (L : Nat) (ctx : Ctx) (s : Scope) :
    ctxWf L (ctx.pushScope s) = (s.funsWf L && ctxWf L ctx) := by
  simp [ctxWf, Ctx.pushScope]

/-- Popping a scope preserves the context invariant. -/
theorem ctxWf_popScope (L : Nat) (ctx : Ctx) (h : ctxWf L ctx = true) :
    ctxWf L ctx.popScope = true := by
  rw [Ctx.popScope]
  rcases h2 : ctx.scopes with _ | ⟨s, rest⟩
  · simpa [ctxWf, h2] using h
  · simp only [ctxWf, h2, List.all_cons, Bool.and_eq_true] at h
    simpa [ctxWf] using h.2

/-- Appending output preserves the context invariant. -/
theorem ctxWf_output (L : Nat) (ctx : Ctx) (o : String) :
    ctxWf L { ctx with output := o } = ctxWf L ctx := rfl

/-- Defining a function with a well-ranged body preserves the context
invariant. -/
theorem ctxWf_defFun (L : Nat) (ctx : Ctx) (id : IdentRange)
    (params : List IdentRange) (blk : Block) (hctx : ctxWf L ctx = true)
    (hblk : Block.wf L blk = true) :
    ctxWf L (ctx.defFun id params blk) = true := by
  rw [Ctx.defFun]
  rcases h2 : ctx.scopes with _ | ⟨s, rest⟩
  · simp [ctxWf, Scope.funsWf, Scope.defFun, Scope.default, hblk]
  · simp only [ctxWf, h2, List.all_cons, Bool.and_eq_true] at hctx
    simp only [ctxWf, List.all_cons, Bool.and_eq_true]
    refine ⟨?_, hctx.2⟩
    simp only [Scope.funsWf, Scope.defFun, List.all_cons, Bool.and_eq_true]
    refine ⟨hblk, ?_⟩
    have hs := hctx.1
    simp only [Scope.funsWf, List.all_eq_true] at hs ⊢
    intro p hp
    exact hs p (List.mem_of_mem_filter hp)

/-- The two well-rangedness components of `Block.wf`. -/
theorem Block.wf_parts (L : Nat) (b : Block) (h : Block.wf L b = true) :
    astsWf L b.asts = true ∧ rangeOk L b.range = true := by
  obtain ⟨a, r⟩ := b
  simp only [Block.wf, Bool.and_eq_true] at h
  exact ⟨h.1, h.2⟩

set_option maxHeartbeats 2000000 in
/-- The error-span and context invariant holds for the whole mutual
evaluator, at every fuel, by induction on the fuel (every recursive call
of the evaluator decreases it by exactly one). -/
theorem evalWf_all (L : Nat) : ∀ f : Nat, EvalWf L f := by
  intro f
  induction f with
  | zero =>
    refine { ast := ?_, core := ?_, bin := ?_, cmp := ?_, toVal := ?_, toInt := ?_,
             toF64 := ?_, toBool := ?_, toRange := ?_, toVals := ?_, listE := ?_,
             stmtsLast := ?_, block := ?_, ifE := ?_, whileE := ?_, forE := ?_,
             minA := ?_, maxA := ?_, compound := ?_, funArgs := ?_ }
    · intro a ctx _ _
      exact ⟨fun e h => by simp [evalAst] at h, fun ret c h => by simp [evalAst] at h⟩
    · intro a ctx _ _
      exact ⟨fun e h => by simp [evalAstCore] at h,
        fun ret c h => by simp [evalAstCore] at h⟩
    · intro a b g r ctx _ _ _ _ _
      exact ⟨fun e h => by simp [evalBin] at h, fun ret c h => by simp [evalBin] at h⟩
    · intro a b g r ctx _ _ _ _
      exact ⟨fun e h => by simp [evalCmp] at h, fun ret c h => by simp [evalCmp] at h⟩
    · intro a ctx _ _
      exact ⟨fun e h => by simp [evalToVal] at h, fun v c h => by simp [evalToVal] at h⟩
    · intro a ctx _ _
      exact ⟨fun e h => by simp [evalToInt] at h, fun i c h => by simp [evalToInt] at h⟩
    · intro a ctx _ _
      exact ⟨fun e h => by simp [evalToF64] at h, fun fv c h => by simp [evalToF64] at h⟩
    · intro a ctx _ _
      exact ⟨fun e h => by simp [evalToBool] at h, fun b c h => by simp [evalToBool] at h⟩
    · intro a ctx _ _
      exact ⟨fun e h => by simp [evalToRange] at h,
        fun rg c h => by simp [evalToRange] at h⟩
    · intro args ctx _ _
      exact ⟨fun e h => by simp [evalToVals] at h, fun vs c h => by simp [evalToVals] at h⟩
    · intro args ctx _ _
      exact ⟨fun e h => by simp [evalList] at h, fun c h => by simp [evalList] at h⟩
    · intro args r ctx _ _ _
      exact ⟨fun e h => by simp [evalStmtsLast] at h,
        fun ret c h => by simp [evalStmtsLast] at h⟩
    · intro args r ctx _ _ _
      exact ⟨fun e h => by simp [evalBlock] at h, fun ret c h => by simp [evalBlock] at h⟩
    · intro cases2 elseB r ctx _ _ _ _
      exact ⟨fun e h => by simp [evalIf] at h, fun ret c h => by simp [evalIf] at h⟩
    · intro c r ctx _ _ _
      exact ⟨fun e h => by simp [evalWhile] at h, fun c2 h => by simp [evalWhile] at h⟩
    · intro id iters blk ctx _ _
      exact ⟨fun e h => by simp [evalFor] at h, fun c2 h => by simp [evalFor] at h⟩
    · intro args acc ctx _ _
      exact ⟨fun e h => by simp [evalMinArgs] at h,
        fun m c h => by simp [evalMinArgs] at h⟩
    · intro args acc ctx _ _
      exact ⟨fun e h => by simp [evalMaxArgs] at h,
        fun m c h => by simp [evalMaxArgs] at h⟩
    · intro id b g r ctx _ _ _ _ _
      exact ⟨fun e h => by simp [evalCompoundAssign] at h,
        fun ret c h => by simp [evalCompoundAssign] at h⟩
    · intro ps s ctx _ _
      exact ⟨fun e h => by simp [evalFunArgs] at h,
        fun s2 c h => by simp [evalFunArgs] at h⟩
  | succ f ih =>
    refine { ast := ?_, core := ?_, bin := ?_, cmp := ?_, toVal := ?_, toInt := ?_,
             toF64 := ?_, toBool := ?_, toRange := ?_, toVals := ?_, listE := ?_,
             stmtsLast := ?_, block := ?_, ifE := ?_, whileE := ?_, forE := ?_,
             minA := ?_, maxA := ?_, compound := ?_, funArgs := ?_ }
    -- ast
    · intro a ctx hwf hcx
      have hc := ih.core a ctx hwf hcx
      constructor
      · intro e h
        rw [evalAst] at h
        cases h2 : evalAstCore f a ctx with
        | error e2 =>
          rw [h2] at h
          dsimp only at h
          cases h
          exact hc.1 e h2
        | ok rc =>
          obtain ⟨r0, c0⟩ := rc
          rw [h2] at h
          dsimp only at h
          cases h
      · intro ret c h
        rw [evalAst] at h
        cases h2 : evalAstCore f a ctx with
        | error e2 => rw [h2] at h; dsimp only at h; cases h
        | ok rc =>
          obtain ⟨r0, c0⟩ := rc
          rw [h2] at h
          dsimp only at h
          cases h
          have hres := hc.2 r0 _ h2
          refine ⟨?_, hres.2⟩
          rw [normalizeReturn_range]
          exact hres.1
    -- core
    · intro a ctx hwf hcx
      obtain ⟨t, r⟩ := a
      simp only [Ast.wf, Bool.and_eq_true] at hwf
      obtain ⟨hr, ht⟩ := hwf
      cases t with
      | empty =>
        constructor
        · intro e h
          simp only [evalAstCore] at h
          cases h
        · intro ret c h
          simp only [evalAstCore] at h
          cases h
          exact ⟨hr, hcx⟩
      | error =>
        constructor
        · intro e h
          simp only [evalAstCore] at h
          cases h
          exact ⟨by simp, by simp [rangesOk, Error.ranges, hr]⟩
        · intro ret c h
          simp only [evalAstCore] at h
          cases h
      | expr ex =>
        constructor
        · intro e h
          simp only [evalAstCore] at h
          cases hty : ex.typ with
          | val v => rw [hty] at h; dsimp only at h; cases h
          | ident id =>
            rw [hty] at h; dsimp only at h
            cases h1 : Ctx.resolveVar ctx ⟨id, ex.range⟩ with
            | ok v => rw [h1] at h; dsimp only at h; cases h
            | error e1 =>
              rw [h1] at h; dsimp only at h; cases h
              exact resolveVar_errWf L ctx ⟨id, ex.range⟩ e ht h1
        · intro ret c h
          simp only [evalAstCore] at h
          cases hty : ex.typ with
          | val v =>
            rw [hty] at h; dsimp only at h; cases h
            exact ⟨hr, hcx⟩
          | ident id =>
            rw [hty] at h; dsimp only at h
            cases h1 : Ctx.resolveVar ctx ⟨id, ex.range⟩ with
            | error e1 => rw [h1] at h; dsimp only at h; cases h
            | ok v =>
              rw [h1] at h; dsimp only at h; cases h
              refine ⟨?_, hcx⟩
              show rangeOk L v.range = true
              rw [resolveVar_ok_range ctx ⟨id, ex.range⟩ v h1]
              exact ht
      | block asts =>
        simp only [evalAstCore]
        exact ih.block asts r ctx ht hr hcx
      | ifExpr cs elseB =>
        cases elseB with
        | none =>
          simp only [AstT.wf, Bool.and_true] at ht
          simp only [evalAstCore]
          refine ih.ifE cs none r ctx ht ?_ hr hcx
          intro b hb
          cases hb
        | some b2 =>
          simp only [AstT.wf, Bool.and_eq_true] at ht
          simp only [evalAstCore]
          refine ih.ifE cs (some b2) r ctx ht.1 ?_ hr hcx
          intro b hb
          cases hb
          exact ht.2
      | whileLoop cnd =>
        constructor
        · intro e h
          simp only [evalAstCore] at h
          cases h1 : evalWhile f cnd r ctx with
          | ok c1 => rw [h1] at h; dsimp only at h; cases h
          | error e1 =>
            rw [h1] at h; dsimp only at h; cases h
            exact (ih.whileE cnd r ctx ht hr hcx).1 e h1
        · intro ret c0 h
          simp only [evalAstCore] at h
          cases h1 : evalWhile f cnd r ctx with
          | error e1 => rw [h1] at h; dsimp only at h; cases h
          | ok c1 =>
            rw [h1] at h; dsimp only at h; cases h
            exact ⟨hr, (ih.whileE cnd r ctx ht hr hcx).2 _ h1⟩
      | forLoop id iter blk =>
        simp only [AstT.wf, Bool.and_eq_true] at ht
        obtain ⟨⟨hid, hiter⟩, hblk⟩ := ht
        constructor
        · intro e h
          simp only [evalAstCore] at h
          cases h1 : evalToRange f iter ctx with
          | error e1 =>
            rw [h1] at h; dsimp only at h; cases h
            exact (ih.toRange iter ctx hiter hcx).1 e h1
          | ok rc =>
            obtain ⟨rg, c1⟩ := rc
            rw [h1] at h; dsimp only at h
            have hc1 := (ih.toRange iter ctx hiter hcx).2 rg c1 h1
            cases h2 : evalFor f id rg.iterList blk c1 with
            | ok c2 => rw [h2] at h; dsimp only at h; cases h
            | error e2 =>
              rw [h2] at h; dsimp only at h; cases h
              exact (ih.forE id rg.iterList blk c1 hblk hc1).1 e h2
        · intro ret c0 h
          simp only [evalAstCore] at h
          cases h1 : evalToRange f iter ctx with
          | error e1 => rw [h1] at h; dsimp only at h; cases h
          | ok rc =>
            obtain ⟨rg, c1⟩ := rc
            rw [h1] at h; dsimp only at h
            have hc1 := (ih.toRange iter ctx hiter hcx).2 rg c1 h1
            cases h2 : evalFor f id rg.iterList blk c1 with
            | error e2 => rw [h2] at h; dsimp only at h; cases h
            | ok c2 =>
              rw [h2] at h; dsimp only at h; cases h
              exact ⟨hr, (ih.forE id rg.iterList blk c1 hblk hc1).2 _ h2⟩
      | funDef id params blk =>
        simp only [AstT.wf, Bool.and_eq_true] at ht
        obtain ⟨⟨hid, hparams⟩, hblk⟩ := ht
        constructor
        · intro e h
          simp only [evalAstCore] at h
          cases h
        · intro ret c0 h
          simp only [evalAstCore] at h
          cases h
          exact ⟨hr, ctxWf_defFun L ctx id params blk hcx hblk⟩
      | funCall id args =>
        simp only [AstT.wf, Bool.and_eq_true] at ht
        constructor
        · intro e h
          simp only [evalAstCore] at h
          cases h1 : Ctx.resolveFun ctx id with
          | error e1 =>
            rw [h1] at h; dsimp only at h; cases h
            exact resolveFun_errWf L ctx id e ht.1 h1
          | ok fn =>
            rw [h1] at h; dsimp only at h
            split at h
            · split at h
              · cases h
              · cases h
                refine ⟨by simp, ?_, ?_⟩
                · simp [Error.ranges]
                · intro rr hrr
                  simp only [Error.ranges, List.mem_singleton] at hrr
                  subst hrr
                  simp only [rangeOk, Bool.and_eq_true, decide_eq_true_eq] at hr ⊢
                  omega
            · split at h
              · rename_i hgt
                cases h
                refine ⟨by simp, ?_, ?_⟩
                · simp only [Error.ranges]
                  intro hcontra
                  rw [List.map_eq_nil, List.drop_eq_nil_iff_le] at hcontra
                  omega
                · intro rr hrr
                  simp only [Error.ranges, List.mem_map] at hrr
                  obtain ⟨a2, ha2, rfl⟩ := hrr
                  exact Ast.wf_range L a2
                    (astsWf_mem L args ht.2 a2 (List.mem_of_mem_drop ha2))
              · cases h2 : evalFunArgs f (fn.params.zip args) Scope.default ctx with
                | error e2 =>
                  rw [h2] at h; dsimp only at h; cases h
                  exact (ih.funArgs (fn.params.zip args) Scope.default ctx
                    (fun pa hpa => astsWf_mem L args ht.2 pa.2 (List.of_mem_zip hpa).2)
                    hcx).1 e h2
                | ok sc =>
                  obtain ⟨s2, c1⟩ := sc
                  rw [h2] at h; dsimp only at h
                  have hcx1 : ctxWf L (c1.pushScope s2) = true := by
                    rw [ctxWf_pushScope]
                    have hfuns := evalFunArgs_funs (fn.params.zip args) f
                      Scope.default ctx s2 c1 h2
                    have h3 : s2.funsWf L = true := by
                      simp [Scope.funsWf, hfuns, Scope.default]
                    rw [h3, Bool.true_and]
                    exact (ih.funArgs (fn.params.zip args) Scope.default ctx
                      (fun pa hpa => astsWf_mem L args ht.2 pa.2 (List.of_mem_zip hpa).2)
                      hcx).2 s2 c1 h2
                  have hparts := Block.wf_parts L fn.block
                    (resolveFun_block_wf L ctx id fn hcx h1)
                  cases h3 : evalStmtsLast f fn.block.asts r (c1.pushScope s2) with
                  | error e3 =>
                    rw [h3] at h; dsimp only at h; cases h
                    exact (ih.stmtsLast fn.block.asts r _ hparts.1 hr hcx1).1 e h3
                  | ok rc =>
                    obtain ⟨ret2, c2⟩ := rc
                    rw [h3] at h; dsimp only at h; cases h
        · intro ret c0 h
          simp only [evalAstCore] at h
          cases h1 : Ctx.resolveFun ctx id with
          | error e1 => rw [h1] at h; dsimp only at h; cases h
          | ok fn =>
            rw [h1] at h; dsimp only at h
            split at h
            · split at h
              · cases h
              · cases h
            · split at h
              · cases h
              · cases h2 : evalFunArgs f (fn.params.zip args) Scope.default ctx with
                | error e2 => rw [h2] at h; dsimp only at h; cases h
                | ok sc =>
                  obtain ⟨s2, c1⟩ := sc
                  rw [h2] at h; dsimp only at h
                  have hcx1 : ctxWf L (c1.pushScope s2) = true := by
                    rw [ctxWf_pushScope]
                    have hfuns := evalFunArgs_funs (fn.params.zip args) f
                      Scope.default ctx s2 c1 h2
                    have h3 : s2.funsWf L = true := by
                      simp [Scope.funsWf, hfuns, Scope.default]
                    rw [h3, Bool.true_and]
                    exact (ih.funArgs (fn.params.zip args) Scope.default ctx
                      (fun pa hpa => astsWf_mem L args ht.2 pa.2 (List.of_mem_zip hpa).2)
                      hcx).2 s2 c1 h2
                  have hparts := Block.wf_parts L fn.block
                    (resolveFun_block_wf L ctx id fn hcx h1)
                  cases h3 : evalStmtsLast f fn.block.asts r (c1.pushScope s2) with
                  | error e3 => rw [h3] at h; dsimp only at h; cases h
                  | ok rc =>
                    obtain ⟨ret2, c2⟩ := rc
                    rw [h3] at h; dsimp only at h; cases h
                    have hres := (ih.stmtsLast fn.block.asts r _ hparts.1 hr hcx1).2
                      _ _ h3
                    exact ⟨hres.1, ctxWf_popScope L _ hres.2⟩
      | varDef id b m =>
        simp only [AstT.wf, Bool.and_eq_true] at ht
        constructor
        · intro e h
          simp only [evalAstCore] at h
          cases h1 : evalToVal f b ctx with
          | error e1 =>
            rw [h1] at h; dsimp only at h; cases h
            exact (ih.toVal b ctx ht.2 hcx).1 e h1
          | ok vc =>
            obtain ⟨v, c1⟩ := vc
            rw [h1] at h; dsimp only at h; cases h
        · intro ret c0 h
          simp only [evalAstCore] at h
          cases h1 : evalToVal f b ctx with
          | error e1 => rw [h1] at h; dsimp only at h; cases h
          | ok vc =>
            obtain ⟨v, c1⟩ := vc
            rw [h1] at h; dsimp only at h; cases h
            refine ⟨hr, ?_⟩
            rw [ctxWf_defVar]
            exact ((ih.toVal b ctx ht.2 hcx).2 v _ h1).2
      | assign id b =>
        simp only [AstT.wf, Bool.and_eq_true] at ht
        constructor
        · intro e h
          simp only [evalAstCore] at h
          cases h1 : evalToVal f b ctx with
          | error e1 =>
            rw [h1] at h; dsimp only at h; cases h
            exact (ih.toVal b ctx ht.2 hcx).1 e h1
          | ok vc =>
            obtain ⟨v, c1⟩ := vc
            rw [h1] at h; dsimp only at h; cases h
        · intro ret c0 h
          simp only [evalAstCore] at h
          cases h1 : evalToVal f b ctx with
          | error e1 => rw [h1] at h; dsimp only at h; cases h
          | ok vc =>
            obtain ⟨v, c1⟩ := vc
            rw [h1] at h; dsimp only at h; cases h
            refine ⟨hr, ?_⟩
            rw [ctxWf_setVar]
            exact ((ih.toVal b ctx ht.2 hcx).2 v _ h1).2
      | addAssign id b =>
        simp only [AstT.wf, Bool.and_eq_true] at ht
        simp only [evalAstCore]
        exact ih.compound id b checkedAdd r ctx ht.1 ht.2 hr hcx
          (fun va vb e2 hva hvb h2 => checkedAdd_errWf L va vb e2 hva hvb h2)
      | subAssign id b =>
        simp only [AstT.wf, Bool.and_eq_true] at ht
        simp only [evalAstCore]
        exact ih.compound id b checkedSub r ctx ht.1 ht.2 hr hcx
          (fun va vb e2 hva hvb h2 => checkedSub_errWf L va vb e2 hva hvb h2)
      | mulAssign id b =>
        simp only [AstT.wf, Bool.and_eq_true] at ht
        simp only [evalAstCore]
        exact ih.compound id b checkedMul r ctx ht.1 ht.2 hr hcx
          (fun va vb e2 hva hvb h2 => checkedMul_errWf L va vb e2 hva hvb h2)
      | divAssign id b =>
        simp only [AstT.wf, Bool.and_eq_true] at ht
        simp only [evalAstCore]
        exact ih.compound id b checkedDiv r ctx ht.1 ht.2 hr hcx
          (fun va vb e2 hva hvb h2 => checkedDiv_errWf L va vb e2 hva hvb h2)
      | rangeEx a b =>
        simp only [AstT.wf, Bool.and_eq_true] at ht
        constructor
        · intro e h
          simp only [evalAstCore] at h
          cases h1 : evalToInt f a ctx with
          | error e1 =>
            rw [h1] at h; dsimp only at h; cases h
            exact (ih.toInt a ctx ht.1 hcx).1 e h1
          | ok ic =>
            obtain ⟨va, c1⟩ := ic
            rw [h1] at h; dsimp only at h
            have hc1 := (ih.toInt a ctx ht.1 hcx).2 va c1 h1
            cases h2 : evalToInt f b c1 with
            | error e2 =>
              rw [h2] at h; dsimp only at h; cases h
              exact (ih.toInt b c1 ht.2 hc1).1 e h2
            | ok ic2 =>
              obtain ⟨vb, c2⟩ := ic2
              rw [h2] at h; dsimp only at h; cases h
        · intro ret c0 h
          simp only [evalAstCore] at h
          cases h1 : evalToInt f a ctx with
          | error e1 => rw [h1] at h; dsimp only at h; cases h
          | ok ic =>
            obtain ⟨va, c1⟩ := ic
            rw [h1] at h; dsimp only at h
            have hc1 := (ih.toInt a ctx ht.1 hcx).2 va c1 h1
            cases h2 : evalToInt f b c1 with
            | error e2 => rw [h2] at h; dsimp only at h; cases h
            | ok ic2 =>
              obtain ⟨vb, c2⟩ := ic2
              rw [h2] at h; dsimp only at h; cases h
              exact ⟨hr, (ih.toInt b c1 ht.2 hc1).2 vb _ h2⟩
      | rangeIn a b =>
        simp only [AstT.wf, Bool.and_eq_true] at ht
        constructor
        · intro e h
          simp only [evalAstCore] at h
          cases h1 : evalToInt f a ctx with
          | error e1 =>
            rw [h1] at h; dsimp only at h; cases h
            exact (ih.toInt a ctx ht.1 hcx).1 e h1
          | ok ic =>
            obtain ⟨va, c1⟩ := ic
            rw [h1] at h; dsimp only at h
            have hc1 := (ih.toInt a ctx ht.1 hcx).2 va c1 h1
            cases h2 : evalToInt f b c1 with
            | error e2 =>
              rw [h2] at h; dsimp only at h; cases h
              exact (ih.toInt b c1 ht.2 hc1).1 e h2
            | ok ic2 =>
              obtain ⟨vb, c2⟩ := ic2
              rw [h2] at h; dsimp only at h; cases h
        · intro ret c0 h
          simp only [evalAstCore] at h
          cases h1 : evalToInt f a ctx with
          | error e1 => rw [h1] at h; dsimp only at h; cases h
          | ok ic =>
            obtain ⟨va, c1⟩ := ic
            rw [h1] at h; dsimp only at h
            have hc1 := (ih.toInt a ctx ht.1 hcx).2 va c1 h1
            cases h2 : evalToInt f b c1 with
            | error e2 => rw [h2] at h; dsimp only at h; cases h
            | ok ic2 =>
              obtain ⟨vb, c2⟩ := ic2
              rw [h2] at h; dsimp only at h; cases h
              exact ⟨hr, (ih.toInt b c1 ht.2 hc1).2 vb _ h2⟩
      | neg a =>
        constructor
        · intro e h
          simp only [evalAstCore] at h
          cases h1 : evalToVal f a ctx with
          | error e1 =>
            rw [h1] at h; dsimp only at h; cases h
            exact (ih.toVal a ctx ht hcx).1 e h1
          | ok vc =>
            obtain ⟨v, c1⟩ := vc
            rw [h1] at h; dsimp only at h
            cases h2 : negVal v with
            | ok val => rw [h2] at h; dsimp only at h; cases h
            | error e2 =>
              rw [h2] at h; dsimp only at h; cases h
              exact negVal_errWf L v e ((ih.toVal a ctx ht hcx).2 v c1 h1).1 h2
        · intro ret c0 h
          simp only [evalAstCore] at h
          cases h1 : evalToVal f a ctx with
          | error e1 => rw [h1] at h; dsimp only at h; cases h
          | ok vc =>
            obtain ⟨v, c1⟩ := vc
            rw [h1] at h; dsimp only at h
            cases h2 : negVal v with
            | error e2 => rw [h2] at h; dsimp only at h; cases h
            | ok val =>
              rw [h2] at h; dsimp only at h; cases h
              exact ⟨hr, ((ih.toVal a ctx ht hcx).2 v _ h1).2⟩
      | add a b =>
        simp only [AstT.wf, Bool.and_eq_true] at ht
        simp only [evalAstCore]
        exact ih.bin a b checkedAdd r ctx ht.1 ht.2 hr hcx
          (fun va vb e2 hva hvb h2 => checkedAdd_errWf L va vb e2 hva hvb h2)
      | sub a b =>
        simp only [AstT.wf, Bool.and_eq_true] at ht
        simp only [evalAstCore]
        exact ih.bin a b checkedSub r ctx ht.1 ht.2 hr hcx
          (fun va vb e2 hva hvb h2 => checkedSub_errWf L va vb e2 hva hvb h2)
      | mul a b =>
        simp only [AstT.wf, Bool.and_eq_true] at ht
        simp only [evalAstCore]
        exact ih.bin a b checkedMul r ctx ht.1 ht.2 hr hcx
          (fun va vb e2 hva hvb h2 => checkedMul_errWf L va vb e2 hva hvb h2)
      | div a b =>
        simp only [AstT.wf, Bool.and_eq_true] at ht
        simp only [evalAstCore]
        exact ih.bin a b checkedDiv r ctx ht.1 ht.2 hr hcx
          (fun va vb e2 hva hvb h2 => checkedDiv_errWf L va vb e2 hva hvb h2)
      | intDiv a b =>
        simp only [AstT.wf, Bool.and_eq_true] at ht
        simp only [evalAstCore]
        exact ih.bin a b intDivVals r ctx ht.1 ht.2 hr hcx
          (fun va vb e2 hva hvb h2 => intDivVals_errWf L va vb e2 hva hvb h2)
      | rem a b =>
        simp only [AstT.wf, Bool.and_eq_true] at ht
        simp only [evalAstCore]
        exact ih.bin a b remVals r ctx ht.1 ht.2 hr hcx
          (fun va vb e2 hva hvb h2 => remVals_errWf L va vb e2 hva hvb h2)
      | pow a b =>
        simp only [AstT.wf, Bool.and_eq_true] at ht
        simp only [evalAstCore]
        exact ih.bin a b powVals r ctx ht.1 ht.2 hr hcx
          (fun va vb e2 hva hvb h2 => powVals_errWf L va vb e2 hva hvb h2)
      | eq a b =>
        simp only [AstT.wf, Bool.and_eq_true] at ht
        simp only [evalAstCore]
        exact ih.bin a b (fun va vb => .ok (.bool (Val.beq va.val vb.val))) r ctx
          ht.1 ht.2 hr hcx (fun va vb e2 hva hvb h2 => by cases h2)
      | ne a b =>
        simp only [AstT.wf, Bool.and_eq_true] at ht
        simp only [evalAstCore]
        exact ih.bin a b (fun va vb => .ok (.bool (! Val.beq va.val vb.val))) r ctx
          ht.1 ht.2 hr hcx (fun va vb e2 hva hvb h2 => by cases h2)
      | lt a b =>
        simp only [AstT.wf, Bool.and_eq_true] at ht
        simp only [evalAstCore]
        exact ih.cmp a b FVal.lt r ctx ht.1 ht.2 hr hcx
      | le a b =>
        simp only [AstT.wf, Bool.and_eq_true] at ht
        simp only [evalAstCore]
        exact ih.cmp a b FVal.le r ctx ht.1 ht.2 hr hcx
      | gt a b =>
        simp only [AstT.wf, Bool.and_eq_true] at ht
        simp only [evalAstCore]
        exact ih.cmp a b (fun x y => FVal.lt y x) r ctx ht.1 ht.2 hr hcx
      | ge a b =>
        simp only [AstT.wf, Bool.and_eq_true] at ht
        simp only [evalAstCore]
        exact ih.cmp a b (fun x y => FVal.le y x) r ctx ht.1 ht.2 hr hcx
      | or a b =>
        simp only [AstT.wf, Bool.and_eq_true] at ht
        constructor
        · intro e h
          simp only [evalAstCore] at h
          cases h1 : evalToBool f a ctx with
          | error e1 =>
            rw [h1] at h; dsimp only at h; cases h
            exact (ih.toBool a ctx ht.1 hcx).1 e h1
          | ok bc =>
            obtain ⟨ba, c1⟩ := bc
            rw [h1] at h; dsimp only at h
            have hc1 := (ih.toBool a ctx ht.1 hcx).2 ba c1 h1
            cases h2 : evalToBool f b c1 with
            | error e2 =>
              rw [h2] at h; dsimp only at h; cases h
              exact (ih.toBool b c1 ht.2 hc1).1 e h2
            | ok bc2 =>
              obtain ⟨bb, c2⟩ := bc2
              rw [h2] at h; dsimp only at h; cases h
        · intro ret c0 h
          simp only [evalAstCore] at h
          cases h1 : evalToBool f a ctx with
          | error e1 => rw [h1] at h; dsimp only at h; cases h
          | ok bc =>
            obtain ⟨ba, c1⟩ := bc
            rw [h1] at h; dsimp only at h
            have hc1 := (ih.toBool a ctx ht.1 hcx).2 ba c1 h1
            cases h2 : evalToBool f b c1 with
            | error e2 => rw [h2] at h; dsimp only at h; cases h
            | ok bc2 =>
              obtain ⟨bb, c2⟩ := bc2
              rw [h2] at h; dsimp only at h; cases h
              exact ⟨hr, (ih.toBool b c1 ht.2 hc1).2 bb _ h2⟩
      | and a b =>
        simp only [AstT.wf, Bool.and_eq_true] at ht
        constructor
        · intro e h
          simp only [evalAstCore] at h
          cases h1 : evalToBool f a ctx with
          | error e1 =>
            rw [h1] at h; dsimp only at h; cases h
            exact (ih.toBool a ctx ht.1 hcx).1 e h1
          | ok bc =>
            obtain ⟨ba, c1⟩ := bc
            rw [h1] at h; dsimp only at h
            have hc1 := (ih.toBool a ctx ht.1 hcx).2 ba c1 h1
            cases h2 : evalToBool f b c1 with
            | error e2 =>
              rw [h2] at h; dsimp only at h; cases h
              exact (ih.toBool b c1 ht.2 hc1).1 e h2
            | ok bc2 =>
              obtain ⟨bb, c2⟩ := bc2
              rw [h2] at h; dsimp only at h; cases h
        · intro ret c0 h
          simp only [evalAstCore] at h
          cases h1 : evalToBool f a ctx with
          | error e1 => rw [h1] at h; dsimp only at h; cases h
          | ok bc =>
            obtain ⟨ba, c1⟩ := bc
            rw [h1] at h; dsimp only at h
            have hc1 := (ih.toBool a ctx ht.1 hcx).2 ba c1 h1
            cases h2 : evalToBool f b c1 with
            | error e2 => rw [h2] at h; dsimp only at h; cases h
            | ok bc2 =>
              obtain ⟨bb, c2⟩ := bc2
              rw [h2] at h; dsimp only at h; cases h
              exact ⟨hr, (ih.toBool b c1 ht.2 hc1).2 bb _ h2⟩
      | bwOr a b =>
        simp only [AstT.wf, Bool.and_eq_true] at ht
        simp only [evalAstCore]
        exact ih.bin a b bwOrVals r ctx ht.1 ht.2 hr hcx
          (fun va vb e2 hva hvb h2 => bwOrVals_errWf L va vb e2 hva hvb h2)
      | bwAnd a b =>
        simp only [AstT.wf, Bool.and_eq_true] at ht
        simp only [evalAstCore]
        exact ih.bin a b bwAndVals r ctx ht.1 ht.2 hr hcx
          (fun va vb e2 hva hvb h2 => bwAndVals_errWf L va vb e2 hva hvb h2)
      | not a =>
        constructor
        · intro e h
          simp only [evalAstCore] at h
          cases h1 : evalToBool f a ctx with
          | error e1 =>
            rw [h1] at h; dsimp only at h; cases h
            exact (ih.toBool a ctx ht hcx).1 e h1
          | ok bc =>
            obtain ⟨b, c1⟩ := bc
            rw [h1] at h; dsimp only at h; cases h
        · intro ret c0 h
          simp only [evalAstCore] at h
          cases h1 : evalToBool f a ctx with
          | error e1 => rw [h1] at h; dsimp only at h; cases h
          | ok bc =>
            obtain ⟨b, c1⟩ := bc
            rw [h1] at h; dsimp only at h; cases h
            exact ⟨hr, (ih.toBool a ctx ht hcx).2 b _ h1⟩
      | degree a =>
        constructor
        · intro e h
          simp only [evalAstCore] at h
          cases h1 : evalToF64 f a ctx with
          | error e1 =>
            rw [h1] at h; dsimp only at h; cases h
            exact (ih.toF64 a ctx ht hcx).1 e h1
          | ok fc =>
            obtain ⟨fv, c1⟩ := fc
            rw [h1] at h; dsimp only at h; cases h
        · intro ret c0 h
          simp only [evalAstCore] at h
          cases h1 : evalToF64 f a ctx with
          | error e1 => rw [h1] at h; dsimp only at h; cases h
          | ok fc =>
            obtain ⟨fv, c1⟩ := fc
            rw [h1] at h; dsimp only at h; cases h
            exact ⟨hr, (ih.toF64 a ctx ht hcx).2 fv _ h1⟩
      | radian a =>
        constructor
        · intro e h
          simp only [evalAstCore] at h
          cases h1 : evalToF64 f a ctx with
          | error e1 =>
            rw [h1] at h; dsimp only at h; cases h
            exact (ih.toF64 a ctx ht hcx).1 e h1
          | ok fc =>
            obtain ⟨fv, c1⟩ := fc
            rw [h1] at h; dsimp only at h; cases h
        · intro ret c0 h
          simp only [evalAstCore] at h
          cases h1 : evalToF64 f a ctx with
          | error e1 => rw [h1] at h; dsimp only at h; cases h
          | ok fc =>
            obtain ⟨fv, c1⟩ := fc
            rw [h1] at h; dsimp only at h; cases h
            exact ⟨hr, (ih.toF64 a ctx ht hcx).2 fv _ h1⟩
      | factorial a =>
        constructor
        · intro e h
          simp only [evalAstCore] at h
          cases h1 : evalToVal f a ctx with
          | error e1 =>
            rw [h1] at h; dsimp only at h; cases h
            exact (ih.toVal a ctx ht hcx).1 e h1
          | ok vc =>
            obtain ⟨v, c1⟩ := vc
            rw [h1] at h; dsimp only at h
            cases h2 : factorialVal v r with
            | ok ret2 => rw [h2] at h; dsimp only at h; cases h
            | error e2 =>
              rw [h2] at h; dsimp only at h; cases h
              exact (factorialVal_wf L v r ((ih.toVal a ctx ht hcx).2 v c1 h1).1 hr).1 e h2
        · intro ret c0 h
          simp only [evalAstCore] at h
          cases h1 : evalToVal f a ctx with
          | error e1 => rw [h1] at h; dsimp only at h; cases h
          | ok vc =>
            obtain ⟨v, c1⟩ := vc
            rw [h1] at h; dsimp only at h
            cases h2 : factorialVal v r with
            | error e2 => rw [h2] at h; dsimp only at h; cases h
            | ok ret2 =>
              rw [h2] at h; dsimp only at h; cases h
              refine ⟨?_, ((ih.toVal a ctx ht hcx).2 v _ h1).2⟩
              rw [(factorialVal_wf L v r ((ih.toVal a ctx ht hcx).2 v _ h1).1 hr).2 _ h2]
              exact hr
      | ln a =>
        constructor
        · intro e h
          simp only [evalAstCore] at h
          cases h1 : evalToF64 f a ctx with
          | error e1 =>
            rw [h1] at h; dsimp only at h; cases h
            exact (ih.toF64 a ctx ht hcx).1 e h1
          | ok fc =>
            obtain ⟨fv, c1⟩ := fc
            rw [h1] at h; dsimp only at h; cases h
        · intro ret c0 h
          simp only [evalAstCore] at h
          cases h1 : evalToF64 f a ctx with
          | error e1 => rw [h1] at h; dsimp only at h; cases h
          | ok fc =>
            obtain ⟨fv, c1⟩ := fc
            rw [h1] at h; dsimp only at h; cases h
            exact ⟨hr, (ih.toF64 a ctx ht hcx).2 fv _ h1⟩
      | log a b =>
        simp only [AstT.wf, Bool.and_eq_true] at ht
        constructor
        · intro e h
          simp only [evalAstCore] at h
          cases h1 : evalToF64 f a ctx with
          | error e1 =>
            rw [h1] at h; dsimp only at h; cases h
            exact (ih.toF64 a ctx ht.1 hcx).1 e h1
          | ok fc =>
            obtain ⟨fb, c1⟩ := fc
            rw [h1] at h; dsimp only at h
            have hc1 := (ih.toF64 a ctx ht.1 hcx).2 fb c1 h1
            cases h2 : evalToF64 f b c1 with
            | error e2 =>
              rw [h2] at h; dsimp only at h; cases h
              exact (ih.toF64 b c1 ht.2 hc1).1 e h2
            | ok fc2 =>
              obtain ⟨fn2, c2⟩ := fc2
              rw [h2] at h; dsimp only at h; cases h
        · intro ret c0 h
          simp only [evalAstCore] at h
          cases h1 : evalToF64 f a ctx with
          | error e1 => rw [h1] at h; dsimp only at h; cases h
          | ok fc =>
            obtain ⟨fb, c1⟩ := fc
            rw [h1] at h; dsimp only at h
            have hc1 := (ih.toF64 a ctx ht.1 hcx).2 fb c1 h1
            cases h2 : evalToF64 f b c1 with
            | error e2 => rw [h2] at h; dsimp only at h; cases h
            | ok fc2 =>
              obtain ⟨fn2, c2⟩ := fc2
              rw [h2] at h; dsimp only at h; cases h
              exact ⟨hr, (ih.toF64 b c1 ht.2 hc1).2 fn2 _ h2⟩
      | sqrt a =>
        constructor
        · intro e h
          simp only [evalAstCore] at h
          cases h1 : evalToF64 f a ctx with
          | error e1 =>
            rw [h1] at h; dsimp only at h; cases h
            exact (ih.toF64 a ctx ht hcx).1 e h1
          | ok fc =>
            obtain ⟨fv, c1⟩ := fc
            rw [h1] at h; dsimp only at h; cases h
        · intro ret c0 h
          simp only [evalAstCore] at h
          cases h1 : evalToF64 f a ctx with
          | error e1 => rw [h1] at h; dsimp only at h; cases h
          | ok fc =>
            obtain ⟨fv, c1⟩ := fc
            rw [h1] at h; dsimp only at h; cases h
            exact ⟨hr, (ih.toF64 a ctx ht hcx).2 fv _ h1⟩
      | ncr a b =>
        simp only [AstT.wf, Bool.and_eq_true] at ht
        simp only [evalAstCore]
        exact ih.bin a b ncrVals r ctx ht.1 ht.2 hr hcx
          (fun va vb e2 hva hvb h2 => ncrVals_errWf L va vb e2 hva hvb h2)
      | sin a =>
        constructor
        · intro e h
          simp only [evalAstCore] at h
          cases h1 : evalToF64 f a ctx with
          | error e1 =>
            rw [h1] at h; dsimp only at h; cases h
            exact (ih.toF64 a ctx ht hcx).1 e h1
          | ok fc =>
            obtain ⟨fv, c1⟩ := fc
            rw [h1] at h; dsimp only at h; cases h
        · intro ret c0 h
          simp only [evalAstCore] at h
          cases h1 : evalToF64 f a ctx with
          | error e1 => rw [h1] at h; dsimp only at h; cases h
          | ok fc =>
            obtain ⟨fv, c1⟩ := fc
            rw [h1] at h; dsimp only at h; cases h
            exact ⟨hr, (ih.toF64 a ctx ht hcx).2 fv _ h1⟩
      | cos a =>
        constructor
        · intro e h
          simp only [evalAstCore] at h
          cases h1 : evalToF64 f a ctx with
          | error e1 =>
            rw [h1] at h; dsimp only at h; cases h
            exact (ih.toF64 a ctx ht hcx).1 e h1
          | ok fc =>
            obtain ⟨fv, c1⟩ := fc
            rw [h1] at h; dsimp only at h; cases h
        · intro ret c0 h
          simp only [evalAstCore] at h
          cases h1 : evalToF64 f a ctx with
          | error e1 => rw [h1] at h; dsimp only at h; cases h
          | ok fc =>
            obtain ⟨fv, c1⟩ := fc
            rw [h1] at h; dsimp only at h; cases h
            exact ⟨hr, (ih.toF64 a ctx ht hcx).2 fv _ h1⟩
      | tan a =>
        constructor
        · intro e h
          simp only [evalAstCore] at h
          cases h1 : evalToF64 f a ctx with
          | error e1 =>
            rw [h1] at h; dsimp only at h; cases h
            exact (ih.toF64 a ctx ht hcx).1 e h1
          | ok fc =>
            obtain ⟨fv, c1⟩ := fc
            rw [h1] at h; dsimp only at h; cases h
        · intro ret c0 h
          simp only [evalAstCore] at h
          cases h1 : evalToF64 f a ctx with
          | error e1 => rw [h1] at h; dsimp only at h; cases h
          | ok fc =>
            obtain ⟨fv, c1⟩ := fc
            rw [h1] at h; dsimp only at h; cases h
            exact ⟨hr, (ih.toF64 a ctx ht hcx).2 fv _ h1⟩
      | asin a =>
        constructor
        · intro e h
          simp only [evalAstCore] at h
          cases h1 : evalToF64 f a ctx with
          | error e1 =>
            rw [h1] at h; dsimp only at h; cases h
            exact (ih.toF64 a ctx ht hcx).1 e h1
          | ok fc =>
            obtain ⟨fv, c1⟩ := fc
            rw [h1] at h; dsimp only at h; cases h
        · intro ret c0 h
          simp only [evalAstCore] at h
          cases h1 : evalToF64 f a ctx with
          | error e1 => rw [h1] at h; dsimp only at h; cases h
          | ok fc =>
            obtain ⟨fv, c1⟩ := fc
            rw [h1] at h; dsimp only at h; cases h
            exact ⟨hr, (ih.toF64 a ctx ht hcx).2 fv _ h1⟩
      | acos a =>
        constructor
        · intro e h
          simp only [evalAstCore] at h
          cases h1 : evalToF64 f a ctx with
          | error e1 =>
            rw [h1] at h; dsimp only at h; cases h
            exact (ih.toF64 a ctx ht hcx).1 e h1
          | ok fc =>
            obtain ⟨fv, c1⟩ := fc
            rw [h1] at h; dsimp only at h; cases h
        · intro ret c0 h
          simp only [evalAstCore] at h
          cases h1 : evalToF64 f a ctx with
          | error e1 => rw [h1] at h; dsimp only at h; cases h
          | ok fc =>
            obtain ⟨fv, c1⟩ := fc
            rw [h1] at h; dsimp only at h; cases h
            exact ⟨hr, (ih.toF64 a ctx ht hcx).2 fv _ h1⟩
      | atan a =>
        constructor
        · intro e h
          simp only [evalAstCore] at h
          cases h1 : evalToF64 f a ctx with
          | error e1 =>
            rw [h1] at h; dsimp only at h; cases h
            exact (ih.toF64 a ctx ht hcx).1 e h1
          | ok fc =>
            obtain ⟨fv, c1⟩ := fc
            rw [h1] at h; dsimp only at h; cases h
        · intro ret c0 h
          simp only [evalAstCore] at h
          cases h1 : evalToF64 f a ctx with
          | error e1 => rw [h1] at h; dsimp only at h; cases h
          | ok fc =>
            obtain ⟨fv, c1⟩ := fc
            rw [h1] at h; dsimp only at h; cases h
            exact ⟨hr, (ih.toF64 a ctx ht hcx).2 fv _ h1⟩
      | gcd a b =>
        simp only [AstT.wf, Bool.and_eq_true] at ht
        simp only [evalAstCore]
        exact ih.bin a b gcdVals r ctx ht.1 ht.2 hr hcx
          (fun va vb e2 hva hvb h2 => gcdVals_errWf L va vb e2 hva hvb h2)
      | min args =>
        constructor
        · intro e h
          simp only [evalAstCore] at h
          cases h1 : evalMinArgs f args none ctx with
          | error e1 =>
            rw [h1] at h; dsimp only at h; cases h
            exact (ih.minA args none ctx ht hcx).1 e h1
          | ok mc =>
            obtain ⟨m, c1⟩ := mc
            rw [h1] at h
            cases m with
            | none => dsimp only at h; cases h
            | some mv => dsimp only at h; cases h
        · intro ret c0 h
          simp only [evalAstCore] at h
          cases h1 : evalMinArgs f args none ctx with
          | error e1 => rw [h1] at h; dsimp only at h; cases h
          | ok mc =>
            obtain ⟨m, c1⟩ := mc
            rw [h1] at h
            cases m with
            | none => dsimp only at h; cases h
            | some mv =>
              dsimp only at h; cases h
              exact ⟨hr, (ih.minA args none ctx ht hcx).2 _ _ h1⟩
      | max args =>
        constructor
        · intro e h
          simp only [evalAstCore] at h
          cases h1 : evalMaxArgs f args none ctx with
          | error e1 =>
            rw [h1] at h; dsimp only at h; cases h
            exact (ih.maxA args none ctx ht hcx).1 e h1
          | ok mc =>
            obtain ⟨m, c1⟩ := mc
            rw [h1] at h
            cases m with
            | none => dsimp only at h; cases h
            | some mv => dsimp only at h; cases h
        · intro ret c0 h
          simp only [evalAstCore] at h
          cases h1 : evalMaxArgs f args none ctx with
          | error e1 => rw [h1] at h; dsimp only at h; cases h
          | ok mc =>
            obtain ⟨m, c1⟩ := mc
            rw [h1] at h
            cases m with
            | none => dsimp only at h; cases h
            | some mv =>
              dsimp only at h; cases h
              exact ⟨hr, (ih.maxA args none ctx ht hcx).2 _ _ h1⟩
      | clamp n mn mx =>
        simp only [AstT.wf, Bool.and_eq_true] at ht
        obtain ⟨⟨hn, hmn⟩, hmx⟩ := ht
        constructor
        · intro e h
          simp only [evalAstCore] at h
          cases h1 : evalToVal f n ctx with
          | error e1 =>
            rw [h1] at h; dsimp only at h; cases h
            exact (ih.toVal n ctx hn hcx).1 e h1
          | ok vc1 =>
            obtain ⟨vn, c1⟩ := vc1
            rw [h1] at h; dsimp only at h
            have hv1 := (ih.toVal n ctx hn hcx).2 vn c1 h1
            cases h2 : evalToVal f mn c1 with
            | error e2 =>
              rw [h2] at h; dsimp only at h; cases h
              exact (ih.toVal mn c1 hmn hv1.2).1 e h2
            | ok vc2 =>
              obtain ⟨vmin, c2⟩ := vc2
              rw [h2] at h; dsimp only at h
              have hv2 := (ih.toVal mn c1 hmn hv1.2).2 vmin c2 h2
              cases h3 : evalToVal f mx c2 with
              | error e3 =>
                rw [h3] at h; dsimp only at h; cases h
                exact (ih.toVal mx c2 hmx hv2.2).1 e h3
              | ok vc3 =>
                obtain ⟨vmax, c3⟩ := vc3
                rw [h3] at h; dsimp only at h
                have hv3 := (ih.toVal mx c2 hmx hv2.2).2 vmax c3 h3
                cases h4 : clampVals vn vmin vmax with
                | ok val => rw [h4] at h; dsimp only at h; cases h
                | error e4 =>
                  rw [h4] at h; dsimp only at h; cases h
                  exact clampVals_errWf L vn vmin vmax e hv1.1 hv2.1 hv3.1 h4
        · intro ret c0 h
          simp only [evalAstCore] at h
          cases h1 : evalToVal f n ctx with
          | error e1 => rw [h1] at h; dsimp only at h; cases h
          | ok vc1 =>
            obtain ⟨vn, c1⟩ := vc1
            rw [h1] at h; dsimp only at h
            have hv1 := (ih.toVal n ctx hn hcx).2 vn c1 h1
            cases h2 : evalToVal f mn c1 with
            | error e2 => rw [h2] at h; dsimp only at h; cases h
            | ok vc2 =>
              obtain ⟨vmin, c2⟩ := vc2
              rw [h2] at h; dsimp only at h
              have hv2 := (ih.toVal mn c1 hmn hv1.2).2 vmin c2 h2
              cases h3 : evalToVal f mx c2 with
              | error e3 => rw [h3] at h; dsimp only at h; cases h
              | ok vc3 =>
                obtain ⟨vmax, c3⟩ := vc3
                rw [h3] at h; dsimp only at h
                cases h4 : clampVals vn vmin vmax with
                | error e4 => rw [h4] at h; dsimp only at h; cases h
                | ok val =>
                  rw [h4] at h; dsimp only at h; cases h
                  exact ⟨hr, ((ih.toVal mx c2 hmx hv2.2).2 vmax _ h3).2⟩
      | print args =>
        constructor
        · intro e h
          simp only [evalAstCore] at h
          cases h1 : evalToVals f args ctx with
          | error e1 =>
            rw [h1] at h; dsimp only at h; cases h
            exact (ih.toVals args ctx ht hcx).1 e h1
          | ok vc =>
            obtain ⟨vals, c1⟩ := vc
            rw [h1] at h; dsimp only at h; cases h
        · intro ret c0 h
          simp only [evalAstCore] at h
          cases h1 : evalToVals f args ctx with
          | error e1 => rw [h1] at h; dsimp only at h; cases h
          | ok vc =>
            obtain ⟨vals, c1⟩ := vc
            rw [h1] at h; dsimp only at h; cases h
            refine ⟨hr, ?_⟩
            rw [ctxWf_output]
            exact ((ih.toVals args ctx ht hcx).2 vals _ h1).2
      | println args =>
        constructor
        · intro e h
          simp only [evalAstCore] at h
          cases h1 : evalToVals f args ctx with
          | error e1 =>
            rw [h1] at h; dsimp only at h; cases h
            exact (ih.toVals args ctx ht hcx).1 e h1
          | ok vc =>
            obtain ⟨vals, c1⟩ := vc
            rw [h1] at h; dsimp only at h; cases h
        · intro ret c0 h
          simp only [evalAstCore] at h
          cases h1 : evalToVals f args ctx with
          | error e1 => rw [h1] at h; dsimp only at h; cases h
          | ok vc =>
            obtain ⟨vals, c1⟩ := vc
            rw [h1] at h; dsimp only at h; cases h
            refine ⟨hr, ?_⟩
            rw [ctxWf_output]
            exact ((ih.toVals args ctx ht hcx).2 vals _ h1).2
      | spill =>
        constructor
        · intro e h
          simp only [evalAstCore] at h
          cases h
        · intro ret c0 h
          simp only [evalAstCore] at h
          cases h
          refine ⟨hr, ?_⟩
          rw [ctxWf_output]
          exact hcx
      | assert a =>
        constructor
        · intro e h
          simp only [evalAstCore] at h
          cases h1 : evalToBool f a ctx with
          | error e1 =>
            rw [h1] at h; dsimp only at h; cases h
            exact (ih.toBool a ctx ht hcx).1 e h1
          | ok bc =>
            obtain ⟨b, c1⟩ := bc
            rw [h1] at h; dsimp only at h
            split at h
            · cases h
            · cases h
              have har := Ast.wf_range L a ht
              exact ⟨by simp, by simp [rangesOk, Error.ranges, har]⟩
        · intro ret c0 h
          simp only [evalAstCore] at h
          cases h1 : evalToBool f a ctx with
          | error e1 => rw [h1] at h; dsimp only at h; cases h
          | ok bc =>
            obtain ⟨b, c1⟩ := bc
            rw [h1] at h; dsimp only at h
            split at h
            · cases h
              exact ⟨hr, (ih.toBool a ctx ht hcx).2 b _ h1⟩
            · cases h
      | assertEq a b =>
        simp only [AstT.wf, Bool.and_eq_true] at ht
        constructor
        · intro e h
          simp only [evalAstCore] at h
          cases h1 : evalToVal f a ctx with
          | error e1 =>
            rw [h1] at h; dsimp only at h; cases h
            exact (ih.toVal a ctx ht.1 hcx).1 e h1
          | ok vc =>
            obtain ⟨va, c1⟩ := vc
            rw [h1] at h; dsimp only at h
            have hva := (ih.toVal a ctx ht.1 hcx).2 va c1 h1
            cases h2 : evalToVal f b c1 with
            | error e2 =>
              rw [h2] at h; dsimp only at h; cases h
              exact (ih.toVal b c1 ht.2 hva.2).1 e h2
            | ok vc2 =>
              obtain ⟨vb, c2⟩ := vc2
              rw [h2] at h; dsimp only at h
              have hvb := (ih.toVal b c1 ht.2 hva.2).2 vb c2 h2
              split at h
              · cases h
              · cases h
                exact ⟨by simp,
                  by simp [rangesOk, Error.ranges, hva.1, hvb.1]⟩
        · intro ret c0 h
          simp only [evalAstCore] at h
          cases h1 : evalToVal f a ctx with
          | error e1 => rw [h1] at h; dsimp only at h; cases h
          | ok vc =>
            obtain ⟨va, c1⟩ := vc
            rw [h1] at h; dsimp only at h
            have hva := (ih.toVal a ctx ht.1 hcx).2 va c1 h1
            cases h2 : evalToVal f b c1 with
            | error e2 => rw [h2] at h; dsimp only at h; cases h
            | ok vc2 =>
              obtain ⟨vb, c2⟩ := vc2
              rw [h2] at h; dsimp only at h
              split at h
              · cases h
                exact ⟨hr, ((ih.toVal b c1 ht.2 hva.2).2 vb _ h2).2⟩
              · cases h
    -- bin
    · intro a b g r ctx hwa hwb hr hcx hg
      constructor
      · intro e h
        rw [evalBin] at h
        cases h1 : evalToVal f a ctx with
        | error e1 =>
          rw [h1] at h; dsimp only at h; cases h
          exact (ih.toVal a ctx hwa hcx).1 e h1
        | ok vc =>
          obtain ⟨va, c1⟩ := vc
          rw [h1] at h; dsimp only at h
          have hva := (ih.toVal a ctx hwa hcx).2 va c1 h1
          cases h2 : evalToVal f b c1 with
          | error e2 =>
            rw [h2] at h; dsimp only at h; cases h
            exact (ih.toVal b c1 hwb hva.2).1 e h2
          | ok vc2 =>
            obtain ⟨vb, c2⟩ := vc2
            rw [h2] at h; dsimp only at h
            have hvb := (ih.toVal b c1 hwb hva.2).2 vb c2 h2
            cases h3 : g va vb with
            | error e3 =>
              rw [h3] at h; dsimp only at h; cases h
              exact hg va vb e hva.1 hvb.1 h3
            | ok val => rw [h3] at h; dsimp only at h; cases h
      · intro ret c h
        rw [evalBin] at h
        cases h1 : evalToVal f a ctx with
        | error e1 => rw [h1] at h; dsimp only at h; cases h
        | ok vc =>
          obtain ⟨va, c1⟩ := vc
          rw [h1] at h; dsimp only at h
          have hva := (ih.toVal a ctx hwa hcx).2 va c1 h1
          cases h2 : evalToVal f b c1 with
          | error e2 => rw [h2] at h; dsimp only at h; cases h
          | ok vc2 =>
            obtain ⟨vb, c2⟩ := vc2
            rw [h2] at h; dsimp only at h
            cases h3 : g va vb with
            | error e3 => rw [h3] at h; dsimp only at h; cases h
            | ok val =>
              rw [h3] at h; dsimp only at h; cases h
              exact ⟨hr, ((ih.toVal b c1 hwb hva.2).2 vb _ h2).2⟩
    -- cmp
    · intro a b g r ctx hwa hwb hr hcx
      constructor
      · intro e h
        rw [evalCmp] at h
        cases h1 : evalToF64 f a ctx with
        | error e1 =>
          rw [h1] at h; dsimp only at h; cases h
          exact (ih.toF64 a ctx hwa hcx).1 e h1
        | ok vc =>
          obtain ⟨fa, c1⟩ := vc
          rw [h1] at h; dsimp only at h
          have hc1 := (ih.toF64 a ctx hwa hcx).2 fa c1 h1
          cases h2 : evalToF64 f b c1 with
          | error e2 =>
            rw [h2] at h; dsimp only at h; cases h
            exact (ih.toF64 b c1 hwb hc1).1 e h2
          | ok vc2 =>
            obtain ⟨fb, c2⟩ := vc2
            rw [h2] at h; dsimp only at h; cases h
      · intro ret c h
        rw [evalCmp] at h
        cases h1 : evalToF64 f a ctx with
        | error e1 => rw [h1] at h; dsimp only at h; cases h
        | ok vc =>
          obtain ⟨fa, c1⟩ := vc
          rw [h1] at h; dsimp only at h
          have hc1 := (ih.toF64 a ctx hwa hcx).2 fa c1 h1
          cases h2 : evalToF64 f b c1 with
          | error e2 => rw [h2] at h; dsimp only at h; cases h
          | ok vc2 =>
            obtain ⟨fb, c2⟩ := vc2
            rw [h2] at h; dsimp only at h; cases h
            exact ⟨hr, (ih.toF64 b c1 hwb hc1).2 fb _ h2⟩
    -- toVal
    · intro a ctx hwf hcx
      have ha := ih.ast a ctx hwf hcx
      constructor
      · intro e h
        rw [evalToVal] at h
        cases h1 : evalAst f a ctx with
        | error e1 =>
          rw [h1] at h; dsimp only at h; cases h
          exact ha.1 e h1
        | ok rc =>
          obtain ⟨ret, c0⟩ := rc
          rw [h1] at h; dsimp only at h
          cases h2 : ret.intoVal with
          | error e2 =>
            rw [h2] at h; dsimp only at h; cases h
            exact intoVal_errWf L ret e (ha.2 ret c0 h1).1 h2
          | ok v => rw [h2] at h; dsimp only at h; cases h
      · intro v c h
        rw [evalToVal] at h
        cases h1 : evalAst f a ctx with
        | error e1 => rw [h1] at h; dsimp only at h; cases h
        | ok rc =>
          obtain ⟨ret, c0⟩ := rc
          rw [h1] at h; dsimp only at h
          cases h2 : ret.intoVal with
          | error e2 => rw [h2] at h; dsimp only at h; cases h
          | ok w =>
            rw [h2] at h; dsimp only at h; cases h
            refine ⟨?_, (ha.2 ret _ h1).2⟩
            rw [intoVal_ok_range ret _ h2]
            exact (ha.2 ret _ h1).1
    -- toInt
    · intro a ctx hwf hcx
      constructor
      · intro e h
        rw [evalToInt] at h
        cases h1 : evalToVal f a ctx with
        | error e1 =>
          rw [h1] at h; dsimp only at h; cases h
          exact (ih.toVal a ctx hwf hcx).1 e h1
        | ok vc =>
          obtain ⟨v, c0⟩ := vc
          rw [h1] at h; dsimp only at h
          cases h2 : v.toIntR with
          | error e2 =>
            rw [h2] at h; dsimp only at h; cases h
            exact (valConv_errWf L v e ((ih.toVal a ctx hwf hcx).2 v c0 h1).1).1 h2
          | ok i => rw [h2] at h; dsimp only at h; cases h
      · intro i c h
        rw [evalToInt] at h
        cases h1 : evalToVal f a ctx with
        | error e1 => rw [h1] at h; dsimp only at h; cases h
        | ok vc =>
          obtain ⟨v, c0⟩ := vc
          rw [h1] at h; dsimp only at h
          cases h2 : v.toIntR with
          | error e2 => rw [h2] at h; dsimp only at h; cases h
          | ok i2 =>
            rw [h2] at h; dsimp only at h; cases h
            exact ((ih.toVal a ctx hwf hcx).2 v _ h1).2
    -- toF64
    · intro a ctx hwf hcx
      constructor
      · intro e h
        rw [evalToF64] at h
        cases h1 : evalToVal f a ctx with
        | error e1 =>
          rw [h1] at h; dsimp only at h; cases h
          exact (ih.toVal a ctx hwf hcx).1 e h1
        | ok vc =>
          obtain ⟨v, c0⟩ := vc
          rw [h1] at h; dsimp only at h
          cases h2 : v.toF64R with
          | error e2 =>
            rw [h2] at h; dsimp only at h; cases h
            exact (valConv_errWf L v e ((ih.toVal a ctx hwf hcx).2 v c0 h1).1).2.1 h2
          | ok fv => rw [h2] at h; dsimp only at h; cases h
      · intro fv c h
        rw [evalToF64] at h
        cases h1 : evalToVal f a ctx with
        | error e1 => rw [h1] at h; dsimp only at h; cases h
        | ok vc =>
          obtain ⟨v, c0⟩ := vc
          rw [h1] at h; dsimp only at h
          cases h2 : v.toF64R with
          | error e2 => rw [h2] at h; dsimp only at h; cases h
          | ok fv2 =>
            rw [h2] at h; dsimp only at h; cases h
            exact ((ih.toVal a ctx hwf hcx).2 v _ h1).2
    -- toBool
    · intro a ctx hwf hcx
      constructor
      · intro e h
        rw [evalToBool] at h
        cases h1 : evalToVal f a ctx with
        | error e1 =>
          rw [h1] at h; dsimp only at h; cases h
          exact (ih.toVal a ctx hwf hcx).1 e h1
        | ok vc =>
          obtain ⟨v, c0⟩ := vc
          rw [h1] at h; dsimp only at h
          cases h2 : v.toBoolR with
          | error e2 =>
            rw [h2] at h; dsimp only at h; cases h
            exact (valConv_errWf L v e ((ih.toVal a ctx hwf hcx).2 v c0 h1).1).2.2.1 h2
          | ok b => rw [h2] at h; dsimp only at h; cases h
      · intro b c h
        rw [evalToBool] at h
        cases h1 : evalToVal f a ctx with
        | error e1 => rw [h1] at h; dsimp only at h; cases h
        | ok vc =>
          obtain ⟨v, c0⟩ := vc
          rw [h1] at h; dsimp only at h
          cases h2 : v.toBoolR with
          | error e2 => rw [h2] at h; dsimp only at h; cases h
          | ok b2 =>
            rw [h2] at h; dsimp only at h; cases h
            exact ((ih.toVal a ctx hwf hcx).2 v _ h1).2
    -- toRange
    · intro a ctx hwf hcx
      constructor
      · intro e h
        rw [evalToRange] at h
        cases h1 : evalToVal f a ctx with
        | error e1 =>
          rw [h1] at h; dsimp only at h; cases h
          exact (ih.toVal a ctx hwf hcx).1 e h1
        | ok vc =>
          obtain ⟨v, c0⟩ := vc
          rw [h1] at h; dsimp only at h
          cases h2 : v.toRangeR with
          | error e2 =>
            rw [h2] at h; dsimp only at h; cases h
            exact (valConv_errWf L v e ((ih.toVal a ctx hwf hcx).2 v c0 h1).1).2.2.2 h2
          | ok rg => rw [h2] at h; dsimp only at h; cases h
      · intro rg c h
        rw [evalToRange] at h
        cases h1 : evalToVal f a ctx with
        | error e1 => rw [h1] at h; dsimp only at h; cases h
        | ok vc =>
          obtain ⟨v, c0⟩ := vc
          rw [h1] at h; dsimp only at h
          cases h2 : v.toRangeR with
          | error e2 => rw [h2] at h; dsimp only at h; cases h
          | ok rg2 =>
            rw [h2] at h; dsimp only at h; cases h
            exact ((ih.toVal a ctx hwf hcx).2 v _ h1).2
    -- toVals
    · intro args ctx hwf hcx
      cases args with
      | nil =>
        constructor
        · intro e h
          rw [evalToVals] at h
          cases h
        · intro vs c h
          rw [evalToVals] at h
          cases h
          refine ⟨?_, hcx⟩
          intro v hv
          cases hv
      | cons a rest =>
        simp only [astsWf, Bool.and_eq_true] at hwf
        obtain ⟨hwa, hwrest⟩ := hwf
        constructor
        · intro e h
          rw [evalToVals] at h
          cases h1 : evalToVal f a ctx with
          | error e1 =>
            rw [h1] at h; dsimp only at h; cases h
            exact (ih.toVal a ctx hwa hcx).1 e h1
          | ok vc =>
            obtain ⟨v, c1⟩ := vc
            rw [h1] at h; dsimp only at h
            have hv := (ih.toVal a ctx hwa hcx).2 v c1 h1
            cases h2 : evalToVals f rest c1 with
            | error e2 =>
              rw [h2] at h; dsimp only at h; cases h
              exact (ih.toVals rest c1 hwrest hv.2).1 e h2
            | ok pc =>
              obtain ⟨vs, c2⟩ := pc
              rw [h2] at h; dsimp only at h; cases h
        · intro vs c h
          rw [evalToVals] at h
          cases h1 : evalToVal f a ctx with
          | error e1 => rw [h1] at h; dsimp only at h; cases h
          | ok vc =>
            obtain ⟨v, c1⟩ := vc
            rw [h1] at h; dsimp only at h
            have hv := (ih.toVal a ctx hwa hcx).2 v c1 h1
            cases h2 : evalToVals f rest c1 with
            | error e2 => rw [h2] at h; dsimp only at h; cases h
            | ok pc =>
              obtain ⟨vs2, c2⟩ := pc
              rw [h2] at h; dsimp only at h; cases h
              have hrest := (ih.toVals rest c1 hwrest hv.2).2 vs2 _ h2
              refine ⟨?_, hrest.2⟩
              intro w hw
              rcases List.mem_cons.mp hw with rfl | hw2
              · exact hv.1
              · exact hrest.1 w hw2
    -- listE
    · intro args ctx hwf hcx
      cases args with
      | nil =>
        constructor
        · intro e h
          rw [evalList] at h
          cases h
        · intro c h
          rw [evalList] at h
          cases h
          exact hcx
      | cons a rest =>
        simp only [astsWf, Bool.and_eq_true] at hwf
        obtain ⟨hwa, hwrest⟩ := hwf
        constructor
        · intro e h
          rw [evalList] at h
          cases h1 : evalAst f a ctx with
          | error e1 =>
            rw [h1] at h; dsimp only at h; cases h
            exact (ih.ast a ctx hwa hcx).1 e h1
          | ok rc =>
            obtain ⟨r0, c0⟩ := rc
            rw [h1] at h; dsimp only at h
            exact (ih.listE rest c0 hwrest ((ih.ast a ctx hwa hcx).2 r0 c0 h1).2).1 e h
        · intro c h
          rw [evalList] at h
          cases h1 : evalAst f a ctx with
          | error e1 => rw [h1] at h; dsimp only at h; cases h
          | ok rc =>
            obtain ⟨r0, c0⟩ := rc
            rw [h1] at h; dsimp only at h
            exact (ih.listE rest c0 hwrest ((ih.ast a ctx hwa hcx).2 r0 c0 h1).2).2 c h
    -- stmtsLast
    · intro args r ctx hwf hr hcx
      cases args with
      | nil =>
        constructor
        · intro e h
          rw [evalStmtsLast] at h
          cases h
        · intro ret c h
          rw [evalStmtsLast] at h
          cases h
          exact ⟨hr, hcx⟩
      | cons a rest =>
        simp only [astsWf, Bool.and_eq_true] at hwf
        obtain ⟨hwa, hwrest⟩ := hwf
        cases rest with
        | nil =>
          constructor
          · intro e h
            rw [evalStmtsLast] at h
            exact (ih.ast a ctx hwa hcx).1 e h
          · intro ret c h
            rw [evalStmtsLast] at h
            exact (ih.ast a ctx hwa hcx).2 ret c h
        | cons b rest2 =>
          constructor
          · intro e h
            rw [evalStmtsLast] at h
            case x_4 => simp
            cases h1 : evalAst f a ctx with
            | error e1 =>
              rw [h1] at h; dsimp only at h; cases h
              exact (ih.ast a ctx hwa hcx).1 e h1
            | ok rc =>
              obtain ⟨r0, c0⟩ := rc
              rw [h1] at h; dsimp only at h
              exact (ih.stmtsLast (b :: rest2) r c0 hwrest hr
                ((ih.ast a ctx hwa hcx).2 r0 c0 h1).2).1 e h
          · intro ret c h
            rw [evalStmtsLast] at h
            case x_4 => simp
            cases h1 : evalAst f a ctx with
            | error e1 => rw [h1] at h; dsimp only at h; cases h
            | ok rc =>
              obtain ⟨r0, c0⟩ := rc
              rw [h1] at h; dsimp only at h
              exact (ih.stmtsLast (b :: rest2) r c0 hwrest hr
                ((ih.ast a ctx hwa hcx).2 r0 c0 h1).2).2 ret c h
    -- block
    · intro args r ctx hwf hr hcx
      have hpush : ctxWf L (ctx.pushScope Scope.default) = true := by
        rw [ctxWf_pushScope]
        simpa [Scope.funsWf, Scope.default] using hcx
      constructor
      · intro e h
        rw [evalBlock] at h
        cases h1 : evalStmtsLast f args r (ctx.pushScope Scope.default) with
        | error e1 =>
          rw [h1] at h; dsimp only at h; cases h
          exact (ih.stmtsLast args r _ hwf hr hpush).1 e h1
        | ok rc =>
          obtain ⟨r0, c0⟩ := rc
          rw [h1] at h; dsimp only at h; cases h
      · intro ret c h
        rw [evalBlock] at h
        cases h1 : evalStmtsLast f args r (ctx.pushScope Scope.default) with
        | error e1 => rw [h1] at h; dsimp only at h; cases h
        | ok rc =>
          obtain ⟨r0, c0⟩ := rc
          rw [h1] at h; dsimp only at h; cases h
          have hres := (ih.stmtsLast args r _ hwf hr hpush).2 _ _ h1
          exact ⟨hres.1, ctxWf_popScope L _ hres.2⟩
    -- ifE
    · intro cases2 elseB r ctx hwc hwe hr hcx
      cases cases2 with
      | nil =>
        cases elseB with
        | none =>
          constructor
          · intro e h
            rw [evalIf] at h
            cases h
          · intro ret c h
            rw [evalIf] at h
            cases h
            exact ⟨hr, hcx⟩
        | some b =>
          have hb := hwe b rfl
          obtain ⟨basts, brange⟩ := b
          simp only [Block.wf, Bool.and_eq_true] at hb
          constructor
          · intro e h
            rw [evalIf] at h
            exact (ih.block basts brange ctx hb.1 hb.2 hcx).1 e h
          · intro ret c h
            rw [evalIf] at h
            exact (ih.block basts brange ctx hb.1 hb.2 hcx).2 ret c h
      | cons cnd rest =>
        simp only [condBlocksWf, Bool.and_eq_true] at hwc
        obtain ⟨hwcnd, hwrest⟩ := hwc
        obtain ⟨ccond, cblock, crange⟩ := cnd
        simp only [CondBlock.wf, Bool.and_eq_true] at hwcnd
        obtain ⟨⟨hwcc, hwcb⟩, hwcr⟩ := hwcnd
        constructor
        · intro e h
          rw [evalIf] at h
          cases h1 : evalToBool f (CondBlock.cond ⟨ccond, cblock, crange⟩) ctx with
          | error e1 =>
            rw [h1] at h; dsimp only at h; cases h
            exact (ih.toBool ccond ctx hwcc hcx).1 e h1
          | ok bc =>
            obtain ⟨bv, c1⟩ := bc
            rw [h1] at h
            have hc1 := (ih.toBool ccond ctx hwcc hcx).2 bv c1 h1
            cases bv with
            | true =>
              dsimp only at h
              exact (ih.block cblock r c1 hwcb hr hc1).1 e h
            | false =>
              dsimp only at h
              exact (ih.ifE rest elseB r c1 hwrest hwe hr hc1).1 e h
        · intro ret c h
          rw [evalIf] at h
          cases h1 : evalToBool f (CondBlock.cond ⟨ccond, cblock, crange⟩) ctx with
          | error e1 => rw [h1] at h; dsimp only at h; cases h
          | ok bc =>
            obtain ⟨bv, c1⟩ := bc
            rw [h1] at h
            have hc1 := (ih.toBool ccond ctx hwcc hcx).2 bv c1 h1
            cases bv with
            | true =>
              dsimp only at h
              exact (ih.block cblock r c1 hwcb hr hc1).2 ret c h
            | false =>
              dsimp only at h
              exact (ih.ifE rest elseB r c1 hwrest hwe hr hc1).2 ret c h
    -- whileE
    · intro c r ctx hwc hr hcx
      obtain ⟨ccond, cblock, crange⟩ := c
      simp only [CondBlock.wf, Bool.and_eq_true] at hwc
      obtain ⟨⟨hwcc, hwcb⟩, hwcr⟩ := hwc
      constructor
      · intro e h
        rw [evalWhile] at h
        cases h1 : evalToBool f (CondBlock.cond ⟨ccond, cblock, crange⟩) ctx with
        | error e1 =>
          rw [h1] at h; dsimp only at h; cases h
          exact (ih.toBool ccond ctx hwcc hcx).1 e h1
        | ok bc =>
          obtain ⟨bv, c1⟩ := bc
          rw [h1] at h
          have hc1 := (ih.toBool ccond ctx hwcc hcx).2 bv c1 h1
          cases bv with
          | false => dsimp only at h; cases h
          | true =>
            dsimp only at h
            cases h2 : evalBlock f (CondBlock.block ⟨ccond, cblock, crange⟩) r c1 with
            | error e2 =>
              rw [h2] at h; dsimp only at h; cases h
              exact (ih.block cblock r c1 hwcb hr hc1).1 e h2
            | ok rc =>
              obtain ⟨r0, c2⟩ := rc
              rw [h2] at h; dsimp only at h
              have hcw : CondBlock.wf L ⟨ccond, cblock, crange⟩ = true := by
                simp [CondBlock.wf, hwcc, hwcb, hwcr]
              exact (ih.whileE ⟨ccond, cblock, crange⟩ r c2 hcw hr
                ((ih.block cblock r c1 hwcb hr hc1).2 r0 c2 h2).2).1 e h
      · intro c2 h
        rw [evalWhile] at h
        cases h1 : evalToBool f (CondBlock.cond ⟨ccond, cblock, crange⟩) ctx with
        | error e1 => rw [h1] at h; dsimp only at h; cases h
        | ok bc =>
          obtain ⟨bv, c1⟩ := bc
          rw [h1] at h
          have hc1 := (ih.toBool ccond ctx hwcc hcx).2 bv c1 h1
          cases bv with
          | false =>
            dsimp only at h
            cases h
            exact hc1
          | true =>
            dsimp only at h
            cases h2 : evalBlock f (CondBlock.block ⟨ccond, cblock, crange⟩) r c1 with
            | error e2 => rw [h2] at h; dsimp only at h; cases h
            | ok rc =>
              obtain ⟨r0, c3⟩ := rc
              rw [h2] at h; dsimp only at h
              have hcw : CondBlock.wf L ⟨ccond, cblock, crange⟩ = true := by
                simp [CondBlock.wf, hwcc, hwcb, hwcr]
              exact (ih.whileE ⟨ccond, cblock, crange⟩ r c3 hcw hr
                ((ih.block cblock r c1 hwcb hr hc1).2 r0 c3 h2).2).2 c2 h
    -- forE
    · intro id iters blk ctx hwb hcx
      cases iters with
      | nil =>
        constructor
        · intro e h
          rw [evalFor] at h
          cases h
        · intro c2 h
          rw [evalFor] at h
          cases h
          exact hcx
      | cons i rest =>
        obtain ⟨basts, brange⟩ := blk
        simp only [Block.wf, Bool.and_eq_true] at hwb
        have hpush : ctxWf L
            (ctx.pushScope (Scope.default.defVar id (some (.int i)) false)) = true := by
          rw [ctxWf_pushScope]
          simpa [Scope.funsWf, Scope.defVar, Scope.default] using hcx
        have hbw : Block.wf L ⟨basts, brange⟩ = true := by
          simp [Block.wf, hwb.1, hwb.2]
        constructor
        · intro e h
          rw [evalFor] at h
          cases h1 : evalList f (Block.asts ⟨basts, brange⟩)
              (ctx.pushScope (Scope.default.defVar id (some (.int i)) false)) with
          | error e1 =>
            rw [h1] at h; dsimp only at h; cases h
            exact (ih.listE basts _ hwb.1 hpush).1 e h1
          | ok c1 =>
            rw [h1] at h; dsimp only at h
            exact (ih.forE id rest ⟨basts, brange⟩ c1.popScope hbw
              (ctxWf_popScope L c1 ((ih.listE basts _ hwb.1 hpush).2 c1 h1))).1 e h
        · intro c2 h
          rw [evalFor] at h
          cases h1 : evalList f (Block.asts ⟨basts, brange⟩)
              (ctx.pushScope (Scope.default.defVar id (some (.int i)) false)) with
          | error e1 => rw [h1] at h; dsimp only at h; cases h
          | ok c1 =>
            rw [h1] at h; dsimp only at h
            exact (ih.forE id rest ⟨basts, brange⟩ c1.popScope hbw
              (ctxWf_popScope L c1 ((ih.listE basts _ hwb.1 hpush).2 c1 h1))).2 c2 h
    -- minA
    · intro args acc ctx hwf hcx
      cases args with
      | nil =>
        constructor
        · intro e h
          rw [evalMinArgs] at h
          cases h
        · intro m c h
          rw [evalMinArgs] at h
          cases h
          exact hcx
      | cons a rest =>
        simp only [astsWf, Bool.and_eq_true] at hwf
        obtain ⟨hwa, hwrest⟩ := hwf
        constructor
        · intro e h
          rw [evalMinArgs] at h
          cases h1 : evalToVal f a ctx with
          | error e1 =>
            rw [h1] at h; dsimp only at h; cases h
            exact (ih.toVal a ctx hwa hcx).1 e h1
          | ok vc =>
            obtain ⟨v, c1⟩ := vc
            rw [h1] at h; dsimp only at h
            have hv := (ih.toVal a ctx hwa hcx).2 v c1 h1
            cases h2 : v.toF64R with
            | error e2 =>
              rw [h2] at h; dsimp only at h; cases h
              exact (valConv_errWf L v e hv.1).2.1 h2
            | ok fv =>
              rw [h2] at h; dsimp only at h
              cases acc with
              | none =>
                dsimp only at h
                exact (ih.minA rest (some fv) c1 hwrest hv.2).1 e h
              | some m =>
                dsimp only at h
                exact (ih.minA rest _ c1 hwrest hv.2).1 e h
        · intro m0 c h
          rw [evalMinArgs] at h
          cases h1 : evalToVal f a ctx with
          | error e1 => rw [h1] at h; dsimp only at h; cases h
          | ok vc =>
            obtain ⟨v, c1⟩ := vc
            rw [h1] at h; dsimp only at h
            have hv := (ih.toVal a ctx hwa hcx).2 v c1 h1
            cases h2 : v.toF64R with
            | error e2 => rw [h2] at h; dsimp only at h; cases h
            | ok fv =>
              rw [h2] at h; dsimp only at h
              cases acc with
              | none =>
                dsimp only at h
                exact (ih.minA rest (some fv) c1 hwrest hv.2).2 m0 c h
              | some m =>
                dsimp only at h
                exact (ih.minA rest _ c1 hwrest hv.2).2 m0 c h
    -- maxA
    · intro args acc ctx hwf hcx
      cases args with
      | nil =>
        constructor
        · intro e h
          rw [evalMaxArgs] at h
          cases h
        · intro m c h
          rw [evalMaxArgs] at h
          cases h
          exact hcx
      | cons a rest =>
        simp only [astsWf, Bool.and_eq_true] at hwf
        obtain ⟨hwa, hwrest⟩ := hwf
        constructor
        · intro e h
          rw [evalMaxArgs] at h
          cases h1 : evalToVal f a ctx with
          | error e1 =>
            rw [h1] at h; dsimp only at h; cases h
            exact (ih.toVal a ctx hwa hcx).1 e h1
          | ok vc =>
            obtain ⟨v, c1⟩ := vc
            rw [h1] at h; dsimp only at h
            have hv := (ih.toVal a ctx hwa hcx).2 v c1 h1
            cases h2 : v.toF64R with
            | error e2 =>
              rw [h2] at h; dsimp only at h; cases h
              exact (valConv_errWf L v e hv.1).2.1 h2
            | ok fv =>
              rw [h2] at h; dsimp only at h
              cases acc with
              | none =>
                dsimp only at h
                exact (ih.maxA rest (some fv) c1 hwrest hv.2).1 e h
              | some m =>
                dsimp only at h
                exact (ih.maxA rest _ c1 hwrest hv.2).1 e h
        · intro m0 c h
          rw [evalMaxArgs] at h
          cases h1 : evalToVal f a ctx with
          | error e1 => rw [h1] at h; dsimp only at h; cases h
          | ok vc =>
            obtain ⟨v, c1⟩ := vc
            rw [h1] at h; dsimp only at h
            have hv := (ih.toVal a ctx hwa hcx).2 v c1 h1
            cases h2 : v.toF64R with
            | error e2 => rw [h2] at h; dsimp only at h; cases h
            | ok fv =>
              rw [h2] at h; dsimp only at h
              cases acc with
              | none =>
                dsimp only at h
                exact (ih.maxA rest (some fv) c1 hwrest hv.2).2 m0 c h
              | some m =>
                dsimp only at h
                exact (ih.maxA rest _ c1 hwrest hv.2).2 m0 c h
    -- compound
    · intro id b g r ctx hid hwb hr hcx hg
      constructor
      · intro e h
        rw [evalCompoundAssign] at h
        cases h1 : ctx.resolveVar id with
        | error e1 =>
          rw [h1] at h; dsimp only at h; cases h
          exact resolveVar_errWf L ctx id e hid h1
        | ok va =>
          rw [h1] at h; dsimp only at h
          cases h2 : evalToVal f b ctx with
          | error e2 =>
            rw [h2] at h; dsimp only at h; cases h
            exact (ih.toVal b ctx hwb hcx).1 e h2
          | ok vc =>
            obtain ⟨vb, c1⟩ := vc
            rw [h2] at h; dsimp only at h
            cases h3 : g va vb with
            | error e3 =>
              rw [h3] at h; dsimp only at h; cases h
              have hva : rangeOk L va.range = true := by
                rw [resolveVar_ok_range ctx id va h1]
                exact hid
              exact hg va vb e hva ((ih.toVal b ctx hwb hcx).2 vb c1 h2).1 h3
            | ok val => rw [h3] at h; dsimp only at h; cases h
      · intro ret c h
        rw [evalCompoundAssign] at h
        cases h1 : ctx.resolveVar id with
        | error e1 => rw [h1] at h; dsimp only at h; cases h
        | ok va =>
          rw [h1] at h; dsimp only at h
          cases h2 : evalToVal f b ctx with
          | error e2 => rw [h2] at h; dsimp only at h; cases h
          | ok vc =>
            obtain ⟨vb, c1⟩ := vc
            rw [h2] at h; dsimp only at h
            cases h3 : g va vb with
            | error e3 => rw [h3] at h; dsimp only at h; cases h
            | ok val =>
              rw [h3] at h; dsimp only at h; cases h
              refine ⟨hr, ?_⟩
              rw [ctxWf_setVar]
              exact ((ih.toVal b ctx hwb hcx).2 vb _ h2).2
    -- funArgs
    · intro ps s ctx hps hcx
      cases ps with
      | nil =>
        constructor
        · intro e h
          rw [evalFunArgs] at h
          cases h
        · intro s2 c h
          rw [evalFunArgs] at h
          cases h
          exact hcx
      | cons pa rest =>
        obtain ⟨p, a⟩ := pa
        have hwa : Ast.wf L a = true := hps (p, a) (List.mem_cons_self _ _)
        have hrest : ∀ pa2 ∈ rest, Ast.wf L (Prod.snd pa2) = true :=
          fun pa2 hpa2 => hps pa2 (List.mem_cons_of_mem _ hpa2)
        constructor
        · intro e h
          rw [evalFunArgs] at h
          cases h1 : evalToVal f a ctx with
          | error e1 =>
            rw [h1] at h; dsimp only at h; cases h
            exact (ih.toVal a ctx hwa hcx).1 e h1
          | ok vc =>
            obtain ⟨v, c1⟩ := vc
            rw [h1] at h; dsimp only at h
            exact (ih.funArgs rest _ c1 hrest
              ((ih.toVal a ctx hwa hcx).2 v c1 h1).2).1 e h
        · intro s2 c h
          rw [evalFunArgs] at h
          cases h1 : evalToVal f a ctx with
          | error e1 => rw [h1] at h; dsimp only at h; cases h
          | ok vc =>
            obtain ⟨v, c1⟩ := vc
            rw [h1] at h; dsimp only at h
            exact (ih.funArgs rest _ c1 hrest
              ((ih.toVal a ctx hwa hcx).2 v c1 h1).2).2 s2 c h

/-- Claim C8: every error the evaluation pipeline returns on a
well-ranged program, starting from a context whose stored function
bodies are well-ranged (as the initial context trivially is), carries at
least one span, each lying within the source length, with the single
exception of `MissingExpr` (the empty program), whose span list is
empty. -/
theorem c8_error_spans (L f : Nat) (asts : List Ast) (ctx : Ctx) (e : Error)
    (hwf : astsWf L asts = true) (hctx : ctxWf L ctx = true)
    (h : evalAll f asts ctx = .error (.err e)) :
    (e = .missingExpr ∧ e.ranges = []) ∨ (e ≠ .missingExpr ∧ rangesOk L e) := by
  induction asts generalizing ctx with
  | nil =>
    rw [evalAll] at h
    cases h
    exact Or.inl ⟨rfl, rfl⟩
  | cons a rest ih =>
    simp only [astsWf, Bool.and_eq_true] at hwf
    cases rest with
    | nil =>
      rw [evalAll] at h
      rw [evalTop] at h
      cases h1 : evalAst f a ctx with
      | error e1 =>
        rw [h1] at h
        dsimp only at h
        cases h
        exact Or.inr (((evalWf_all L f).ast a ctx hwf.1 hctx).1 e h1)
      | ok rc =>
        obtain ⟨ret, c⟩ := rc
        rw [h1] at h
        cases ret <;> dsimp only at h <;> cases h
    | cons b rest2 =>
      rw [evalAll] at h
      case x_2 => simp
      cases h1 : evalAst f a ctx with
      | error e1 =>
        rw [h1] at h
        dsimp only at h
        cases h
        exact Or.inr (((evalWf_all L f).ast a ctx hwf.1 hctx).1 e h1)
      | ok rc =>
        obtain ⟨ret, c⟩ := rc
        rw [h1] at h
        dsimp only at h
        exact ih _ hwf.2 (((evalWf_all L f).ast a ctx hwf.1 hctx).2 ret c h1).2 h

/-- Witness for C8: the program `(-3)!` (source length 5), evaluated
from the initial context, fails with `NegativeFactorial`, whose single
span `[0,4)` lies within the source. -/
theorem c8_error_spans_witness :
    (Error.negativeFactorial ⟨.int (-3), ⟨0, 4⟩⟩ = .missingExpr ∧
      (Error.negativeFactorial ⟨.int (-3), ⟨0, 4⟩⟩).ranges = []) ∨
    (Error.negativeFactorial ⟨.int (-3), ⟨0, 4⟩⟩ ≠ .missingExpr ∧
      rangesOk 5 (.negativeFactorial ⟨.int (-3), ⟨0, 4⟩⟩)) :=
  c8_error_spans 5 9 [factNegProg] Ctx.initial _ (by decide) (by decide) (by rfl)
